import Mathlib

/-!
# Closure elimination and lazy-tensor IR nodes

A shallow embedding of

* `src/torch_mnm/csrc/pass_ext/eliminate_closure.cpp`
  (`ClosureEliminator::EliminateClosure`, `ClosureEliminator::operator()`,
  the module pass `EliminateClosure`), and
* the node classes of `src/razor/lazy_tensor_core/csrc/ops/*.cpp`
  (`Gather`, `MaxPoolNd`, `NllLossBackward`, `SoftmaxBackward`,
  `UpsampleNearestBackward`).

Stateful C++ (the `LetList` builder held in `ll_`) is embedded by explicit
state passing; `LOG(FATAL)`, failed `CHECK`s and `std::out_of_range` are
embedded as the `error` side of `Except`.  The module pass is embedded twice:
on module values, and on an object store in which module objects, their
function tables and function objects have addresses, so that what the pass
leaves unchanged can be stated.
-/

namespace mnm

/-! ## IR data model -/

/-- Relay types.  `TupleTypeNode`, `TensorTypeNode` and `FuncTypeNode` are the
three classes `EliminateClosure` tests with `ty.as<...>()`; every other type
class (type variables, incomplete types, reference types, ...) is `OtherType`. -/
inductive Ty where
  | TupleTypeNode (fields : List Ty)
  | TensorTypeNode (shape : List Int) (dtype : String)
  | FuncTypeNode (arg_types : List Ty) (ret_type : Ty)
  | OtherType (kind : String)
  deriving Repr, Inhabited

/-- Variables are compared by object identity in the IR; the identity is a
number here. -/
abbrev Var := Nat

/-- Device types of `DevType`. -/
inductive DevType where
  | kCPU
  | kCUDA
  deriving Repr, DecidableEq, Inhabited

/-- The class `Device(dev_type, dev_id)`. -/
structure Device where
  dev_type : DevType
  dev_id : Nat
  deriving Repr, DecidableEq, Inhabited

/-- A tensor value: where it lives, its tensor type, and its contents. -/
structure TensorValue where
  device : Device
  shape : List Int
  dtype : String
  data : List Int
  deriving Repr, DecidableEq, Inhabited

/-- Expressions.  `Var`, `Tuple`, `TupleGetItem`, `Call`, `Op`, `Constant` and
`Let` are the node classes the pass builds or inspects; `OtherExpr` stands for
every remaining class. -/
inductive Expr where
  | Var (v : Var)
  | Op (name : String)
  | Constant (value : TensorValue)
  | Tuple (fields : List Expr)
  | TupleGetItem (tuple : Expr) (index : Nat)
  | Call (op : Expr) (args : List Expr)
  | Let (var : Var) (value : Expr) (body : Expr)
  | OtherExpr (tag : Nat)
  deriving Repr, Inhabited

/-- The class `Function(params, body, ret_type, type_params)`; an undefined
`ret_type` (`Type()`, written `{}` at the call site) is `none`. -/
structure Function where
  params : List Var
  body : Expr
  ret_type : Option Ty
  type_params : List String
  deriving Repr, Inhabited

/-- A global function of a module: a relay `Function` or another kind of
`BaseFunc`. -/
inductive BaseFunc where
  | Function (f : Function)
  | OtherFunc (tag : Nat)
  deriving Repr, Inhabited

/-- The ways the pass aborts. -/
inductive PassError where
  /-- The failure `LOG(FATAL) << "Unsupported type: " << ty` of `EliminateClosure`. -/
  | UnsupportedType (ty : Ty)
  /-- The access `x->checked_type()` on a variable whose checked type is not populated. -/
  | UncheckedType (x : Var)
  /-- The call `ExplicitLetList::make` on a body that is not a chain of lets ending in a
  variable. -/
  | NotANF
  /-- The check `CHECK_EQ(vars.size(), exprs.size())`. -/
  | CheckFailed
  /-- The lookup `mod->Lookup(name)` or `GetGlobalVar(name)` on a name the module does not
  define. -/
  | NotFound (name : String)
  /-- The conversion `Downcast<Function>` on a global that is not a relay function. -/
  | BadDowncast
  deriving Repr, Inhabited

/-- The table of checked types (`checked_type_` of each variable object),
indexed by variable identity; `none` is the undefined type `Type()`. -/
abbrev CheckedTypes := Var → Option Ty

/-- The accessor `x->checked_type()`: the populated type, or a failed check. -/
def checked_type (ct : CheckedTypes) (x : Var) : Except PassError Ty :=
  match ct x with
  | some ty => .ok ty
  | none => .error (.UncheckedType x)

/-! ## Let lists -/

/-- Modelled from the spec: `LetList` of `meta/src/pass/let_list.h` is not
under `src/`.  "`push(expression)` appends a new binding, auto-generating a
fresh variable, and returns a reference to it; `push(variable, expression)`
binds an explicit variable; the builder accumulates bindings in insertion
order."  `lets_` is the accumulated binding list; `fresh_` is the identity the
next generated variable receives. -/
structure LetList where
  lets_ : List (Var × Expr)
  fresh_ : Nat
  deriving Repr, Inhabited

/-- Modelled from the spec: `LetList::Push(var, expr)`, "binds an explicit
variable", appended after the bindings pushed so far. -/
def LetList.PushVar (ll : LetList) (pv : Var) (expr : Expr) : Var × LetList :=
  (pv, ⟨ll.lets_ ++ [(pv, expr)], ll.fresh_⟩)

/-- Modelled from the spec: `LetList::Push(expr)`, "appends a new binding,
auto-generating a fresh variable, and returns a reference to it". -/
def LetList.Push (ll : LetList) (expr : Expr) : Var × LetList :=
  (ll.fresh_, ⟨ll.lets_ ++ [(ll.fresh_, expr)], ll.fresh_ + 1⟩)

/-- The chain of lets `let v0 = e0; ...; let vn-1 = en-1; body`. -/
def letChain : List (Var × Expr) → Expr → Expr
  | [], body => body
  | (v, e) :: rest, body => .Let v e (letChain rest body)

/-- Modelled from the spec: `LetList::Get(body)`, "emits a single composite
let expression chaining all accumulated bindings around that return value". -/
def LetList.Get (ll : LetList) (body : Expr) : Expr :=
  letChain ll.lets_ body

/-- Modelled from the spec: `LetList::With(f)`, "creates a builder, invokes
`buildFn` with it (which returns the final return-expression/value), and emits
a single composite let expression".  `fresh` is the identity of the first
variable the new builder generates. -/
def LetList.With (fresh : Nat) (f : LetList → Except PassError (Expr × LetList)) :
    Except PassError Expr :=
  match f ⟨[], fresh⟩ with
  | .ok (ret, ll) => .ok (ll.Get ret)
  | .error err => .error err

/-- Modelled from the spec: `ExplicitLetList` of `meta/src/pass/let_list.h`,
"an ordered sequence of (variable, expression) pairs representing a
straight-line (let-normal-form) program, plus a designated return variable". -/
structure ExplicitLetList where
  vars : List Var
  exprs : List Expr
  ret : Var
  deriving Repr, Inhabited

/-- Modelled from the spec: `ExplicitLetList::make(body)`, which flattens "the
function body's existing let-bindings ... preserving their order and bound
expressions verbatim".  A body that is not a chain of lets ending in a
variable is rejected. -/
def ExplicitLetList.make : Expr → Except PassError ExplicitLetList
  | .Let v e body =>
    match ExplicitLetList.make body with
    | .ok ell => .ok ⟨v :: ell.vars, e :: ell.exprs, ell.ret⟩
    | .error err => .error err
  | .Var r => .ok ⟨[], [], r⟩
  | _ => .error .NotANF

/-- The binding list of a flattened body, as pairs. -/
def ExplicitLetList.bindings (ell : ExplicitLetList) : List (Var × Expr) :=
  ell.vars.zip ell.exprs

/-! ## The closure eliminator -/

namespace pass
namespace eliminate_closure

/-- The placeholder `Call(Op::Get("mnm.op.abs"),
{MakeConstant(binding::MakeOnes(Device(DevType::kCPU(), 0)))})`.
`binding::MakeOnes` is declared in the source file and defined elsewhere; it
is a parameter. -/
def placeholder (MakeOnes : Device → TensorValue) : Expr :=
  .Call (.Op "mnm.op.abs") [.Constant (MakeOnes ⟨.kCPU, 0⟩)]

mutual
/-- The body of `ClosureEliminator::EliminateClosure(x, ty)` once `ty` is
defined: the dispatch on the class of `ty`.  The builder `ll_` is passed in
and returned. -/
def ClosureEliminator.EliminateClosureAt (MakeOnes : Device → TensorValue) (x : Var) :
    Ty → LetList → Except PassError (Expr × LetList)
  | .TupleTypeNode fields, ll =>
    match ClosureEliminator.EliminateClosureFields MakeOnes x fields 0 [] ll with
    | .ok (updated_fields, ll1) =>
      .ok (.Var (ll1.Push (.Tuple updated_fields)).1, (ll1.Push (.Tuple updated_fields)).2)
    | .error err => .error err
  | .TensorTypeNode _ _, ll => .ok (.Var x, ll)
  | .FuncTypeNode _ _, ll =>
    .ok (.Var (ll.Push (placeholder MakeOnes)).1, (ll.Push (placeholder MakeOnes)).2)
  | .OtherType kind, _ => .error (.UnsupportedType (.OtherType kind))
/-- The loop `for (i = 0; i < fields.size(); ++i)
updated_fields.push_back(EliminateClosure(ll_->Push(TupleGetItem(x, i)), fields[i]))`,
from index `i` on, with the fields still to visit and `updated_fields` so far. -/
def ClosureEliminator.EliminateClosureFields (MakeOnes : Device → TensorValue) (x : Var) :
    List Ty → Nat → List Expr → LetList → Except PassError (List Expr × LetList)
  | [], _, updated_fields, ll => .ok (updated_fields, ll)
  | ty :: rest, i, updated_fields, ll =>
    match ClosureEliminator.EliminateClosureAt MakeOnes (ll.Push (.TupleGetItem (.Var x) i)).1 ty
        (ll.Push (.TupleGetItem (.Var x) i)).2 with
    | .ok (e, ll1) =>
      ClosureEliminator.EliminateClosureFields MakeOnes x rest (i + 1) (updated_fields ++ [e]) ll1
    | .error err => .error err
end

/-- The method `ClosureEliminator::EliminateClosure(Var x, Type ty = Type())`:
an undefined `ty` is replaced by `x->checked_type()`. -/
def ClosureEliminator.EliminateClosure (MakeOnes : Device → TensorValue) (ct : CheckedTypes)
    (x : Var) (ty : Option Ty) (ll : LetList) : Except PassError (Expr × LetList) :=
  match ty with
  | some t => ClosureEliminator.EliminateClosureAt MakeOnes x t ll
  | none =>
    match checked_type ct x with
    | .ok t => ClosureEliminator.EliminateClosureAt MakeOnes x t ll
    | .error err => .error err

/-- The loop `for (i = 0; i < n; ++i) ll->Push(vars[i], exprs[i])`. -/
def pushAll (ll : LetList) : List Var → List Expr → LetList
  | v :: vars, e :: exprs => pushAll (ll.PushVar v e).2 vars exprs
  | _, _ => ll

/-- The call operator `ClosureEliminator::operator()(e)` on a function `func`
(the `Downcast<Function>(e)` has succeeded).  `fresh` is the identity of the
first variable the builder generates. -/
def ClosureEliminator.call (MakeOnes : Device → TensorValue) (ct : CheckedTypes)
    (fresh : Nat) (func : Function) : Except PassError Function :=
  match ExplicitLetList.make func.body with
  | .error err => .error err
  | .ok ell =>
    if ell.vars.length ≠ ell.exprs.length then .error .CheckFailed
    else
      match LetList.With fresh (fun ll =>
          ClosureEliminator.EliminateClosure MakeOnes ct ell.ret none
            (pushAll ll ell.vars ell.exprs)) with
      | .ok body => .ok ⟨func.params, body, none, func.type_params⟩
      | .error err => .error err

/-! ## Result types, typing and the emitted bindings -/

mutual
/-- A type is eliminable when it is built from tuple, tensor and function
types only: every leaf reached through tuple fields is a tensor type or a
function type. -/
def eliminable : Ty → Bool
  | .TupleTypeNode fields => eliminableFields fields
  | .TensorTypeNode _ _ => true
  | .FuncTypeNode _ _ => true
  | .OtherType _ => false
/-- Every type of the list is eliminable. -/
def eliminableFields : List Ty → Bool
  | [] => true
  | ty :: rest => eliminable ty && eliminableFields rest
end

mutual
/-- A type is a nesting of tuples whose leaves are all tensor types. -/
def tensorOnly : Ty → Bool
  | .TupleTypeNode fields => tensorOnlyFields fields
  | .TensorTypeNode _ _ => true
  | .FuncTypeNode _ _ => false
  | .OtherType _ => false
/-- Every type of the list is a nesting of tuples with tensor leaves. -/
def tensorOnlyFields : List Ty → Bool
  | [] => true
  | ty :: rest => tensorOnly ty && tensorOnlyFields rest
end

mutual
/-- A type has a function-typed component: a function type reached through
tuple fields. -/
def hasFuncLeaf : Ty → Bool
  | .TupleTypeNode fields => hasFuncLeafFields fields
  | .TensorTypeNode _ _ => false
  | .FuncTypeNode _ _ => true
  | .OtherType _ => false
/-- Some type of the list has a function-typed component. -/
def hasFuncLeafFields : List Ty → Bool
  | [] => false
  | ty :: rest => hasFuncLeaf ty || hasFuncLeafFields rest
end

mutual
/-- A type contains, at some tuple nesting depth and field position, a leaf
that is neither a tensor type nor a function type. -/
def hasOtherLeaf : Ty → Bool
  | .TupleTypeNode fields => hasOtherLeafFields fields
  | .TensorTypeNode _ _ => false
  | .FuncTypeNode _ _ => false
  | .OtherType _ => true
/-- Some type of the list contains such a leaf. -/
def hasOtherLeafFields : List Ty → Bool
  | [] => false
  | ty :: rest => hasOtherLeaf ty || hasOtherLeafFields rest
end

mutual
/-- The type `ty` with every function leaf replaced by the tensor type of the
placeholder constant `c`; tuple nesting and arities are kept. -/
def elimType (c : TensorValue) : Ty → Ty
  | .TupleTypeNode fields => .TupleTypeNode (elimTypeFields c fields)
  | .TensorTypeNode shape dtype => .TensorTypeNode shape dtype
  | .FuncTypeNode _ _ => .TensorTypeNode c.shape c.dtype
  | .OtherType kind => .OtherType kind
/-- The map of `elimType` over a list of field types. -/
def elimTypeFields (c : TensorValue) : List Ty → List Ty
  | [] => []
  | ty :: rest => elimType c ty :: elimTypeFields c rest
end

/-- The type of a call from the operator and the argument types: the unary
elementwise operator `mnm.op.abs` on a tensor has the type of its argument;
no other call is typed. -/
def callType (op : Expr) (args : Option (List Ty)) : Option Ty :=
  match op, args with
  | .Op name, some [.TensorTypeNode shape dtype] =>
    if name = "mnm.op.abs" then some (.TensorTypeNode shape dtype) else none
  | _, _ => none

/-- The type of a projection from the type of the tuple: the field type at
the index. -/
def projType (tuple : Option Ty) (index : Nat) : Option Ty :=
  match tuple with
  | some (.TupleTypeNode tys) => tys.get? index
  | _ => none

/-- The type of a tuple from the types of its fields. -/
def tupleType (fields : Option (List Ty)) : Option Ty :=
  match fields with
  | some tys => some (.TupleTypeNode tys)
  | none => none

/-- The types of a head and a tail, when both are typed. -/
def consType (head : Option Ty) (tail : Option (List Ty)) : Option (List Ty) :=
  match head, tail with
  | some ty, some tys => some (ty :: tys)
  | _, _ => none

mutual
/-- The typing rules of the expression classes the pass emits, over a table of
variable types: a variable has its recorded type, a constant the tensor type
of its value, a tuple the tuple of its field types, a projection the field
type at its index, and a call is typed by `callType`.  Other expressions are
not typed. -/
def typeOf (ct : CheckedTypes) : Expr → Option Ty
  | .Var v => ct v
  | .Op _ => none
  | .Constant value => some (.TensorTypeNode value.shape value.dtype)
  | .Tuple fields => tupleType (typeOfFields ct fields)
  | .TupleGetItem tuple index => projType (typeOf ct tuple) index
  | .Call op args => callType op (typeOfFields ct args)
  | .Let _ _ _ => none
  | .OtherExpr _ => none
/-- The types of a list of expressions, when all of them are typed. -/
def typeOfFields (ct : CheckedTypes) : List Expr → Option (List Ty)
  | [] => some []
  | e :: rest => consType (typeOf ct e) (typeOfFields ct rest)
end

/-- Type inference over a binding list, in order: a bound variable that has
no recorded type receives the type of its bound expression; recorded types
are kept. -/
def inferLets (ct : CheckedTypes) : List (Var × Expr) → CheckedTypes
  | [] => ct
  | (v, e) :: rest =>
    inferLets (fun w => if w = v then (match ct v with
      | some ty => some ty
      | none => typeOf ct e) else ct w) rest

mutual
/-- The bindings `EliminateClosure(x, ty)` pushes when the first generated
variable is `n`, and the variable it returns. -/
def emitAt (MakeOnes : Device → TensorValue) (x : Nat) : Ty → Nat → List (Nat × Expr) × Nat
  | .TupleTypeNode fields, n =>
    ((emitFields MakeOnes x fields 0 n).1 ++
      [(n + (emitFields MakeOnes x fields 0 n).1.length,
        .Tuple ((emitFields MakeOnes x fields 0 n).2.map .Var))],
     n + (emitFields MakeOnes x fields 0 n).1.length)
  | .TensorTypeNode _ _, _ => ([], x)
  | .FuncTypeNode _ _, n => ([(n, placeholder MakeOnes)], n)
  | .OtherType _, _ => ([], x)
/-- The bindings the field loop pushes from index `i` on when the first
generated variable is `n`, and the variables it collects. -/
def emitFields (MakeOnes : Device → TensorValue) (x : Nat) :
    List Ty → Nat → Nat → List (Nat × Expr) × List Nat
  | [], _, _ => ([], [])
  | ty :: rest, i, n =>
    ((n, .TupleGetItem (.Var x) i) :: (emitAt MakeOnes n ty (n + 1)).1 ++
      (emitFields MakeOnes x rest (i + 1) (n + 1 + (emitAt MakeOnes n ty (n + 1)).1.length)).1,
     (emitAt MakeOnes n ty (n + 1)).2 ::
      (emitFields MakeOnes x rest (i + 1) (n + 1 + (emitAt MakeOnes n ty (n + 1)).1.length)).2)
end

mutual
/-- The number of bindings the pass adds for a result type. -/
def added : Ty → Nat
  | .TupleTypeNode fields => 1 + addedFields fields
  | .TensorTypeNode _ _ => 0
  | .FuncTypeNode _ _ => 1
  | .OtherType _ => 0
/-- The sum over the fields of one projection binding plus the bindings
added for the field. -/
def addedFields : List Ty → Nat
  | [] => 0
  | ty :: rest => (1 + added ty) + addedFields rest
end

end eliminate_closure

/-- The functions of a module, `Map<GlobalVar, BaseFunc>`, keyed by the name
of the global variable. -/
structure IRModule where
  functions : String → Option BaseFunc

/-- The lookup `mod->Lookup(name)`. -/
def IRModule.Lookup (mod : IRModule) (name : String) : Except PassError BaseFunc :=
  match mod.functions name with
  | some f => .ok f
  | none => .error (.NotFound name)

/-- The lookup `mod->GetGlobalVar(name)`. -/
def IRModule.GetGlobalVar (mod : IRModule) (name : String) : Except PassError String :=
  match mod.functions name with
  | some _ => .ok name
  | none => .error (.NotFound name)

/-- The update `mod->Add(var, func, update = true)`. -/
def IRModule.Add (mod : IRModule) (var : String) (func : BaseFunc) : IRModule :=
  ⟨fun name => if name = var then some func else mod.functions name⟩

/-- The conversion `Downcast<Function>`. -/
def Downcast (f : BaseFunc) : Except PassError Function :=
  match f with
  | .Function fn => .ok fn
  | .OtherFunc _ => .error .BadDowncast

/-- The module pass created by `EliminateClosure()`: the lambda given to
`CreateModulePass`. -/
def EliminateClosure (MakeOnes : Device → TensorValue) (ct : CheckedTypes) (fresh : Nat)
    (mod : IRModule) : Except PassError IRModule :=
  match mod.Lookup "main" with
  | .error err => .error err
  | .ok f =>
    match Downcast f with
    | .error err => .error err
    | .ok entry =>
      match eliminate_closure.ClosureEliminator.call MakeOnes ct fresh entry with
      | .error err => .error err
      | .ok updated_entry =>
        match (IRModule.mk mod.functions).GetGlobalVar "main" with
        | .error err => .error err
        | .ok gv => .ok ((IRModule.mk mod.functions).Add gv (.Function updated_entry))

end pass
end mnm

/-! ## Lazy-tensor IR nodes -/

namespace torch_lazy_tensors
namespace ir

/-- The shape of one output: element type and dimension sizes. -/
structure Shape where
  element_type : String
  dimensions : List Int
  deriving Repr, DecidableEq, Inhabited

/-- A `Value`: one output of a node, the node given by its identity;
`shape` is what `Value::shape()` returns for that output. -/
structure Value where
  node : Nat
  index : Nat
  shape : Shape
  deriving Repr, DecidableEq, Inhabited

/-- The failures of node construction and cloning. -/
inductive NodeError where
  /-- The access `operands.at(pos)` beyond the end of a list of `size` operands. -/
  | OutOfRange (pos size : Nat)
  /-- The failure `LTC_ERROR() << "Invalid number of spatial dimensions: " << count`. -/
  | InvalidSpatialDims (count : Int)
  deriving Repr, DecidableEq, Inhabited

/-- The bounds-checked access `operands.at(pos)` of an `OpList`. -/
def OpList.atIndex (operands : List Value) (pos : Nat) : Except NodeError Value :=
  match operands.get? pos with
  | some v => .ok v
  | none => .error (.OutOfRange pos operands.length)

/-- An argument of the hash function `MHash`. -/
inductive HashArg where
  | int (v : Int)
  | ints (vs : List Int)
  | bool (b : Bool)
  deriving Repr, DecidableEq, Inhabited

/-- The reduction modes of `ReductionMode`. -/
inductive ReductionMode where
  | kNone
  | kMean
  | kSum
  deriving Repr, DecidableEq, Inhabited

/-- The functions of `lazy_tensors/computation_client/util.h` the node
constructors call and `src/` does not define; they are parameters. -/
structure Util where
  /-- The hash `lazy_tensors::util::MHash(args...)` of the listed arguments. -/
  MHash : List HashArg → Nat
  /-- The integer `lazy_tensors::util::GetEnumValue(reduction)`. -/
  GetEnumValue : ReductionMode → Int

/-- Modelled from the spec: `GetValuesVector(values, opt_values)` of
`lazy_tensors/computation_client/util.h` is not under `src/`.  It builds the
"ordered list of operand Values" of a node with optional operands: the
mandatory values followed by the optional values that are present, in order. -/
def GetValuesVector (values : List Value) (opt_values : List (Option Value)) : List Value :=
  values ++ opt_values.filterMap id

/-- The base class `Node`: `Node(op, operands, num_outputs, hash_seed)` leaves
the shape to `SetShapeDeferred` (`shape = none` until inferred), and
`Node(op, operands, shape, num_outputs, hash_seed)` supplies it. -/
structure Node where
  op : String
  operands : List Value
  shape : Option Shape
  num_outputs : Nat
  hash_seed : Nat
  deriving Repr, DecidableEq, Inhabited

namespace ops

/-- The class `Gather`. -/
structure Gather where
  node : Node
  dim_ : Int
  deriving Repr, DecidableEq, Inhabited

/-- The constructor `Gather::Gather(input, dim, index)`. -/
def Gather.new (u : Util) (input : Value) (dim : Int) (index : Value) : Gather :=
  ⟨⟨"aten::gather", [input, index], none, 1, u.MHash [.int dim]⟩, dim⟩

/-- The method `Gather::Clone(operands)`. -/
def Gather.Clone (u : Util) (self : Gather) (operands : List Value) : Except NodeError Gather :=
  match OpList.atIndex operands 0, OpList.atIndex operands 1 with
  | .ok input, .ok index => .ok (Gather.new u input self.dim_ index)
  | .error err, _ => .error err
  | _, .error err => .error err

/-- The function `MaxPoolNdSymbol(spatial_dim_count)`. -/
def MaxPoolNdSymbol (spatial_dim_count : Int) : Except NodeError String :=
  if spatial_dim_count = 1 then .ok "aten::max_pool1d"
  else if spatial_dim_count = 2 then .ok "aten::max_pool2d"
  else if spatial_dim_count = 3 then .ok "aten::max_pool3d"
  else .error (.InvalidSpatialDims spatial_dim_count)

/-- The class `MaxPoolNd`. -/
structure MaxPoolNd where
  node : Node
  spatial_dim_count_ : Int
  kernel_size_ : List Int
  stride_ : List Int
  padding_ : List Int
  ceil_mode_ : Bool
  deriving Repr, DecidableEq, Inhabited

/-- The constructor `MaxPoolNd::MaxPoolNd(input, spatial_dim_count, kernel_size,
stride, padding, ceil_mode)`. -/
def MaxPoolNd.new (u : Util) (input : Value) (spatial_dim_count : Int)
    (kernel_size stride padding : List Int) (ceil_mode : Bool) : Except NodeError MaxPoolNd :=
  match MaxPoolNdSymbol spatial_dim_count with
  | .ok symbol =>
    .ok ⟨⟨symbol, [input], none, 2,
        u.MHash [.int spatial_dim_count, .ints kernel_size, .ints stride, .ints padding,
          .bool ceil_mode]⟩,
      spatial_dim_count, kernel_size, stride, padding, ceil_mode⟩
  | .error err => .error err

/-- The method `MaxPoolNd::Clone(operands)`. -/
def MaxPoolNd.Clone (u : Util) (self : MaxPoolNd) (operands : List Value) :
    Except NodeError MaxPoolNd :=
  match OpList.atIndex operands 0 with
  | .ok input =>
    MaxPoolNd.new u input self.spatial_dim_count_ self.kernel_size_ self.stride_
      self.padding_ self.ceil_mode_
  | .error err => .error err

/-- The class `NllLossBackward`. -/
structure NllLossBackward where
  node : Node
  reduction_ : ReductionMode
  ignore_index_ : Int
  deriving Repr, DecidableEq, Inhabited

/-- The constructor `NllLossBackward::NllLossBackward(grad_output, logits,
labels, weight, total_weight, reduction, ignore_index)`. -/
def NllLossBackward.new (u : Util) (grad_output logits labels : Value)
    (weight total_weight : Option Value) (reduction : ReductionMode) (ignore_index : Int) :
    NllLossBackward :=
  ⟨⟨"aten::nll_loss_backward",
      GetValuesVector [grad_output, logits, labels] [weight, total_weight], none, 1,
      u.MHash [.int (u.GetEnumValue reduction), .int ignore_index]⟩,
    reduction, ignore_index⟩

/-- The method `NllLossBackward::Clone(operands)`: with more than three
operands, `weight = operands.at(3)` and `total_weight = operands.at(4)`. -/
def NllLossBackward.Clone (u : Util) (self : NllLossBackward) (operands : List Value) :
    Except NodeError NllLossBackward :=
  let optionals : Except NodeError (Option Value × Option Value) :=
    if operands.length > 3 then
      match OpList.atIndex operands 3, OpList.atIndex operands 4 with
      | .ok weight, .ok total_weight => .ok (some weight, some total_weight)
      | .error err, _ => .error err
      | _, .error err => .error err
    else .ok (none, none)
  match optionals with
  | .error err => .error err
  | .ok (weight, total_weight) =>
    match OpList.atIndex operands 0, OpList.atIndex operands 1, OpList.atIndex operands 2 with
    | .ok grad_output, .ok logits, .ok labels =>
      .ok (NllLossBackward.new u grad_output logits labels weight total_weight
        self.reduction_ self.ignore_index_)
    | .error err, _, _ => .error err
    | _, .error err, _ => .error err
    | _, _, .error err => .error err

/-- The class `SoftmaxBackward`. -/
structure SoftmaxBackward where
  node : Node
  dim_ : Int
  deriving Repr, DecidableEq, Inhabited

/-- The constructor `SoftmaxBackward::SoftmaxBackward(grad_output, output, dim)`:
the shape is supplied, `grad_output.shape()`. -/
def SoftmaxBackward.new (u : Util) (grad_output output : Value) (dim : Int) :
    SoftmaxBackward :=
  ⟨⟨"aten::_softmax_backward_data", [grad_output, output], some grad_output.shape, 1,
      u.MHash [.int dim]⟩, dim⟩

/-- The method `SoftmaxBackward::Clone(operands)`. -/
def SoftmaxBackward.Clone (u : Util) (self : SoftmaxBackward) (operands : List Value) :
    Except NodeError SoftmaxBackward :=
  match OpList.atIndex operands 0, OpList.atIndex operands 1 with
  | .ok grad_output, .ok output =>
    .ok (SoftmaxBackward.new u grad_output output self.dim_)
  | .error err, _ => .error err
  | _, .error err => .error err

/-- The class `UpsampleNearestBackward`. -/
structure UpsampleNearestBackward where
  node : Node
  output_size_ : List Int
  input_size_ : List Int
  deriving Repr, DecidableEq, Inhabited

/-- The constructor `UpsampleNearestBackward::UpsampleNearestBackward(input,
output_size, input_size)`. -/
def UpsampleNearestBackward.new (u : Util) (input : Value)
    (output_size input_size : List Int) : UpsampleNearestBackward :=
  ⟨⟨"aten::upsample_nearest2d_backward", [input], none, 1,
      u.MHash [.ints output_size, .ints input_size]⟩, output_size, input_size⟩

/-- The method `UpsampleNearestBackward::Clone(operands)`. -/
def UpsampleNearestBackward.Clone (u : Util) (self : UpsampleNearestBackward)
    (operands : List Value) : Except NodeError UpsampleNearestBackward :=
  match OpList.atIndex operands 0 with
  | .ok input =>
    .ok (UpsampleNearestBackward.new u input self.output_size_
      self.input_size_)
  | .error err => .error err

end ops
end ir
end torch_lazy_tensors

/-! ## Sample inputs -/

namespace mnm
namespace sample
open mnm.pass.eliminate_closure

/-- A `MakeOnes`: a scalar `float32` one on the requested device. -/
def ones : Device → TensorValue := fun dev => ⟨dev, [], "float32", [1]⟩

/-- A tensor type. -/
def tensorTy : Ty := .TensorTypeNode [2, 3] "float32"

/-- A closure type. -/
def closureTy : Ty := .FuncTypeNode [tensorTy] tensorTy

/-- The type `Tuple[Tensor, Tuple[Closure, Tensor]]`. -/
def nestedTy : Ty := .TupleTypeNode [tensorTy, .TupleTypeNode [closureTy, tensorTy]]

/-- The function `f(x) = let r = g(x); r` (variables `x = 0`, `r = 1`). -/
def nestedFn : Function := ⟨[0], .Let 1 (.Call (.Op "g") [.Var 0]) (.Var 1), none, []⟩

/-- The flattened body of `nestedFn`. -/
def nestedLets : ExplicitLetList := ⟨[1], [.Call (.Op "g") [.Var 0]], 1⟩

/-- Checked types for `nestedFn`: `x` is a tensor, `r` has the nested type. -/
def nestedCt : CheckedTypes := fun v =>
  if v = 0 then some tensorTy else if v = 1 then some nestedTy else none

/-- The function `f(x) = (x, make_closure())` in let-normal form:
`let c = make_closure(); let r = (x, c); r` (variables `x = 0`, `c = 1`, `r = 2`). -/
def closureFn : Function :=
  ⟨[0], .Let 1 (.Call (.Op "make_closure") []) (.Let 2 (.Tuple [.Var 0, .Var 1]) (.Var 2)),
    some (.TupleTypeNode [tensorTy, closureTy]), ["T"]⟩

/-- The flattened body of `closureFn`. -/
def closureLets : ExplicitLetList :=
  ⟨[1, 2], [.Call (.Op "make_closure") [], .Tuple [.Var 0, .Var 1]], 2⟩

/-- Checked types for `closureFn`. -/
def closureCt : CheckedTypes := fun v =>
  if v = 0 then some tensorTy else if v = 1 then some closureTy
  else if v = 2 then some (.TupleTypeNode [tensorTy, closureTy]) else none

/-- The function `closureFn` rewritten by the pass with first generated variable 3. -/
def closureFnOut : Function :=
  ⟨[0], .Let 1 (.Call (.Op "make_closure") []) (.Let 2 (.Tuple [.Var 0, .Var 1])
    (.Let 3 (.TupleGetItem (.Var 2) 0) (.Let 4 (.TupleGetItem (.Var 2) 1)
    (.Let 5 (.Call (.Op "mnm.op.abs") [.Constant ⟨⟨.kCPU, 0⟩, [], "float32", [1]⟩])
    (.Let 6 (.Tuple [.Var 3, .Var 5]) (.Var 6)))))), none, ["T"]⟩

/-- The function `f(x) = let y = g(x); y` returning a tensor (`x = 0`, `y = 1`). -/
def tensorFn : Function :=
  ⟨[0], .Let 1 (.Call (.Op "g") [.Var 0]) (.Var 1), some tensorTy, []⟩

/-- Checked types for `tensorFn`. -/
def tensorCt : CheckedTypes := fun v =>
  if v = 0 then some tensorTy else if v = 1 then some tensorTy else none

/-- The function `f(r) = r` on a one-field tuple of a tensor (`r = 0`). -/
def tupleFn : Function := ⟨[0], .Var 0, some (.TupleTypeNode [tensorTy]), []⟩

/-- Checked types for `tupleFn`. -/
def tupleCt : CheckedTypes := fun v =>
  if v = 0 then some (.TupleTypeNode [tensorTy]) else none

/-- The function `tupleFn` after one run of the pass (first generated variable 1). -/
def tupleFnOnce : Function :=
  ⟨[0], .Let 1 (.TupleGetItem (.Var 0) 0) (.Let 2 (.Tuple [.Var 1]) (.Var 2)), none, []⟩

/-- The flattened body of `tupleFnOnce`. -/
def tupleLetsOnce : ExplicitLetList :=
  ⟨[1, 2], [.TupleGetItem (.Var 0) 0, .Tuple [.Var 1]], 2⟩

/-- The function `tupleFnOnce` after a second run (first generated variable 3). -/
def tupleFnTwice : Function :=
  ⟨[0], .Let 1 (.TupleGetItem (.Var 0) 0) (.Let 2 (.Tuple [.Var 1])
    (.Let 3 (.TupleGetItem (.Var 2) 0) (.Let 4 (.Tuple [.Var 3]) (.Var 4)))), none, []⟩

/-- The function `f(s) = s` on a value of a type variable (`s = 0`). -/
def scalarFn : Function := ⟨[0], .Var 0, none, []⟩

/-- Checked types for `scalarFn`: `s` has a type that is no tuple, tensor or function. -/
def scalarCt : CheckedTypes := fun v => if v = 0 then some (.OtherType "TypeVar") else none

/-- The function `f(r) = r` on `Tuple[Tensor, Tuple[Closure, TypeVar]]` (`r = 0`). -/
def badFn : Function := ⟨[0], .Var 0, none, []⟩

/-- The type `Tuple[Tensor, Tuple[Closure, TypeVar]]`. -/
def badTy : Ty := .TupleTypeNode [tensorTy, .TupleTypeNode [closureTy, .OtherType "TypeVar"]]

/-- Checked types for `badFn`. -/
def badCt : CheckedTypes := fun v => if v = 0 then some badTy else none

/-- A module with `main = badFn` and a helper. -/
def badMod : pass.IRModule :=
  ⟨fun name => if name = "main" then some (.Function badFn)
    else if name = "helper" then some (.Function tensorFn) else none⟩

/-- A module with `main = closureFn` and a helper. -/
def closureMod : pass.IRModule :=
  ⟨fun name => if name = "main" then some (.Function closureFn)
    else if name = "helper" then some (.Function tensorFn) else none⟩

end sample
end mnm

namespace torch_lazy_tensors
namespace ir
namespace sample

/-- A `Util` whose hash is the number of hashed arguments. -/
def util : Util := ⟨fun args => args.length, fun _ => 0⟩

/-- Three values, outputs of the nodes 10, 11 and 12. -/
def v0 : Value := ⟨10, 0, ⟨"f32", [4, 5]⟩⟩

/-- The output 0 of node 11. -/
def v1 : Value := ⟨11, 0, ⟨"s64", [4]⟩⟩

/-- The output 0 of node 12. -/
def v2 : Value := ⟨12, 0, ⟨"f32", [5]⟩⟩

/-- The output 1 of node 13. -/
def v3 : Value := ⟨13, 1, ⟨"f32", []⟩⟩

/-- The node `MaxPoolNd(v0, 2, (3, 3), (2, 2), (1, 1), true)`. -/
def pool : ops.MaxPoolNd :=
  ⟨⟨"aten::max_pool2d", [v0], none, 2, 5⟩, 2, [3, 3], [2, 2], [1, 1], true⟩

end sample
end ir
end torch_lazy_tensors

/-! ## Descriptions, error texts and hashes of nodes -/

namespace torch_lazy_tensors
namespace ir

/-- The decimal digits of a natural number, most significant first. -/
def decimalNat (n : Nat) : List Char :=
  if n = 0 then ['0'] else (Nat.digits 10 n).reverse.map Nat.digitChar

/-- The characters `operator<<` writes for an `int64_t`: a minus sign for a
negative value, then the decimal digits of the magnitude. -/
def decimalInt : Int → List Char
  | .ofNat m => decimalNat m
  | .negSucc m => '-' :: decimalNat (m + 1)

/-- The text `operator<<` writes for an `int64_t`. -/
def showInt (n : Int) : String := String.mk (decimalInt n)

/-- The text `operator<<` writes for a `bool` (no `boolalpha`). -/
def showBool (b : Bool) : String := if b then "1" else "0"

/-- The call `absl::StrJoin(values, sep)` on a vector of `int64_t`. -/
def StrJoin : List Int → String → String
  | [], _ => ""
  | [x], _ => showInt x
  | x :: y :: rest, sep => showInt x ++ sep ++ StrJoin (y :: rest) sep

/-- The text streamed into `LTC_ERROR()` by `MaxPoolNdSymbol`; the failed
bounds check of `operands.at` carries no text of this source. -/
def NodeError.message : NodeError → Option String
  | .InvalidSpatialDims count =>
    some ("Invalid number of spatial dimensions: " ++ showInt count)
  | .OutOfRange _ _ => none

/-- The hash functions the `Node` base class uses and `src/` does not define;
they are parameters. -/
structure HashFns where
  /-- The hash `op.hash()` of an operator kind. -/
  opHash : String → Nat
  /-- The hash `operand.hash()` of an operand value. -/
  valueHash : Value → Nat
  /-- The combination `HashCombine(a, b)`. -/
  HashCombine : Nat → Nat → Nat

/-- Modelled from the spec: the `Node` base constructor is not under `src/`.
The node carries "a structural hash (combining operator kind + operand hashes
+ constructor-specific scalar/vector parameters)": the operator hash combined
with the hash seed, then with the hash of each operand in order. -/
def Node.hash (h : HashFns) (n : Node) : Nat :=
  n.operands.foldl (fun acc v => h.HashCombine acc (h.valueHash v))
    (h.HashCombine (h.opHash n.op) n.hash_seed)

namespace ops

/-- The method `MaxPoolNd::ToString()`; `base` is `Node::ToString()`, which
`src/` does not define. -/
def MaxPoolNd.ToString (base : Node → String) (self : MaxPoolNd) : String :=
  base self.node ++ ", spatial_dim_count=" ++ showInt self.spatial_dim_count_ ++
    ", kernel_size=(" ++ StrJoin self.kernel_size_ ", " ++ "), stride=(" ++
    StrJoin self.stride_ ", " ++ "), padding=(" ++ StrJoin self.padding_ ", " ++
    "), ceil_mode=" ++ showBool self.ceil_mode_

end ops
end ir
end torch_lazy_tensors

namespace torch_lazy_tensors
namespace ir
namespace sample

/-- The node `MaxPoolNd(v0, 2, (3, 3), (2, 2), (1, 1), false)`. -/
def poolFloor : ops.MaxPoolNd :=
  ⟨⟨"aten::max_pool2d", [v0], none, 2, 5⟩, 2, [3, 3], [2, 2], [1, 1], false⟩

end sample
end ir
end torch_lazy_tensors

/-! ## Values, free variables and the let-list invariant -/

namespace mnm

/-- Run-time values: tensors, closures and tuples of values. -/
inductive Val where
  | tensor (id : Nat)
  | closure (id : Nat)
  | tuple (fields : List Val)
  deriving Repr, Inhabited

/-- The value of a projection from the value of the tuple. -/
def projVal (tuple : Option Val) (index : Nat) : Option Val :=
  match tuple with
  | some (.tuple vs) => vs.get? index
  | _ => none

/-- The value of a tuple from the values of its fields. -/
def tupleVal (fields : Option (List Val)) : Option Val :=
  match fields with
  | some vs => some (.tuple vs)
  | none => none

/-- The values of a head and a tail, when both have one. -/
def consVal (head : Option Val) (tail : Option (List Val)) : Option (List Val) :=
  match head, tail with
  | some v, some vs => some (v :: vs)
  | _, _ => none

mutual
/-- The usual semantics of variables, tuples and projections over an
environment: a variable denotes its value in the environment, `Tuple` builds
the tuple of the values of its fields and `TupleGetItem` selects a field.
Other expressions are given no value here. -/
def evalExpr (env : Var → Option Val) : Expr → Option Val
  | .Var v => env v
  | .Op _ => none
  | .Constant _ => none
  | .Tuple fields => tupleVal (evalFields env fields)
  | .TupleGetItem tuple index => projVal (evalExpr env tuple) index
  | .Call _ _ => none
  | .Let _ _ _ => none
  | .OtherExpr _ => none
/-- The values of a list of expressions, when all of them have one. -/
def evalFields (env : Var → Option Val) : List Expr → Option (List Val)
  | [] => some []
  | e :: rest => consVal (evalExpr env e) (evalFields env rest)
end

/-- The environment after a binding list: each variable is bound, in order,
to the value of its expression. -/
def evalLets (env : Var → Option Val) : List (Var × Expr) → (Var → Option Val)
  | [] => env
  | (v, e) :: rest => evalLets (fun w => if w = v then evalExpr env e else env w) rest

mutual
/-- The variables an expression references. -/
def freeVars : Expr → List Var
  | .Var v => [v]
  | .Op _ => []
  | .Constant _ => []
  | .Tuple fields => freeVarsFields fields
  | .TupleGetItem tuple _ => freeVars tuple
  | .Call op args => freeVars op ++ freeVarsFields args
  | .Let var value body => freeVars value ++ (freeVars body).filter (fun w => w != var)
  | .OtherExpr _ => []
/-- The variables a list of expressions references. -/
def freeVarsFields : List Expr → List Var
  | [] => []
  | e :: rest => freeVars e ++ freeVarsFields rest
end

/-- Every bound expression of the list references only variables of the
scope or variables bound earlier in the list. -/
def scopedFrom (scope : List Var) : List (Var × Expr) → Bool
  | [] => true
  | (v, e) :: rest =>
    (freeVars e).all (fun w => decide (w ∈ scope)) && scopedFrom (v :: scope) rest

/-- The let-list invariant of a function body with parameters `params`: each
variable is bound exactly once, every bound expression references only
previously bound variables or function parameters, and the return variable is
defined. -/
def LetListInvariant (params : List Var) (bindings : List (Var × Expr)) (ret : Var) : Prop :=
  (bindings.map Prod.fst).Nodup ∧ scopedFrom params bindings = true ∧
    ret ∈ params ++ bindings.map Prod.fst

/-- The invariant is decidable. -/
instance LetListInvariant.decidable (params : List Var) (bindings : List (Var × Expr))
    (ret : Var) : Decidable (LetListInvariant params bindings ret) := by
  unfold LetListInvariant
  infer_instance

/-- The `k` projection bindings `p = TupleGetItem(x, i)`, for the indices `i`,
`i + 1`, ... in order, bound to the variables `n`, `n + 1`, ... -/
def projections (x : Var) : Nat → Nat → Nat → List (Var × Expr)
  | 0, _, _ => []
  | k + 1, i, n => (n, .TupleGetItem (.Var x) i) :: projections x k (i + 1) (n + 1)

end mnm

namespace mnm
namespace sample

/-- The type `Tuple[Tensor, Tensor]`. -/
def pairTy : Ty := .TupleTypeNode [tensorTy, tensorTy]

/-- The function `f(r) = r` on a pair of tensors (`r = 0`). -/
def pairFn : Function := ⟨[0], .Var 0, some pairTy, []⟩

/-- Checked types for `pairFn`. -/
def pairCt : CheckedTypes := fun v => if v = 0 then some pairTy else none

/-- The function `pairFn` rewritten by the pass with first generated variable 1. -/
def pairFnOut : Function :=
  ⟨[0], .Let 1 (.TupleGetItem (.Var 0) 0) (.Let 2 (.TupleGetItem (.Var 0) 1)
    (.Let 3 (.Tuple [.Var 1, .Var 2]) (.Var 3))), none, []⟩

end sample
end mnm


/-! ## Module objects and the shared function table

The module pass receives a reference to a module object and returns a
reference to a module object.  To tell "a new module" from "the input module,
updated", module objects, the nodes of their function tables and function
objects are placed in an object store and referred to by address.  `IRModule`
and `Map` belong to the compiler library and are not under `src/`; the store
follows their reference semantics: a `Map` is a handle to a node that counts
its handles, copying a `Map` adds a handle to the same node, and `Map::Set`
writes to the node in place when the handle is the only one and to a copy of
the node otherwise (copy on write). -/

namespace mnm
namespace pass

/-- A node of a `Map<GlobalVar, BaseFunc>`: for each global name the address
of its function object, and the number of `Map` handles that refer to the
node. -/
structure MapNode where
  entries : String → Option Nat
  refs : Nat

/-- A module object: its field `functions`, a `Map` handle, given as the
address of the node the handle refers to. -/
structure IRModuleNode where
  functions : Nat

/-- The object store: function objects, table nodes and module objects by
address, each with the next free address. -/
structure Heap where
  funcs : Nat → BaseFunc
  nextFunc : Nat
  maps : Nat → MapNode
  nextMap : Nat
  modules : Nat → IRModuleNode
  nextModule : Nat

/-- The functions of the module object at `mod`, by value: each name of its
table with the content of the function object the name refers to. -/
def Heap.functionsOf (heap : Heap) (mod : Nat) : String → Option BaseFunc :=
  fun name =>
    match (heap.maps (heap.modules mod).functions).entries name with
    | some a => some (heap.funcs a)
    | none => none

/-- The lookup `mod->Lookup(name)` on the module object at `mod`: a reference
to the function object. -/
def Heap.Lookup (heap : Heap) (mod : Nat) (name : String) : Except PassError Nat :=
  match (heap.maps (heap.modules mod).functions).entries name with
  | some a => .ok a
  | none => .error (.NotFound name)

/-- The lookup `mod->GetGlobalVar(name)` on the module object at `mod`. -/
def Heap.GetGlobalVar (heap : Heap) (mod : Nat) (name : String) : Except PassError String :=
  match (heap.maps (heap.modules mod).functions).entries name with
  | some _ => .ok name
  | none => .error (.NotFound name)

/-- The constructor `Function(...)` at line 74: a new function object. -/
def Heap.newFunction (heap : Heap) (f : BaseFunc) : Nat × Heap :=
  (heap.nextFunc,
    ⟨fun a => if a = heap.nextFunc then f else heap.funcs a, heap.nextFunc + 1,
      heap.maps, heap.nextMap, heap.modules, heap.nextModule⟩)

/-- The constructor `IRModule(functions)`: a new module object whose field
`functions` is one more handle to the node at `m` (the argument is a copy of
a `Map` handle, and the node is not copied). -/
def Heap.newModule (heap : Heap) (m : Nat) : Nat × Heap :=
  (heap.nextModule,
    ⟨heap.funcs, heap.nextFunc,
      fun k => if k = m then ⟨(heap.maps m).entries, (heap.maps m).refs + 1⟩ else heap.maps k,
      heap.nextMap,
      fun r => if r = heap.nextModule then ⟨m⟩ else heap.modules r, heap.nextModule + 1⟩)

/-- The write `functions.Set(key, value)` through the field `functions` of the
module object at `mod`.  When the handle is the only one to its node, the
node is written in place; otherwise the node is copied, the copy is written,
the field is pointed at the copy, and the old node loses one handle. -/
def Heap.Set (heap : Heap) (mod : Nat) (key : String) (value : Nat) : Heap :=
  if (heap.maps (heap.modules mod).functions).refs ≤ 1 then
    ⟨heap.funcs, heap.nextFunc,
      fun k => if k = (heap.modules mod).functions then
          ⟨fun name => if name = key then some value
              else (heap.maps (heap.modules mod).functions).entries name,
            (heap.maps (heap.modules mod).functions).refs⟩
        else heap.maps k,
      heap.nextMap, heap.modules, heap.nextModule⟩
  else
    ⟨heap.funcs, heap.nextFunc,
      fun k => if k = heap.nextMap then
          ⟨fun name => if name = key then some value
              else (heap.maps (heap.modules mod).functions).entries name, 1⟩
        else if k = (heap.modules mod).functions then
          ⟨(heap.maps (heap.modules mod).functions).entries,
            (heap.maps (heap.modules mod).functions).refs - 1⟩
        else heap.maps k,
      heap.nextMap + 1,
      fun r => if r = mod then ⟨heap.nextMap⟩ else heap.modules r, heap.nextModule⟩

/-- The update `mod->Add(var, func, update = true)` on the module object at
`mod`: it writes the table of that module object. -/
def Heap.Add (heap : Heap) (mod : Nat) (var : String) (func : Nat) : Heap :=
  heap.Set mod var func

/-- The lambda given to `CreateModulePass` (lines 86-91), on the object store:
`mod` is the address of the input module object, and the result is the
address of the returned module object with the store after the run. -/
def EliminateClosureOnHeap (MakeOnes : Device → TensorValue) (ct : CheckedTypes) (fresh : Nat)
    (heap : Heap) (mod : Nat) : Except PassError (Nat × Heap) :=
  match heap.Lookup mod "main" with
  | .error err => .error err
  | .ok f =>
    match Downcast (heap.funcs f) with
    | .error err => .error err
    | .ok entry =>
      match eliminate_closure.ClosureEliminator.call MakeOnes ct fresh entry with
      | .error err => .error err
      | .ok updated_entry =>
        match (heap.newFunction (.Function updated_entry)).2.newModule
            (((heap.newFunction (.Function updated_entry)).2.modules mod).functions) with
        | (updated_mod, heap2) =>
          match heap2.GetGlobalVar updated_mod "main" with
          | .error err => .error err
          | .ok gv =>
            .ok (updated_mod, heap2.Add updated_mod gv (heap.newFunction (.Function updated_entry)).1)

/-- The input module object is allocated, holds a handle to an allocated table
node, and the entries of that node refer to allocated function objects. -/
def Heap.Allocated (heap : Heap) (mod : Nat) : Prop :=
  mod < heap.nextModule ∧ (heap.modules mod).functions < heap.nextMap ∧
  1 ≤ (heap.maps (heap.modules mod).functions).refs ∧
  ∀ name a, (heap.maps (heap.modules mod).functions).entries name = some a → a < heap.nextFunc

end pass

namespace sample

/-- An object store with one module object (address 0) for `closureMod`: its
table node (address 0, one handle) maps `main` to the function object at 0
and `helper` to the one at 1. -/
def closureHeap : pass.Heap :=
  ⟨fun a => if a = 0 then .Function closureFn else .Function tensorFn, 2,
    fun k => if k = 0 then
        ⟨fun name => if name = "main" then some 0 else if name = "helper" then some 1 else none, 1⟩
      else ⟨fun _ => none, 0⟩,
    1, fun _ => ⟨0⟩, 1⟩

end sample
end mnm
/-! # Proofs -/

namespace mnm.pass.eliminate_closure
open mnm

/-! ## The eliminator against the emitted bindings -/

mutual
theorem elimAt_ok (M : Device → TensorValue) : ∀ (ty : Ty) (x : Nat) (ll : LetList),
    eliminable ty = true →
    ClosureEliminator.EliminateClosureAt M x ty ll =
      .ok (.Var (emitAt M x ty ll.fresh_).2,
        ⟨ll.lets_ ++ (emitAt M x ty ll.fresh_).1,
          ll.fresh_ + (emitAt M x ty ll.fresh_).1.length⟩)
  | .TupleTypeNode fields, x, ll, h => by
    have hf : eliminableFields fields = true := by simpa [eliminable] using h
    simp [ClosureEliminator.EliminateClosureAt, elimFields_ok M fields x 0 [] ll hf, emitAt,
      LetList.Push, Nat.add_assoc]
  | .TensorTypeNode _ _, x, ll, _ => by
    simp [ClosureEliminator.EliminateClosureAt, emitAt]
  | .FuncTypeNode _ _, x, ll, _ => by
    simp [ClosureEliminator.EliminateClosureAt, emitAt, LetList.Push]
  | .OtherType _, x, ll, h => by
    simp [eliminable] at h
theorem elimFields_ok (M : Device → TensorValue) : ∀ (fs : List Ty) (x : Nat) (i : Nat)
    (acc : List Expr) (ll : LetList), eliminableFields fs = true →
    ClosureEliminator.EliminateClosureFields M x fs i acc ll =
      .ok (acc ++ (emitFields M x fs i ll.fresh_).2.map .Var,
        ⟨ll.lets_ ++ (emitFields M x fs i ll.fresh_).1,
          ll.fresh_ + (emitFields M x fs i ll.fresh_).1.length⟩)
  | [], x, i, acc, ll, _ => by
    simp [ClosureEliminator.EliminateClosureFields, emitFields]
  | ty :: rest, x, i, acc, ll, h => by
    have h1 : eliminable ty = true ∧ eliminableFields rest = true := by
      simpa [eliminableFields] using h
    rw [ClosureEliminator.EliminateClosureFields,
      elimAt_ok M ty (ll.Push (.TupleGetItem (.Var x) i)).1 (ll.Push (.TupleGetItem (.Var x) i)).2 h1.1]
    simp only []
    rw [elimFields_ok M rest x (i + 1) _ _ h1.2]
    simp [emitFields, LetList.Push, Nat.add_assoc]
    omega
end

mutual
theorem elimAt_error (M : Device → TensorValue) : ∀ (ty : Ty) (x : Nat) (ll : LetList),
    eliminable ty = false →
    ∃ kind, ClosureEliminator.EliminateClosureAt M x ty ll =
      .error (.UnsupportedType (.OtherType kind))
  | .TupleTypeNode fields, x, ll, h => by
    have hf : eliminableFields fields = false := by simpa [eliminable] using h
    obtain ⟨kind, hk⟩ := elimFields_error M fields x 0 [] ll hf
    exact ⟨kind, by simp [ClosureEliminator.EliminateClosureAt, hk]⟩
  | .TensorTypeNode _ _, x, ll, h => by
    simp [eliminable] at h
  | .FuncTypeNode _ _, x, ll, h => by
    simp [eliminable] at h
  | .OtherType kind, x, ll, _ =>
    ⟨kind, by simp [ClosureEliminator.EliminateClosureAt]⟩
theorem elimFields_error (M : Device → TensorValue) : ∀ (fs : List Ty) (x : Nat) (i : Nat)
    (acc : List Expr) (ll : LetList), eliminableFields fs = false →
    ∃ kind, ClosureEliminator.EliminateClosureFields M x fs i acc ll =
      .error (.UnsupportedType (.OtherType kind))
  | [], x, i, acc, ll, h => by
    simp [eliminableFields] at h
  | ty :: rest, x, i, acc, ll, h => by
    cases hty : eliminable ty with
    | false =>
      obtain ⟨kind, hk⟩ := elimAt_error M ty (ll.Push (.TupleGetItem (.Var x) i)).1
        (ll.Push (.TupleGetItem (.Var x) i)).2 hty
      exact ⟨kind, by rw [ClosureEliminator.EliminateClosureFields, hk]⟩
    | true =>
      have hr : eliminableFields rest = false := by simpa [eliminableFields, hty] using h
      rw [ClosureEliminator.EliminateClosureFields,
        elimAt_ok M ty (ll.Push (.TupleGetItem (.Var x) i)).1
          (ll.Push (.TupleGetItem (.Var x) i)).2 hty]
      exact elimFields_error M rest x (i + 1) _ _ hr
end

mutual
theorem emitAt_length (M : Device → TensorValue) : ∀ (ty : Ty) (x : Nat) (n : Nat),
    (emitAt M x ty n).1.length = added ty
  | .TupleTypeNode fields, x, n => by
    simp [emitAt, added, emitFields_length M fields x 0 n, Nat.add_comm]
  | .TensorTypeNode _ _, x, n => by simp [emitAt, added]
  | .FuncTypeNode _ _, x, n => by simp [emitAt, added]
  | .OtherType _, x, n => by simp [emitAt, added]
theorem emitFields_length (M : Device → TensorValue) : ∀ (fs : List Ty) (x : Nat) (i n : Nat),
    (emitFields M x fs i n).1.length = addedFields fs
  | [], x, i, n => by simp [emitFields, addedFields]
  | ty :: rest, x, i, n => by
    simp [emitFields, addedFields, emitAt_length M ty, emitFields_length M rest]
    omega
end

theorem emitFields_snd_length (M : Device → TensorValue) : ∀ (fs : List Ty) (x : Nat) (i n : Nat),
    (emitFields M x fs i n).2.length = fs.length
  | [], x, i, n => by simp [emitFields]
  | ty :: rest, x, i, n => by
    simp [emitFields, emitFields_snd_length M rest]

end mnm.pass.eliminate_closure

namespace mnm
open mnm.pass.eliminate_closure

/-! ## Flattening and rebuilding let chains -/

theorem make_letChain : ∀ (bs : List (Var × Expr)) (r : Var),
    ExplicitLetList.make (letChain bs (.Var r)) =
      .ok ⟨bs.map Prod.fst, bs.map Prod.snd, r⟩
  | [], r => by simp [letChain, ExplicitLetList.make]
  | (v, e) :: rest, r => by
    simp [letChain, ExplicitLetList.make, make_letChain rest r]

theorem make_inv : ∀ (body : Expr) (ell : ExplicitLetList),
    ExplicitLetList.make body = .ok ell →
    ell.vars.length = ell.exprs.length ∧
      letChain (ell.vars.zip ell.exprs) (.Var ell.ret) = body
  | .Let v e b, ell, h => by
    rw [ExplicitLetList.make] at h
    cases hb : ExplicitLetList.make b with
    | error err => rw [hb] at h; cases h
    | ok ell1 =>
      rw [hb] at h
      have h2 := make_inv b ell1 hb
      cases h
      refine ⟨by simp [h2.1], ?_⟩
      show letChain ((v, e) :: ell1.vars.zip ell1.exprs) (.Var ell1.ret) = _
      rw [letChain, h2.2]
  | .Var r, ell, h => by
    simp only [ExplicitLetList.make] at h
    cases h
    simp [letChain]
  | .Op _, ell, h => by simp [ExplicitLetList.make] at h
  | .Constant _, ell, h => by simp [ExplicitLetList.make] at h
  | .Tuple _, ell, h => by simp [ExplicitLetList.make] at h
  | .TupleGetItem _ _, ell, h => by simp [ExplicitLetList.make] at h
  | .Call _ _, ell, h => by simp [ExplicitLetList.make] at h
  | .OtherExpr _, ell, h => by simp [ExplicitLetList.make] at h

theorem pushAll_eq : ∀ (vars : List Var) (exprs : List Expr) (ll : LetList),
    pushAll ll vars exprs = ⟨ll.lets_ ++ vars.zip exprs, ll.fresh_⟩
  | [], _, ll => by simp [pushAll]
  | _ :: _, [], ll => by simp [pushAll]
  | v :: vars, e :: exprs, ll => by
    simp [pushAll, pushAll_eq vars exprs, LetList.PushVar]

theorem zip_map_fst_snd {α β : Type} : ∀ (bs : List (α × β)),
    (bs.map Prod.fst).zip (bs.map Prod.snd) = bs
  | [] => rfl
  | (a, b) :: rest => by simp [zip_map_fst_snd rest]

/-- The rewritten function on an eliminable result type, in closed form. -/
theorem call_ok (M : Device → TensorValue) (ct : CheckedTypes) (fresh : Nat) (func : Function)
    (ell : ExplicitLetList) (ty : Ty) (hmake : ExplicitLetList.make func.body = .ok ell)
    (hty : ct ell.ret = some ty) (helim : eliminable ty = true) :
    ClosureEliminator.call M ct fresh func =
      .ok ⟨func.params,
        letChain (ell.bindings ++ (emitAt M ell.ret ty fresh).1)
          (.Var (emitAt M ell.ret ty fresh).2), none, func.type_params⟩ := by
  have hl := (make_inv func.body ell hmake).1
  simp [ClosureEliminator.call, hmake, hl, LetList.With, ClosureEliminator.EliminateClosure,
    checked_type, hty, elimAt_ok M ty _ _ helim, pushAll_eq, LetList.Get,
    ExplicitLetList.bindings]

theorem call_error (M : Device → TensorValue) (ct : CheckedTypes) (fresh : Nat) (func : Function)
    (ell : ExplicitLetList) (ty : Ty) (hmake : ExplicitLetList.make func.body = .ok ell)
    (hty : ct ell.ret = some ty) (helim : eliminable ty = false) :
    ∃ kind, ClosureEliminator.call M ct fresh func =
      .error (.UnsupportedType (.OtherType kind)) := by
  have hl := (make_inv func.body ell hmake).1
  obtain ⟨kind, hk⟩ := elimAt_error M ty ell.ret (pushAll ⟨[], fresh⟩ ell.vars ell.exprs) helim
  exact ⟨kind, by
    simp [ClosureEliminator.call, hmake, hl, LetList.With, ClosureEliminator.EliminateClosure,
      checked_type, hty, hk]⟩

/-- Every successful run is a run on a flattened body whose return variable
has an eliminable checked type. -/
theorem call_inv (M : Device → TensorValue) (ct : CheckedTypes) (fresh : Nat)
    (func func1 : Function) (h : ClosureEliminator.call M ct fresh func = .ok func1) :
    ∃ ell ty, ExplicitLetList.make func.body = .ok ell ∧ ct ell.ret = some ty ∧
      eliminable ty = true := by
  cases hmake : ExplicitLetList.make func.body with
  | error err => simp [ClosureEliminator.call, hmake] at h
  | ok ell =>
    cases hty : ct ell.ret with
    | none =>
      have hl := (make_inv func.body ell hmake).1
      simp [ClosureEliminator.call, hmake, hl, LetList.With, ClosureEliminator.EliminateClosure,
        checked_type, hty] at h
    | some ty =>
      cases helim : eliminable ty with
      | true => exact ⟨ell, ty, rfl, hty, helim⟩
      | false =>
        obtain ⟨kind, hk⟩ := call_error M ct fresh func ell ty hmake hty helim
        rw [hk] at h
        cases h


/-! ## Typing of the emitted bindings -/

theorem inferLets_append : ∀ (a b : List (Nat × Expr)) (ct : CheckedTypes),
    inferLets ct (a ++ b) = inferLets (inferLets ct a) b
  | [], b, ct => rfl
  | (v, e) :: rest, b, ct => by
    simp only [List.cons_append, inferLets]
    exact inferLets_append rest b _

theorem inferLets_fresh (ct : CheckedTypes) (n : Nat) (e : Expr) (h : ct n = none) :
    inferLets ct [(n, e)] n = typeOf ct e ∧ ∀ w, w ≠ n → inferLets ct [(n, e)] w = ct w := by
  constructor
  · simp [inferLets, h]
  · intro w hw
    simp [inferLets, hw]

theorem typeOf_placeholder (M : Device → TensorValue) (ct : CheckedTypes) :
    typeOf ct (placeholder M) =
      some (.TensorTypeNode (M ⟨.kCPU, 0⟩).shape (M ⟨.kCPU, 0⟩).dtype) := by
  simp [placeholder, typeOf, typeOfFields, callType, consType]

theorem drop_cons_get {α : Type} : ∀ (l : List α) (i : Nat) (a : α) (rest : List α),
    l.drop i = a :: rest → l.get? i = some a ∧ l.drop (i + 1) = rest
  | [], i, a, rest, h => by simp at h
  | b :: l, 0, a, rest, h => by
    simp at h
    simp [h.1, h.2]
  | b :: l, i + 1, a, rest, h => by
    simp at h
    simpa using drop_cons_get l i a rest h

mutual
theorem emitAt_typed (M : Device → TensorValue) : ∀ (ty : Ty) (x : Nat) (n : Nat)
    (c : CheckedTypes), eliminable ty = true → c x = some ty → x < n →
    (∀ v, n ≤ v → c v = none) →
    inferLets c (emitAt M x ty n).1 (emitAt M x ty n).2 = some (elimType (M ⟨.kCPU, 0⟩) ty) ∧
    (∀ v, v < n → inferLets c (emitAt M x ty n).1 v = c v) ∧
    (∀ v, n + (emitAt M x ty n).1.length ≤ v → inferLets c (emitAt M x ty n).1 v = none) ∧
    (emitAt M x ty n).2 < n + (emitAt M x ty n).1.length
  | .TupleTypeNode fields, x, n, c, he, hx, hlt, hfr => by
    have hf : eliminableFields fields = true := by simpa [eliminable] using he
    obtain ⟨h1, h2, h3, _⟩ := emitFields_typed M fields x 0 n c fields hf hx (by simp) hlt hfr
    have hlast := inferLets_fresh (inferLets c (emitFields M x fields 0 n).1)
      (n + (emitFields M x fields 0 n).1.length)
      (.Tuple ((emitFields M x fields 0 n).2.map .Var)) (h3 _ (Nat.le_refl _))
    refine ⟨?_, ?_, ?_, ?_⟩
    · simp only [emitAt, inferLets_append]
      rw [hlast.1]
      simp [typeOf, h1, elimType, tupleType]
    · intro v hv
      simp only [emitAt, inferLets_append]
      rw [hlast.2 v (by omega)]
      exact h2 v hv
    · intro v hv
      simp only [emitAt, inferLets_append, List.length_append, List.length_singleton] at hv ⊢
      rw [hlast.2 v (by omega)]
      exact h3 v (by omega)
    · simp only [emitAt, List.length_append, List.length_singleton]
      omega
  | .TensorTypeNode _ _, x, n, c, _, hx, hlt, hfr => by
    refine ⟨?_, ?_, ?_, ?_⟩
    · simp [emitAt, inferLets, hx, elimType]
    · intro v _
      simp [emitAt, inferLets]
    · intro v hv
      simp only [emitAt, inferLets, List.length_nil, Nat.add_zero] at hv ⊢
      exact hfr v hv
    · simpa [emitAt] using hlt
  | .FuncTypeNode _ _, x, n, c, _, hx, hlt, hfr => by
    have h := inferLets_fresh c n (placeholder M) (hfr n (Nat.le_refl _))
    refine ⟨?_, ?_, ?_, ?_⟩
    · simp only [emitAt]
      rw [h.1, typeOf_placeholder]
      simp [elimType]
    · intro v hv
      simp only [emitAt]
      rw [h.2 v (by omega)]
    · intro v hv
      simp only [emitAt, List.length_singleton] at hv ⊢
      rw [h.2 v (by omega)]
      exact hfr v (by omega)
    · simp [emitAt]
  | .OtherType _, x, n, c, he, _, _, _ => by
    simp [eliminable] at he
theorem emitFields_typed (M : Device → TensorValue) : ∀ (fs : List Ty) (x : Nat) (i n : Nat)
    (c : CheckedTypes) (all : List Ty), eliminableFields fs = true →
    c x = some (.TupleTypeNode all) → all.drop i = fs → x < n →
    (∀ v, n ≤ v → c v = none) →
    typeOfFields (inferLets c (emitFields M x fs i n).1) ((emitFields M x fs i n).2.map .Var) =
      some (elimTypeFields (M ⟨.kCPU, 0⟩) fs) ∧
    (∀ v, v < n → inferLets c (emitFields M x fs i n).1 v = c v) ∧
    (∀ v, n + (emitFields M x fs i n).1.length ≤ v →
      inferLets c (emitFields M x fs i n).1 v = none) ∧
    (∀ r ∈ (emitFields M x fs i n).2, r < n + (emitFields M x fs i n).1.length)
  | [], x, i, n, c, all, _, hx, _, hlt, hfr => by
    refine ⟨?_, ?_, ?_, ?_⟩
    · simp [emitFields, typeOfFields, elimTypeFields]
    · intro v _
      simp [emitFields, inferLets]
    · intro v hv
      simp only [emitFields, inferLets, List.length_nil, Nat.add_zero] at hv ⊢
      exact hfr v hv
    · simp [emitFields]
  | ty :: rest, x, i, n, c, all, he, hx, hdrop, hlt, hfr => by
    have he1 : eliminable ty = true ∧ eliminableFields rest = true := by
      simpa [eliminableFields] using he
    obtain ⟨hget, hdrop1⟩ := drop_cons_get all i ty rest hdrop
    have h0 := inferLets_fresh c n (.TupleGetItem (.Var x) i) (hfr n (Nat.le_refl _))
    have h0ty : inferLets c [(n, .TupleGetItem (.Var x) i)] n = some ty := by
      rw [h0.1]
      simp only [typeOf, hx, projType]
      exact hget
    obtain ⟨a1, a2, a3, a4⟩ := emitAt_typed M ty n (n + 1)
      (inferLets c [(n, .TupleGetItem (.Var x) i)]) he1.1 h0ty (by omega)
      (fun v hv => by rw [h0.2 v (by omega)]; exact hfr v (by omega))
    have hx2 : inferLets (inferLets c [(n, .TupleGetItem (.Var x) i)]) (emitAt M n ty (n + 1)).1 x
        = some (.TupleTypeNode all) := by
      rw [a2 x (by omega), h0.2 x (by omega), hx]
    obtain ⟨b1, b2, b3, b4⟩ := emitFields_typed M rest x (i + 1)
      (n + 1 + (emitAt M n ty (n + 1)).1.length)
      (inferLets (inferLets c [(n, .TupleGetItem (.Var x) i)]) (emitAt M n ty (n + 1)).1)
      all he1.2 hx2 hdrop1 (by omega) a3
    have hsplit : ∀ l1 l2 : List (Nat × Expr),
        inferLets c ((n, .TupleGetItem (.Var x) i) :: l1 ++ l2) =
          inferLets (inferLets (inferLets c [(n, .TupleGetItem (.Var x) i)]) l1) l2 := by
      intro l1 l2
      rw [← inferLets_append, ← inferLets_append]
      rfl
    refine ⟨?_, ?_, ?_, ?_⟩
    · simp only [emitFields, hsplit, List.map_cons, typeOfFields, typeOf]
      rw [b2 _ a4, a1, b1]
      simp [elimTypeFields, consType]
    · intro v hv
      simp only [emitFields, hsplit]
      rw [b2 v (by omega), a2 v (by omega), h0.2 v (by omega)]
    · intro v hv
      simp only [emitFields, hsplit, List.length_cons, List.length_append] at hv ⊢
      exact b3 v (by omega)
    · intro r hr
      simp only [emitFields, List.length_cons, List.length_append, List.mem_cons] at hr ⊢
      rcases hr with h | h
      · rw [h]; omega
      · have := b4 r h
        omega
end


theorem inferLets_old (fresh : Nat) : ∀ (bs : List (Nat × Expr)) (ct : CheckedTypes),
    (∀ b ∈ bs, b.1 < fresh) → (∀ v, fresh ≤ v → ct v = none) →
    (∀ v, fresh ≤ v → inferLets ct bs v = none) ∧
      (∀ v ty, ct v = some ty → inferLets ct bs v = some ty)
  | [], ct, _, hfr => ⟨hfr, fun _ _ h => h⟩
  | (w, e) :: rest, ct, hbs, hfr => by
    have hw : w < fresh := hbs (w, e) (by simp)
    have ih := inferLets_old fresh rest
      (fun u => if u = w then (match ct w with
        | some ty => some ty
        | none => typeOf ct e) else ct u)
      (fun b hb => hbs b (by simp [hb]))
      (fun v hv => by
        have : v ≠ w := by omega
        simp [this, hfr v hv])
    refine ⟨fun v hv => ih.1 v hv, fun v ty hv => ih.2 v ty ?_⟩
    by_cases hvw : v = w
    · subst hvw
      simp [hv]
    · simp [hvw, hv]

mutual
theorem elimType_noFunc (c : TensorValue) : ∀ (ty : Ty), hasFuncLeaf (elimType c ty) = false
  | .TupleTypeNode fields => by
    simp [elimType, hasFuncLeaf, elimTypeFields_noFunc c fields]
  | .TensorTypeNode _ _ => by simp [elimType, hasFuncLeaf]
  | .FuncTypeNode _ _ => by simp [elimType, hasFuncLeaf]
  | .OtherType _ => by simp [elimType, hasFuncLeaf]
theorem elimTypeFields_noFunc (c : TensorValue) : ∀ (fs : List Ty),
    hasFuncLeafFields (elimTypeFields c fs) = false
  | [] => by simp [elimTypeFields, hasFuncLeafFields]
  | ty :: rest => by
    simp [elimTypeFields, hasFuncLeafFields, elimType_noFunc c ty, elimTypeFields_noFunc c rest]
end

mutual
theorem elimType_tensorOnly (c : TensorValue) : ∀ (ty : Ty), eliminable ty = true →
    tensorOnly (elimType c ty) = true
  | .TupleTypeNode fields, h => by
    have hf : eliminableFields fields = true := by simpa [eliminable] using h
    simp [elimType, tensorOnly, elimTypeFields_tensorOnly c fields hf]
  | .TensorTypeNode _ _, _ => by simp [elimType, tensorOnly]
  | .FuncTypeNode _ _, _ => by simp [elimType, tensorOnly]
  | .OtherType _, h => by simp [eliminable] at h
theorem elimTypeFields_tensorOnly (c : TensorValue) : ∀ (fs : List Ty),
    eliminableFields fs = true → tensorOnlyFields (elimTypeFields c fs) = true
  | [], _ => by simp [elimTypeFields, tensorOnlyFields]
  | ty :: rest, h => by
    have h1 : eliminable ty = true ∧ eliminableFields rest = true := by
      simpa [eliminableFields] using h
    simp [elimTypeFields, tensorOnlyFields, elimType_tensorOnly c ty h1.1,
      elimTypeFields_tensorOnly c rest h1.2]
end

/-- The checked type of the rewritten return variable once the generated
bindings are typed. -/
theorem call_typed (M : Device → TensorValue) (ct : CheckedTypes) (fresh : Nat)
    (ell : ExplicitLetList) (ty : Ty) (hty : ct ell.ret = some ty)
    (helim : eliminable ty = true) (hvars : ∀ v : Nat, v ∈ ell.vars → v < fresh)
    (hfresh : ∀ v : Nat, fresh ≤ v → ct v = none) :
    inferLets ct (ell.bindings ++ (emitAt M ell.ret ty fresh).1) (emitAt M ell.ret ty fresh).2 =
      some (elimType (M ⟨.kCPU, 0⟩) ty) := by
  have hold := inferLets_old fresh ell.bindings ct
    (fun b hb => hvars b.1 (List.of_mem_zip hb).1) hfresh
  have hlt : ell.ret < fresh := by
    by_contra hge
    rw [hfresh ell.ret (Nat.le_of_not_lt hge)] at hty
    cases hty
  rw [inferLets_append]
  exact (emitAt_typed M ty ell.ret fresh (inferLets ct ell.bindings) helim
    (hold.2 _ _ hty) hlt hold.1).1

/-! ## Claims -/

/-- C1: for every function whose return variable has a checked type built only
from tuple, tensor and function types, `ClosureEliminator::operator()` succeeds,
and (generated variables being fresh) the type of the rewritten return value is
that type with every function leaf replaced by the tensor type of the
placeholder, tuple nesting and arities unchanged; the result type has no
function-typed component and is a nesting of tuples of tensor types. -/
theorem C1_result_type_has_no_closure (M : Device → TensorValue) (ct : CheckedTypes)
    (fresh : Nat) (func : Function) (ell : ExplicitLetList) (ty : Ty)
    (hmake : ExplicitLetList.make func.body = .ok ell) (hty : ct ell.ret = some ty)
    (helim : eliminable ty = true) :
    ∃ func1 ell1, ClosureEliminator.call M ct fresh func = .ok func1 ∧
      ExplicitLetList.make func1.body = .ok ell1 ∧
      ((∀ v : Nat, v ∈ ell.vars → v < fresh) → (∀ v : Nat, fresh ≤ v → ct v = none) →
        typeOf (inferLets ct ell1.bindings) (.Var ell1.ret) =
          some (elimType (M ⟨.kCPU, 0⟩) ty)) ∧
      hasFuncLeaf (elimType (M ⟨.kCPU, 0⟩) ty) = false ∧
      tensorOnly (elimType (M ⟨.kCPU, 0⟩) ty) = true := by
  refine ⟨_, _, call_ok M ct fresh func ell ty hmake hty helim, make_letChain _ _, ?_,
    elimType_noFunc _ ty, elimType_tensorOnly _ ty helim⟩
  intro hvars hfresh
  simp only [ExplicitLetList.bindings, zip_map_fst_snd, typeOf]
  exact call_typed M ct fresh ell ty hty helim hvars hfresh


/-- The variable the field loop collects at a tensor-typed field is bound to
the projection at that index; the one collected at a function-typed field is
bound to the placeholder. -/
theorem emitFields_leaf (M : Device → TensorValue) : ∀ (fs : List Ty) (x i n j : Nat),
    (∀ s d, fs.get? j = some (.TensorTypeNode s d) →
      ∃ p, (emitFields M x fs i n).2.get? j = some p ∧
        (p, Expr.TupleGetItem (.Var x) (i + j)) ∈ (emitFields M x fs i n).1) ∧
    (∀ a r, fs.get? j = some (.FuncTypeNode a r) →
      ∃ q, (emitFields M x fs i n).2.get? j = some q ∧
        (q, placeholder M) ∈ (emitFields M x fs i n).1)
  | [], x, i, n, j => by simp
  | ty :: rest, x, i, n, 0 => by
    constructor
    · intro s d h
      have hty : ty = .TensorTypeNode s d := by simpa using h
      subst hty
      exact ⟨n, by simp [emitFields, emitAt], by simp [emitFields, emitAt]⟩
    · intro a r h
      have hty : ty = .FuncTypeNode a r := by simpa using h
      subst hty
      exact ⟨n + 1, by simp [emitFields, emitAt], by simp [emitFields, emitAt]⟩
  | ty :: rest, x, i, n, j + 1 => by
    have ih := emitFields_leaf M rest x (i + 1) (n + 1 + (emitAt M n ty (n + 1)).1.length) j
    have hij : i + 1 + j = i + (j + 1) := by omega
    rw [hij] at ih
    constructor
    · intro s d h
      obtain ⟨p, hp1, hp2⟩ := ih.1 s d (by simpa using h)
      exact ⟨p, by simpa [emitFields] using hp1, by simp [emitFields, hp2]⟩
    · intro a r h
      obtain ⟨q, hq1, hq2⟩ := ih.2 a r (by simpa using h)
      exact ⟨q, by simpa [emitFields] using hq1, by simp [emitFields, hq2]⟩

/-- C2: for every tuple-typed return variable `r` (fields built from tuple,
tensor and function types) the pass succeeds; the rewritten body keeps the
original bindings in place and returns a variable `t` bound to a tuple with
one field per field of the type, whose `i`-th field is, at a tensor-typed
field, a variable bound to the projection `TupleGetItem(r, i)` and, at a
function-typed field, a variable bound to the call of `mnm.op.abs` on the
constant `MakeOnes(Device(kCPU, 0))`, which mentions no value of the input. -/
theorem C2_tuple_fields_rewritten (M : Device → TensorValue) (ct : CheckedTypes)
    (fresh : Nat) (func : Function) (ell : ExplicitLetList) (fields : List Ty)
    (hmake : ExplicitLetList.make func.body = .ok ell)
    (hty : ct ell.ret = some (.TupleTypeNode fields))
    (helim : eliminableFields fields = true) :
    ∃ (func1 : Function) (new : List (Nat × Expr)) (t : Nat) (us : List Nat),
      ClosureEliminator.call M ct fresh func = .ok func1 ∧
      ExplicitLetList.make func1.body =
        .ok ⟨ell.vars ++ new.map Prod.fst, ell.exprs ++ new.map Prod.snd, t⟩ ∧
      (t, Expr.Tuple (us.map .Var)) ∈ new ∧ us.length = fields.length ∧
      ∀ i,
        (∀ s d, fields.get? i = some (.TensorTypeNode s d) →
          ∃ p, us.get? i = some p ∧ (p, Expr.TupleGetItem (.Var ell.ret) i) ∈ new) ∧
        (∀ a r, fields.get? i = some (.FuncTypeNode a r) →
          ∃ q, us.get? i = some q ∧
            (q, Expr.Call (.Op "mnm.op.abs") [.Constant (M ⟨.kCPU, 0⟩)]) ∈ new) := by
  have hl := (make_inv func.body ell hmake).1
  refine ⟨_, (emitAt M ell.ret (.TupleTypeNode fields) fresh).1,
    (emitAt M ell.ret (.TupleTypeNode fields) fresh).2,
    (emitFields M ell.ret fields 0 fresh).2,
    call_ok M ct fresh func ell _ hmake hty (by simpa [eliminable] using helim), ?_, ?_,
    emitFields_snd_length M fields ell.ret 0 fresh, ?_⟩
  · rw [make_letChain]
    simp [ExplicitLetList.bindings, List.map_fst_zip, List.map_snd_zip, hl]
  · simp [emitAt]
  · intro i
    have h := emitFields_leaf M fields ell.ret 0 fresh i
    rw [Nat.zero_add] at h
    constructor
    · intro s d hi
      obtain ⟨p, hp1, hp2⟩ := h.1 s d hi
      exact ⟨p, hp1, by simp [emitAt, hp2]⟩
    · intro a r hi
      obtain ⟨q, hq1, hq2⟩ := h.2 a r hi
      exact ⟨q, hq1, by
        have : (q, placeholder M) ∈ (emitAt M ell.ret (.TupleTypeNode fields) fresh).1 := by
          simp [emitAt, hq2]
        simpa [placeholder] using this⟩

/-- C3: when the body flattens to a binding list and the pass succeeds, the
rewritten body flattens to that same list (same variables, same expressions,
same order) followed by the bindings the pass added. -/
theorem C3_existing_bindings_kept (M : Device → TensorValue) (ct : CheckedTypes)
    (fresh : Nat) (func func1 : Function) (ell : ExplicitLetList)
    (hmake : ExplicitLetList.make func.body = .ok ell)
    (hrun : ClosureEliminator.call M ct fresh func = .ok func1) :
    ∃ (ell1 : ExplicitLetList) (new : List (Nat × Expr)),
      ExplicitLetList.make func1.body = .ok ell1 ∧
      ell1.bindings = ell.bindings ++ new ∧
      ell1.vars = ell.vars ++ new.map Prod.fst ∧
      ell1.exprs = ell.exprs ++ new.map Prod.snd ∧
      ell1.bindings.take ell.bindings.length = ell.bindings := by
  obtain ⟨ell0, ty, hmake0, hty, helim⟩ := call_inv M ct fresh func func1 hrun
  rw [hmake] at hmake0
  cases hmake0
  have hl := (make_inv func.body ell hmake).1
  rw [call_ok M ct fresh func ell ty hmake hty helim] at hrun
  cases hrun
  refine ⟨_, (emitAt M ell.ret ty fresh).1, make_letChain _ _, ?_, ?_, ?_, ?_⟩
  · simp only [ExplicitLetList.bindings]
    rw [zip_map_fst_snd]
  · simp [ExplicitLetList.bindings, List.map_fst_zip, hl]
  · simp [ExplicitLetList.bindings, List.map_snd_zip, hl]
  · simp only [ExplicitLetList.bindings]
    rw [zip_map_fst_snd, List.take_left]

/-- C4: for a return variable of tensor type, `EliminateClosure` returns that
variable and leaves the builder as it was; the rewritten body is the input
body (same binding list, same return variable, no binding added), and running
the pass on the result yields the same function again. -/
theorem C4_tensor_result_unchanged (M : Device → TensorValue) (ct : CheckedTypes)
    (fresh : Nat) (func : Function) (ell : ExplicitLetList) (shape : List Int) (dtype : String)
    (hmake : ExplicitLetList.make func.body = .ok ell)
    (hty : ct ell.ret = some (.TensorTypeNode shape dtype)) :
    (∀ ll, ClosureEliminator.EliminateClosure M ct ell.ret none ll = .ok (.Var ell.ret, ll)) ∧
    ∃ func1, ClosureEliminator.call M ct fresh func = .ok func1 ∧
      func1.body = func.body ∧ ExplicitLetList.make func1.body = .ok ell ∧
      ∀ fresh2, ClosureEliminator.call M ct fresh2 func1 = .ok func1 := by
  obtain ⟨_, hbody⟩ := make_inv func.body ell hmake
  have hcall : ∀ (k : Nat) (g : Function), ExplicitLetList.make g.body = .ok ell →
      ClosureEliminator.call M ct k g = .ok ⟨g.params, g.body, none, g.type_params⟩ := by
    intro k g hg
    rw [call_ok M ct k g ell _ hg hty (by simp [eliminable])]
    simp [emitAt, ExplicitLetList.bindings, (make_inv g.body ell hg).2]
  refine ⟨?_, _, hcall fresh func hmake, rfl, hmake, fun fresh2 => ?_⟩
  · intro ll
    simp [ClosureEliminator.EliminateClosure, checked_type, hty,
      ClosureEliminator.EliminateClosureAt]
  · exact hcall fresh2 ⟨func.params, func.body, none, func.type_params⟩ hmake


/-- Witness of C1 on `f(x) = let r = g(x); r` with
`r : Tuple[Tensor, Tuple[Closure, Tensor]]`. -/
theorem C1_result_type_has_no_closure_witness :
    ExplicitLetList.make sample.nestedFn.body = .ok sample.nestedLets ∧
    sample.nestedCt sample.nestedLets.ret = some sample.nestedTy ∧
    eliminable sample.nestedTy = true ∧
    elimType (sample.ones ⟨.kCPU, 0⟩) sample.nestedTy =
      .TupleTypeNode [sample.tensorTy,
        .TupleTypeNode [.TensorTypeNode [] "float32", sample.tensorTy]] ∧
    ∃ func1 ell1, ClosureEliminator.call sample.ones sample.nestedCt 2 sample.nestedFn =
        .ok func1 ∧
      ExplicitLetList.make func1.body = .ok ell1 ∧
      ((∀ v : Nat, v ∈ sample.nestedLets.vars → v < 2) →
        (∀ v : Nat, 2 ≤ v → sample.nestedCt v = none) →
        typeOf (inferLets sample.nestedCt ell1.bindings) (.Var ell1.ret) =
          some (elimType (sample.ones ⟨.kCPU, 0⟩) sample.nestedTy)) ∧
      hasFuncLeaf (elimType (sample.ones ⟨.kCPU, 0⟩) sample.nestedTy) = false ∧
      tensorOnly (elimType (sample.ones ⟨.kCPU, 0⟩) sample.nestedTy) = true :=
  ⟨rfl, rfl, rfl, rfl,
    C1_result_type_has_no_closure sample.ones sample.nestedCt 2 sample.nestedFn
      sample.nestedLets sample.nestedTy rfl rfl rfl⟩

/-- Witness of C2 on `f(x) = (x, make_closure())`: the rewritten function is
`closureFnOut`, whose returned tuple is `(TupleGetItem(r, 0), abs(ones))`. -/
theorem C2_tuple_fields_rewritten_witness :
    ExplicitLetList.make sample.closureFn.body = .ok sample.closureLets ∧
    sample.closureCt sample.closureLets.ret =
      some (.TupleTypeNode [sample.tensorTy, sample.closureTy]) ∧
    eliminableFields [sample.tensorTy, sample.closureTy] = true ∧
    ClosureEliminator.call sample.ones sample.closureCt 3 sample.closureFn =
      .ok sample.closureFnOut ∧
    ∃ (func1 : Function) (new : List (Nat × Expr)) (t : Nat) (us : List Nat),
      ClosureEliminator.call sample.ones sample.closureCt 3 sample.closureFn = .ok func1 ∧
      ExplicitLetList.make func1.body =
        .ok ⟨sample.closureLets.vars ++ new.map Prod.fst,
          sample.closureLets.exprs ++ new.map Prod.snd, t⟩ ∧
      (t, Expr.Tuple (us.map .Var)) ∈ new ∧
      us.length = [sample.tensorTy, sample.closureTy].length ∧
      ∀ i,
        (∀ s d, [sample.tensorTy, sample.closureTy].get? i = some (.TensorTypeNode s d) →
          ∃ p, us.get? i = some p ∧
            (p, Expr.TupleGetItem (.Var sample.closureLets.ret) i) ∈ new) ∧
        (∀ a r, [sample.tensorTy, sample.closureTy].get? i = some (.FuncTypeNode a r) →
          ∃ q, us.get? i = some q ∧
            (q, Expr.Call (.Op "mnm.op.abs") [.Constant (sample.ones ⟨.kCPU, 0⟩)]) ∈ new) :=
  ⟨rfl, rfl, rfl, rfl,
    C2_tuple_fields_rewritten sample.ones sample.closureCt 3 sample.closureFn
      sample.closureLets [sample.tensorTy, sample.closureTy] rfl rfl rfl⟩

/-- Witness of C3 on `f(x) = (x, make_closure())`. -/
theorem C3_existing_bindings_kept_witness :
    ExplicitLetList.make sample.closureFn.body = .ok sample.closureLets ∧
    ClosureEliminator.call sample.ones sample.closureCt 3 sample.closureFn =
      .ok sample.closureFnOut ∧
    ∃ (ell1 : ExplicitLetList) (new : List (Nat × Expr)),
      ExplicitLetList.make sample.closureFnOut.body = .ok ell1 ∧
      ell1.bindings = sample.closureLets.bindings ++ new ∧
      ell1.vars = sample.closureLets.vars ++ new.map Prod.fst ∧
      ell1.exprs = sample.closureLets.exprs ++ new.map Prod.snd ∧
      ell1.bindings.take sample.closureLets.bindings.length = sample.closureLets.bindings :=
  ⟨rfl, rfl,
    C3_existing_bindings_kept sample.ones sample.closureCt 3 sample.closureFn
      sample.closureFnOut sample.closureLets rfl rfl⟩

/-- Witness of C4 on `f(x) = let y = g(x); y` with `y` a tensor. -/
theorem C4_tensor_result_unchanged_witness :
    ExplicitLetList.make sample.tensorFn.body = .ok sample.nestedLets ∧
    sample.tensorCt sample.nestedLets.ret = some (.TensorTypeNode [2, 3] "float32") ∧
    ((∀ ll, ClosureEliminator.EliminateClosure sample.ones sample.tensorCt
        sample.nestedLets.ret none ll = .ok (.Var sample.nestedLets.ret, ll)) ∧
    ∃ func1, ClosureEliminator.call sample.ones sample.tensorCt 2 sample.tensorFn = .ok func1 ∧
      func1.body = sample.tensorFn.body ∧
      ExplicitLetList.make func1.body = .ok sample.nestedLets ∧
      ∀ fresh2, ClosureEliminator.call sample.ones sample.tensorCt fresh2 func1 = .ok func1) :=
  ⟨rfl, rfl,
    C4_tensor_result_unchanged sample.ones sample.tensorCt 2 sample.tensorFn
      sample.nestedLets [2, 3] "float32" rfl rfl⟩


mutual
theorem tensorOnly_eliminable : ∀ (ty : Ty), tensorOnly ty = true → eliminable ty = true
  | .TupleTypeNode fields, h => by
    have hf : tensorOnlyFields fields = true := by simpa [tensorOnly] using h
    simp [eliminable, tensorOnlyFields_eliminable fields hf]
  | .TensorTypeNode _ _, _ => by simp [eliminable]
  | .FuncTypeNode _ _, h => by simp [tensorOnly] at h
  | .OtherType _, h => by simp [tensorOnly] at h
theorem tensorOnlyFields_eliminable : ∀ (fs : List Ty), tensorOnlyFields fs = true →
    eliminableFields fs = true
  | [], _ => by simp [eliminableFields]
  | ty :: rest, h => by
    have h1 : tensorOnly ty = true ∧ tensorOnlyFields rest = true := by
      simpa [tensorOnlyFields] using h
    simp [eliminableFields, tensorOnly_eliminable ty h1.1,
      tensorOnlyFields_eliminable rest h1.2]
end

mutual
theorem elimType_id (c : TensorValue) : ∀ (ty : Ty), tensorOnly ty = true → elimType c ty = ty
  | .TupleTypeNode fields, h => by
    have hf : tensorOnlyFields fields = true := by simpa [tensorOnly] using h
    simp [elimType, elimTypeFields_id c fields hf]
  | .TensorTypeNode _ _, _ => by simp [elimType]
  | .FuncTypeNode _ _, h => by simp [tensorOnly] at h
  | .OtherType _, h => by simp [tensorOnly] at h
theorem elimTypeFields_id (c : TensorValue) : ∀ (fs : List Ty), tensorOnlyFields fs = true →
    elimTypeFields c fs = fs
  | [], _ => by simp [elimTypeFields]
  | ty :: rest, h => by
    have h1 : tensorOnly ty = true ∧ tensorOnlyFields rest = true := by
      simpa [tensorOnlyFields] using h
    simp [elimTypeFields, elimType_id c ty h1.1, elimTypeFields_id c rest h1.2]
end

/-- C5, as stated, fails on `f(r) = r` with `r : Tuple[Tensor]`: one run
yields a body of two bindings; a second run on that result fails outright on
the unpopulated checked type of the generated return variable, and, once the
generated variables are typed, yields a body of four bindings, not the
once-run program. -/
theorem C5_counterexample :
    tensorOnly (.TupleTypeNode [sample.tensorTy]) = true ∧
    ClosureEliminator.call sample.ones sample.tupleCt 1 sample.tupleFn =
      .ok sample.tupleFnOnce ∧
    ExplicitLetList.make sample.tupleFnOnce.body = .ok sample.tupleLetsOnce ∧
    ClosureEliminator.call sample.ones sample.tupleCt 3 sample.tupleFnOnce =
      .error (.UncheckedType 2) ∧
    ClosureEliminator.call sample.ones (inferLets sample.tupleCt sample.tupleLetsOnce.bindings)
      3 sample.tupleFnOnce = .ok sample.tupleFnTwice ∧
    (ExplicitLetList.make sample.tupleFnTwice.body).toOption.map (fun ell => ell.vars.length)
      = some 4 ∧
    (ExplicitLetList.make sample.tupleFnOnce.body).toOption.map (fun ell => ell.vars.length)
      = some 2 ∧
    sample.tupleFnTwice ≠ sample.tupleFnOnce :=
  ⟨rfl, rfl, rfl, rfl, rfl, rfl, rfl, fun h => by
    have h2 := congrArg (fun f => (ExplicitLetList.make f.body).toOption.map
      (fun ell => ell.vars.length)) h
    revert h2
    decide⟩

/-- C5, amended: on a result type that is a nesting of tuples with tensor
leaves, a second run (the variables generated by the first run being typed)
succeeds and keeps the first run's binding list in place, and it appends as
many bindings as the first run did, `added ty`; the second-run function is
the first-run function when the type is a tensor type, and its body is
strictly longer when the type is a tuple type. -/
theorem C5_second_run_appends_again (M : Device → TensorValue) (ct : CheckedTypes)
    (fresh fresh2 : Nat) (func : Function) (ell : ExplicitLetList) (ty : Ty)
    (hmake : ExplicitLetList.make func.body = .ok ell) (hty : ct ell.ret = some ty)
    (htensor : tensorOnly ty = true) (hvars : ∀ v : Nat, v ∈ ell.vars → v < fresh)
    (hfresh : ∀ v : Nat, fresh ≤ v → ct v = none) :
    ∃ (func1 func2 : Function) (ell1 ell2 : ExplicitLetList) (more : List (Nat × Expr)),
      ClosureEliminator.call M ct fresh func = .ok func1 ∧
      ExplicitLetList.make func1.body = .ok ell1 ∧
      ell1.vars.length = ell.vars.length + added ty ∧
      ClosureEliminator.call M (inferLets ct ell1.bindings) fresh2 func1 = .ok func2 ∧
      ExplicitLetList.make func2.body = .ok ell2 ∧
      ell2.bindings = ell1.bindings ++ more ∧ more.length = added ty ∧
      ell2.vars.length = ell1.vars.length + added ty ∧
      (∀ shape dtype, ty = .TensorTypeNode shape dtype → func2 = func1) ∧
      (∀ fields, ty = .TupleTypeNode fields → ell1.vars.length < ell2.vars.length) := by
  have helim := tensorOnly_eliminable ty htensor
  have hrun1 := call_ok M ct fresh func ell ty hmake hty helim
  have hmake1 := make_letChain (ell.bindings ++ (emitAt M ell.ret ty fresh).1)
    (emitAt M ell.ret ty fresh).2
  have hty1 := call_typed M ct fresh ell ty hty helim hvars hfresh
  rw [elimType_id _ ty htensor] at hty1
  have hb1 : (ExplicitLetList.mk
      ((ell.bindings ++ (emitAt M ell.ret ty fresh).1).map Prod.fst)
      ((ell.bindings ++ (emitAt M ell.ret ty fresh).1).map Prod.snd)
      (emitAt M ell.ret ty fresh).2).bindings =
      ell.bindings ++ (emitAt M ell.ret ty fresh).1 := by
    simp only [ExplicitLetList.bindings]
    rw [zip_map_fst_snd]
  have hrun2 := call_ok M (inferLets ct (ell.bindings ++ (emitAt M ell.ret ty fresh).1)) fresh2
    ⟨func.params, letChain (ell.bindings ++ (emitAt M ell.ret ty fresh).1)
      (.Var (emitAt M ell.ret ty fresh).2), none, func.type_params⟩ _ ty hmake1 hty1 helim
  simp only [hb1] at hrun2
  have hl := (make_inv func.body ell hmake).1
  have hlen1 : ((ell.bindings ++ (emitAt M ell.ret ty fresh).1).map Prod.fst).length =
      ell.vars.length + added ty := by
    simp [ExplicitLetList.bindings, hl, emitAt_length M ty]
  refine ⟨_, ⟨func.params, letChain (ell.bindings ++ (emitAt M ell.ret ty fresh).1 ++
        (emitAt M (emitAt M ell.ret ty fresh).2 ty fresh2).1)
      (.Var (emitAt M (emitAt M ell.ret ty fresh).2 ty fresh2).2), none, func.type_params⟩,
    _, _, (emitAt M (emitAt M ell.ret ty fresh).2 ty fresh2).1, hrun1, hmake1, hlen1,
    ?_, make_letChain _ _, ?_, emitAt_length M ty _ _, ?_, ?_, ?_⟩
  · rw [hb1]
    exact hrun2
  · rw [hb1]
    simp only [ExplicitLetList.bindings]
    rw [zip_map_fst_snd]
  · simp [ExplicitLetList.bindings, hl, emitAt_length M ty]
    omega
  · intro shape dtype h
    subst h
    simp [emitAt]
  · intro fields h
    subst h
    simp [ExplicitLetList.bindings, hl, emitAt_length M, added]

/-- Witness of the amended C5 on `f(r) = r` with `r : Tuple[Tensor]`. -/
theorem C5_second_run_appends_again_witness :
    ExplicitLetList.make sample.tupleFn.body = .ok ⟨[], [], 0⟩ ∧
    sample.tupleCt 0 = some (.TupleTypeNode [sample.tensorTy]) ∧
    tensorOnly (.TupleTypeNode [sample.tensorTy]) = true ∧
    (∀ v : Nat, v ∈ ([] : List Nat) → v < 1) ∧ (∀ v : Nat, 1 ≤ v → sample.tupleCt v = none) ∧
    ∃ (func1 func2 : Function) (ell1 ell2 : ExplicitLetList) (more : List (Nat × Expr)),
      ClosureEliminator.call sample.ones sample.tupleCt 1 sample.tupleFn = .ok func1 ∧
      ExplicitLetList.make func1.body = .ok ell1 ∧
      ell1.vars.length = 0 + added (.TupleTypeNode [sample.tensorTy]) ∧
      ClosureEliminator.call sample.ones (inferLets sample.tupleCt ell1.bindings) 3 func1 =
        .ok func2 ∧
      ExplicitLetList.make func2.body = .ok ell2 ∧
      ell2.bindings = ell1.bindings ++ more ∧
      more.length = added (.TupleTypeNode [sample.tensorTy]) ∧
      ell2.vars.length = ell1.vars.length + added (.TupleTypeNode [sample.tensorTy]) ∧
      (∀ shape dtype, Ty.TupleTypeNode [sample.tensorTy] = .TensorTypeNode shape dtype →
        func2 = func1) ∧
      (∀ fields, Ty.TupleTypeNode [sample.tensorTy] = .TupleTypeNode fields →
        ell1.vars.length < ell2.vars.length) :=
  ⟨rfl, rfl, rfl, fun _ h => absurd h (List.not_mem_nil _),
    fun v hv => by
      have h0 : v ≠ 0 := by omega
      simp [sample.tupleCt, h0],
    C5_second_run_appends_again sample.ones sample.tupleCt 1 3 sample.tupleFn ⟨[], [], 0⟩
      (.TupleTypeNode [sample.tensorTy]) rfl rfl rfl
      (fun _ h => absurd h (List.not_mem_nil _))
      (fun v hv => by
        have h0 : v ≠ 0 := by omega
        simp [sample.tupleCt, h0])⟩


mutual
theorem hasOtherLeaf_not_eliminable : ∀ (ty : Ty), hasOtherLeaf ty = true →
    eliminable ty = false
  | .TupleTypeNode fields, h => by
    have hf : hasOtherLeafFields fields = true := by simpa [hasOtherLeaf] using h
    simp [eliminable, hasOtherLeafFields_not_eliminable fields hf]
  | .TensorTypeNode _ _, h => by simp [hasOtherLeaf] at h
  | .FuncTypeNode _ _, h => by simp [hasOtherLeaf] at h
  | .OtherType _, _ => by simp [eliminable]
theorem hasOtherLeafFields_not_eliminable : ∀ (fs : List Ty), hasOtherLeafFields fs = true →
    eliminableFields fs = false
  | [], h => by simp [hasOtherLeafFields] at h
  | ty :: rest, h => by
    have h1 : hasOtherLeaf ty = true ∨ hasOtherLeafFields rest = true := by
      simpa [hasOtherLeafFields] using h
    rcases h1 with h1 | h1
    · simp [eliminableFields, hasOtherLeaf_not_eliminable ty h1]
    · simp [eliminableFields, hasOtherLeafFields_not_eliminable rest h1]
end

/-- C6: when the checked type of the return variable is neither a tuple type,
a tensor type nor a function type, `EliminateClosure` and the whole rewrite
fail with the unsupported-type error carrying that type; no function is
returned. -/
theorem C6_unsupported_type_is_fatal (M : Device → TensorValue) (ct : CheckedTypes)
    (fresh : Nat) (func : Function) (ell : ExplicitLetList) (ty : Ty)
    (hmake : ExplicitLetList.make func.body = .ok ell) (hty : ct ell.ret = some ty)
    (hnotTuple : ∀ fields, ty ≠ .TupleTypeNode fields)
    (hnotTensor : ∀ shape dtype, ty ≠ .TensorTypeNode shape dtype)
    (hnotFunc : ∀ args ret, ty ≠ .FuncTypeNode args ret) :
    (∀ ll, ClosureEliminator.EliminateClosure M ct ell.ret none ll =
      .error (.UnsupportedType ty)) ∧
    ClosureEliminator.call M ct fresh func = .error (.UnsupportedType ty) ∧
    ∀ func1, ClosureEliminator.call M ct fresh func ≠ .ok func1 := by
  have hl := (make_inv func.body ell hmake).1
  cases ty with
  | TupleTypeNode fields => exact absurd rfl (hnotTuple fields)
  | TensorTypeNode shape dtype => exact absurd rfl (hnotTensor shape dtype)
  | FuncTypeNode args ret => exact absurd rfl (hnotFunc args ret)
  | OtherType kind =>
    have hcall : ClosureEliminator.call M ct fresh func =
        .error (.UnsupportedType (.OtherType kind)) := by
      simp [ClosureEliminator.call, hmake, hl, LetList.With, ClosureEliminator.EliminateClosure,
        checked_type, hty, ClosureEliminator.EliminateClosureAt]
    refine ⟨fun ll => ?_, hcall, fun func1 h => ?_⟩
    · simp [ClosureEliminator.EliminateClosure, checked_type, hty,
        ClosureEliminator.EliminateClosureAt]
    · rw [hcall] at h
      cases h

/-- Witness of C6 on `f(s) = s` with `s` of a type-variable type. -/
theorem C6_unsupported_type_is_fatal_witness :
    ExplicitLetList.make sample.scalarFn.body = .ok ⟨[], [], 0⟩ ∧
    sample.scalarCt 0 = some (.OtherType "TypeVar") ∧
    (∀ fields, Ty.OtherType "TypeVar" ≠ .TupleTypeNode fields) ∧
    (∀ shape dtype, Ty.OtherType "TypeVar" ≠ .TensorTypeNode shape dtype) ∧
    (∀ args ret, Ty.OtherType "TypeVar" ≠ .FuncTypeNode args ret) ∧
    (∀ ll, ClosureEliminator.EliminateClosure sample.ones sample.scalarCt 0 none ll =
      .error (.UnsupportedType (.OtherType "TypeVar"))) ∧
    ClosureEliminator.call sample.ones sample.scalarCt 1 sample.scalarFn =
      .error (.UnsupportedType (.OtherType "TypeVar")) ∧
    ∀ func1, ClosureEliminator.call sample.ones sample.scalarCt 1 sample.scalarFn ≠ .ok func1 :=
  ⟨rfl, rfl, (fun _ h => by cases h), (fun _ _ h => by cases h), (fun _ _ h => by cases h),
    C6_unsupported_type_is_fatal sample.ones sample.scalarCt 1 sample.scalarFn ⟨[], [], 0⟩
      (.OtherType "TypeVar") rfl rfl (fun _ h => by cases h) (fun _ _ h => by cases h)
      (fun _ _ h => by cases h)⟩

/-- C7: when the result type of `main` contains, at any tuple nesting depth
and field position, a leaf that is neither a tensor nor a function type, the
module pass fails with the unsupported-type error of that leaf kind and
returns no module, whatever was pushed for earlier fields. -/
theorem C7_all_or_nothing (M : Device → TensorValue) (ct : CheckedTypes) (fresh : Nat)
    (mod : pass.IRModule) (func : Function) (ell : ExplicitLetList) (ty : Ty)
    (hmain : mod.functions "main" = some (.Function func))
    (hmake : ExplicitLetList.make func.body = .ok ell) (hty : ct ell.ret = some ty)
    (hbad : hasOtherLeaf ty = true) :
    (∃ kind, pass.EliminateClosure M ct fresh mod =
      .error (.UnsupportedType (.OtherType kind))) ∧
    ∀ mod1, pass.EliminateClosure M ct fresh mod ≠ .ok mod1 := by
  obtain ⟨kind, hk⟩ := call_error M ct fresh func ell ty hmake hty
    (hasOtherLeaf_not_eliminable ty hbad)
  have hrun : pass.EliminateClosure M ct fresh mod =
      .error (.UnsupportedType (.OtherType kind)) := by
    simp [pass.EliminateClosure, pass.IRModule.Lookup, hmain, pass.Downcast, hk]
  refine ⟨⟨kind, hrun⟩, fun mod1 h => ?_⟩
  rw [hrun] at h
  cases h

/-- Witness of C7 on a module whose `main` returns
`Tuple[Tensor, Tuple[Closure, TypeVar]]`: the unsupported leaf is the last one
visited. -/
theorem C7_all_or_nothing_witness :
    sample.badMod.functions "main" = some (.Function sample.badFn) ∧
    ExplicitLetList.make sample.badFn.body = .ok ⟨[], [], 0⟩ ∧
    sample.badCt 0 = some sample.badTy ∧ hasOtherLeaf sample.badTy = true ∧
    pass.EliminateClosure sample.ones sample.badCt 1 sample.badMod =
      .error (.UnsupportedType (.OtherType "TypeVar")) ∧
    ((∃ kind, pass.EliminateClosure sample.ones sample.badCt 1 sample.badMod =
      .error (.UnsupportedType (.OtherType kind))) ∧
    ∀ mod1, pass.EliminateClosure sample.ones sample.badCt 1 sample.badMod ≠ .ok mod1) :=
  ⟨rfl, rfl, rfl, rfl, rfl,
    C7_all_or_nothing sample.ones sample.badCt 1 sample.badMod sample.badFn ⟨[], [], 0⟩
      sample.badTy rfl rfl rfl rfl⟩

/-! ## The module pass on the object store -/

theorem functionsOf_entry (heap : pass.Heap) (r : Nat) (name : String) (f : BaseFunc)
    (h : heap.functionsOf r name = some f) :
    ∃ a, (heap.maps (heap.modules r).functions).entries name = some a ∧ heap.funcs a = f := by
  unfold pass.Heap.functionsOf at h
  cases he : (heap.maps (heap.modules r).functions).entries name with
  | none => simp [he] at h
  | some a =>
    simp only [he, Option.some.injEq] at h
    exact ⟨a, rfl, h⟩

/-- The run of the module pass on the object store, step by step. -/
theorem EliminateClosureOnHeap_ok (M : Device → TensorValue) (ct : CheckedTypes) (fresh : Nat)
    (heap : pass.Heap) (r a : Nat) (func func1 : Function)
    (hentry : (heap.maps (heap.modules r).functions).entries "main" = some a)
    (hfunc : heap.funcs a = .Function func)
    (hrun : ClosureEliminator.call M ct fresh func = .ok func1) :
    pass.EliminateClosureOnHeap M ct fresh heap r =
      .ok (heap.nextModule,
        ((heap.newFunction (.Function func1)).2.newModule (heap.modules r).functions).2.Set
          heap.nextModule "main" heap.nextFunc) := by
  simp [pass.EliminateClosureOnHeap, pass.Heap.Lookup, hentry, hfunc, pass.Downcast, hrun,
    pass.Heap.newFunction, pass.Heap.newModule, pass.Heap.GetGlobalVar, pass.Heap.Add]

/-- The store after the run: the function object, the module object and the
table node that the run allocates, and nothing else written. -/
theorem EliminateClosureOnHeap_store (heap : pass.Heap) (r : Nat) (f : BaseFunc)
    (hr : r < heap.nextModule) (hm : (heap.modules r).functions < heap.nextMap)
    (hrefs : 1 ≤ (heap.maps (heap.modules r).functions).refs) :
    let heap1 := ((heap.newFunction f).2.newModule (heap.modules r).functions).2.Set
      heap.nextModule "main" heap.nextFunc
    (∀ a : Nat, a < heap.nextFunc → heap1.funcs a = heap.funcs a) ∧
    heap1.funcs heap.nextFunc = f ∧
    (∀ k : Nat, k < heap.nextModule → heap1.modules k = heap.modules k) ∧
    (∀ m : Nat, m < heap.nextMap → heap1.maps m = heap.maps m) ∧
    (heap1.modules heap.nextModule).functions = heap.nextMap ∧
    (heap1.maps heap.nextMap).entries =
      (fun name => if name = "main" then some heap.nextFunc
        else (heap.maps (heap.modules r).functions).entries name) ∧
    (heap1.maps heap.nextMap).refs = 1 ∧
    heap1.nextFunc = heap.nextFunc + 1 ∧ heap1.nextMap = heap.nextMap + 1 ∧
    heap1.nextModule = heap.nextModule + 1 := by
  have hne : r ≠ heap.nextModule := Nat.ne_of_lt hr
  have hnm : (heap.modules r).functions ≠ heap.nextMap := Nat.ne_of_lt hm
  have hnot : ¬ (heap.maps (heap.modules r).functions).refs + 1 ≤ 1 := by omega
  intro heap1
  have h1 : heap1 = ⟨fun a => if a = heap.nextFunc then f else heap.funcs a, heap.nextFunc + 1,
      fun k => if k = heap.nextMap then
          ⟨fun name => if name = "main" then some heap.nextFunc
              else (heap.maps (heap.modules r).functions).entries name, 1⟩
        else if k = (heap.modules r).functions then
          ⟨(heap.maps (heap.modules r).functions).entries,
            (heap.maps (heap.modules r).functions).refs + 1 - 1⟩
        else heap.maps k,
      heap.nextMap + 1,
      fun k => if k = heap.nextModule then ⟨heap.nextMap⟩ else heap.modules k,
      heap.nextModule + 1⟩ := by
    simp only [heap1, pass.Heap.newFunction, pass.Heap.newModule, pass.Heap.Set, hnot, if_false,
      if_true, pass.Heap.mk.injEq, true_and]
    refine ⟨?_, ?_, trivial⟩
    · funext k
      by_cases hk : k = heap.nextMap
      · simp [hk]
      · by_cases hk2 : k = (heap.modules r).functions
        · simp [hk, hk2, hnm]
        · simp [hk, hk2]
    · funext k
      by_cases hk : k = heap.nextModule
      · simp [hk]
      · simp [hk]
  rw [h1]
  refine ⟨?_, ?_, ?_, ?_, ?_, ?_, ?_, rfl, rfl, rfl⟩
  · intro a ha
    simp [Nat.ne_of_lt ha]
  · simp
  · intro k hk
    simp [Nat.ne_of_lt hk]
  · intro m hlt
    by_cases hmm : m = (heap.modules r).functions
    · subst hmm
      simp [Nat.ne_of_lt hlt]
    · simp [Nat.ne_of_lt hlt, hmm]
  · simp
  · simp
  · simp

/-- C8: when the module defines `main` as a function the rewrite succeeds on,
the module pass returns a module that defines the same global names, maps
`main` to the rewritten function and every other name to the function it had
in the input module.  The input module and its original `main` are left
unchanged: on every object store in which the input module object is
allocated, the run returns a new module object with those functions, while
the input module object, its table node (entries and handle count) and every
function object that existed before the run are as they were, so the input
module still maps every name, `main` included, to the function it had, and
the two module objects do not share a table after the run. -/
theorem C8_module_frame (M : Device → TensorValue) (ct : CheckedTypes) (fresh : Nat)
    (mod : pass.IRModule) (func func1 : Function)
    (hmain : mod.functions "main" = some (.Function func))
    (hrun : ClosureEliminator.call M ct fresh func = .ok func1) :
    ∃ mod1, pass.EliminateClosure M ct fresh mod = .ok mod1 ∧
      mod1.functions "main" = some (.Function func1) ∧
      (∀ name, name ≠ "main" → mod1.functions name = mod.functions name) ∧
      (∀ name, (mod1.functions name).isSome = (mod.functions name).isSome) ∧
      ∀ (heap : pass.Heap) (r : Nat), heap.Allocated r → heap.functionsOf r = mod.functions →
        ∃ heap1, pass.EliminateClosureOnHeap M ct fresh heap r = .ok (heap.nextModule, heap1) ∧
          heap.nextModule ≠ r ∧
          heap1.functionsOf heap.nextModule = mod1.functions ∧
          heap1.functionsOf r = mod.functions ∧
          heap1.functionsOf r "main" = some (.Function func) ∧
          heap1.modules r = heap.modules r ∧
          heap1.maps (heap.modules r).functions = heap.maps (heap.modules r).functions ∧
          (heap1.modules heap.nextModule).functions ≠ (heap1.modules r).functions ∧
          (∃ a : Nat, heap.Lookup r "main" = .ok a ∧ heap1.Lookup r "main" = .ok a ∧
            a < heap.nextFunc ∧ heap1.funcs a = .Function func ∧
            heap1.Lookup heap.nextModule "main" = .ok heap.nextFunc) ∧
          (∀ a : Nat, a < heap.nextFunc → heap1.funcs a = heap.funcs a) ∧
          (∀ k : Nat, k < heap.nextModule → heap1.modules k = heap.modules k) ∧
          (∀ m : Nat, m < heap.nextMap → heap1.maps m = heap.maps m) := by
  refine ⟨(pass.IRModule.mk mod.functions).Add "main" (.Function func1), ?_, ?_, ?_, ?_, ?_⟩
  · simp [pass.EliminateClosure, pass.IRModule.Lookup, hmain, pass.Downcast, hrun,
      pass.IRModule.GetGlobalVar]
  · simp [pass.IRModule.Add]
  · intro name hne
    simp [pass.IRModule.Add, hne]
  · intro name
    by_cases hne : name = "main"
    · subst hne
      simp [pass.IRModule.Add, hmain]
    · simp [pass.IRModule.Add, hne]
  · intro heap r hall hview
    obtain ⟨hr, hm, hrefs, hdom⟩ := hall
    obtain ⟨a, hentry, hfunc⟩ := functionsOf_entry heap r "main" (.Function func)
      (by rw [hview]; exact hmain)
    have ha : a < heap.nextFunc := hdom "main" a hentry
    obtain ⟨hfuncs, hnew, hmods, hmaps, hout, hentries, _, _, _, _⟩ :=
      EliminateClosureOnHeap_store heap r (.Function func1) hr hm hrefs
    have hmodr := hmods r hr
    have hmapr := hmaps _ hm
    have hviewr : ∀ name, pass.Heap.functionsOf
        (((heap.newFunction (.Function func1)).2.newModule (heap.modules r).functions).2.Set
          heap.nextModule "main" heap.nextFunc) r name = heap.functionsOf r name := by
      intro name
      simp only [pass.Heap.functionsOf, hmodr, hmapr]
      cases he : (heap.maps (heap.modules r).functions).entries name with
      | none => rfl
      | some c => simp only [hfuncs c (hdom name c he)]
    refine ⟨_, EliminateClosureOnHeap_ok M ct fresh heap r a func func1 hentry hfunc hrun,
      Ne.symm (Nat.ne_of_lt hr), ?_, ?_, ?_, hmodr, hmapr, ?_, ?_, hfuncs, hmods, hmaps⟩
    · funext name
      simp only [pass.Heap.functionsOf, hout, hentries, pass.IRModule.Add]
      by_cases hne : name = "main"
      · simp only [hne, if_true, hnew]
      · simp only [hne, if_false]
        rw [← hview]
        simp only [pass.Heap.functionsOf]
        cases he : (heap.maps (heap.modules r).functions).entries name with
        | none => rfl
        | some c => simp only [hfuncs c (hdom name c he)]
    · funext name
      rw [hviewr name, hview]
    · rw [hviewr "main", hview]
      exact hmain
    · rw [hout, hmodr]
      exact Ne.symm (Nat.ne_of_lt hm)
    · refine ⟨a, ?_, ?_, ha, ?_, ?_⟩
      · simp [pass.Heap.Lookup, hentry]
      · simp only [pass.Heap.Lookup, hmodr, hmapr, hentry]
      · rw [hfuncs a ha]
        exact hfunc
      · simp only [pass.Heap.Lookup, hout, hentries, if_true]

/-- Witness of C8 on a module with `main = f(x) = (x, make_closure())` and a
helper function, held by the module object at address 0: the run returns the
new module object at address 1 with the rewritten `main`, and the module
object at 0 still maps `main` to `f`. -/
theorem C8_module_frame_witness :
    sample.closureMod.functions "main" = some (.Function sample.closureFn) ∧
    ClosureEliminator.call sample.ones sample.closureCt 3 sample.closureFn =
      .ok sample.closureFnOut ∧
    sample.closureHeap.Allocated 0 ∧
    sample.closureHeap.functionsOf 0 = sample.closureMod.functions ∧
    (match pass.EliminateClosureOnHeap sample.ones sample.closureCt 3 sample.closureHeap 0 with
      | .ok (out, heap1) =>
        some (out, heap1.functionsOf 0 "main", heap1.functionsOf out "main",
          heap1.functionsOf 0 "helper", heap1.functionsOf out "helper",
          (heap1.modules 0).functions, (heap1.modules out).functions, (heap1.maps 0).refs)
      | .error _ => none) =
      some (1, some (.Function sample.closureFn), some (.Function sample.closureFnOut),
        some (.Function sample.tensorFn), some (.Function sample.tensorFn), 0, 1, 1) ∧
    ∃ mod1, pass.EliminateClosure sample.ones sample.closureCt 3 sample.closureMod = .ok mod1 ∧
      mod1.functions "main" = some (.Function sample.closureFnOut) ∧
      (∀ name, name ≠ "main" → mod1.functions name = sample.closureMod.functions name) ∧
      (∀ name, (mod1.functions name).isSome = (sample.closureMod.functions name).isSome) ∧
      ∃ heap1, pass.EliminateClosureOnHeap sample.ones sample.closureCt 3 sample.closureHeap 0 =
          .ok (1, heap1) ∧
        heap1.functionsOf 1 = mod1.functions ∧
        heap1.functionsOf 0 = sample.closureMod.functions ∧
        heap1.functionsOf 0 "main" = some (.Function sample.closureFn) ∧
        heap1.modules 0 = sample.closureHeap.modules 0 ∧
        heap1.maps 0 = sample.closureHeap.maps 0 ∧
        (∀ a : Nat, a < 2 → heap1.funcs a = sample.closureHeap.funcs a) := by
  have hall : sample.closureHeap.Allocated 0 := by
    refine ⟨by decide, by decide, by decide, ?_⟩
    intro name a h
    simp only [sample.closureHeap, if_true] at h
    by_cases h1 : name = "main"
    · simp only [h1, if_true, Option.some.injEq] at h
      subst h
      decide
    · by_cases h2 : name = "helper"
      · subst h2
        simp only [h1, if_true, if_false, Option.some.injEq] at h
        subst h
        decide
      · simp [h1, h2] at h
  have hview : sample.closureHeap.functionsOf 0 = sample.closureMod.functions := by
    funext name
    simp only [pass.Heap.functionsOf, sample.closureHeap, sample.closureMod, if_true]
    by_cases h1 : name = "main"
    · simp [h1]
    · by_cases h2 : name = "helper"
      · simp [h2]
      · simp [h1, h2]
  obtain ⟨mod1, hok, hm, hothers, hnames, hheap⟩ :=
    C8_module_frame sample.ones sample.closureCt 3 sample.closureMod sample.closureFn
      sample.closureFnOut rfl rfl
  obtain ⟨heap1, hrun, _, hout, hin, hinmain, hmod, hmap, _, _, hfuncs, _, _⟩ :=
    hheap sample.closureHeap 0 hall hview
  exact ⟨rfl, rfl, hall, hview, rfl, mod1, hok, hm, hothers, hnames, heap1, hrun, hout, hin,
    hinmain, hmod, hmap, hfuncs⟩

end mnm

namespace torch_lazy_tensors
namespace ir
namespace ops

/-! ## Cloning nodes -/

theorem atIndex_lt (operands : List Value) (pos : Nat) (h : pos < operands.length) :
    OpList.atIndex operands pos = .ok (operands.get ⟨pos, h⟩) := by
  unfold OpList.atIndex
  rw [List.get?_eq_get h]

theorem atIndex_ge (operands : List Value) (pos : Nat) (h : operands.length ≤ pos) :
    OpList.atIndex operands pos = .error (.OutOfRange pos operands.length) := by
  unfold OpList.atIndex
  rw [List.get?_eq_none.mpr h]

theorem take_one_eq (operands : List Value) (h : 0 < operands.length) :
    operands.take 1 = [operands.get ⟨0, h⟩] := by
  cases operands with
  | nil => simp at h
  | cons a rest => simp

theorem take_two_eq (operands : List Value) (h : 1 < operands.length) :
    operands.take 2 = [operands.get ⟨0, by omega⟩, operands.get ⟨1, h⟩] := by
  cases operands with
  | nil => simp at h
  | cons a rest =>
    cases rest with
    | nil => simp at h
    | cons b rest2 => simp

/-- C9: `NllLossBackward::Clone` on the node's own operands.  The constructor
takes `weight` and `total_weight` independently, so a node has 3, 4 or 5
operands.  With exactly one of the two present (4 operands) `Clone` reads
`operands.at(4)` and fails out of range; with none or both it rebuilds the
node itself. -/
theorem C9_clone_fails_on_four_operands (u : Util) (grad_output logits labels w tw : Value)
    (reduction : ReductionMode) (ignore_index : Int) :
    (NllLossBackward.new u grad_output logits labels (some w) none reduction
        ignore_index).node.operands = [grad_output, logits, labels, w] ∧
    NllLossBackward.Clone u
      (NllLossBackward.new u grad_output logits labels (some w) none reduction ignore_index)
      (NllLossBackward.new u grad_output logits labels (some w) none reduction
        ignore_index).node.operands = .error (.OutOfRange 4 4) ∧
    (NllLossBackward.new u grad_output logits labels none (some tw) reduction
        ignore_index).node.operands = [grad_output, logits, labels, tw] ∧
    NllLossBackward.Clone u
      (NllLossBackward.new u grad_output logits labels none (some tw) reduction ignore_index)
      (NllLossBackward.new u grad_output logits labels none (some tw) reduction
        ignore_index).node.operands = .error (.OutOfRange 4 4) ∧
    NllLossBackward.Clone u
      (NllLossBackward.new u grad_output logits labels none none reduction ignore_index)
      (NllLossBackward.new u grad_output logits labels none none reduction
        ignore_index).node.operands =
      .ok (NllLossBackward.new u grad_output logits labels none none reduction ignore_index) ∧
    NllLossBackward.Clone u
      (NllLossBackward.new u grad_output logits labels (some w) (some tw) reduction ignore_index)
      (NllLossBackward.new u grad_output logits labels (some w) (some tw) reduction
        ignore_index).node.operands =
      .ok (NllLossBackward.new u grad_output logits labels (some w) (some tw) reduction
        ignore_index) := by
  refine ⟨?_, ?_, ?_, ?_, ?_, ?_⟩ <;>
    simp [NllLossBackward.Clone, NllLossBackward.new, GetValuesVector, OpList.atIndex]

/-- C10: `Clone` of `Gather`, `MaxPoolNd`, `SoftmaxBackward` and
`UpsampleNearestBackward` on an operand list at least as long as the node's
own succeeds; the clone has the node's operator kind, output arity and
non-operand parameters, its operands are the leading entries of the list, and
on the node's own operands the clone equals the node. -/
theorem C10_clone_keeps_parameters (u : Util) :
    (∀ (input index : Value) (dim : Int) (operands : List Value),
      (Gather.new u input dim index).node.operands.length ≤ operands.length →
      ∃ m, Gather.Clone u (Gather.new u input dim index) operands = .ok m ∧
        m.node.op = (Gather.new u input dim index).node.op ∧
        m.node.num_outputs = (Gather.new u input dim index).node.num_outputs ∧
        m.dim_ = dim ∧
        m.node.operands = operands.take (Gather.new u input dim index).node.operands.length ∧
        (operands = (Gather.new u input dim index).node.operands →
          m = Gather.new u input dim index)) ∧
    (∀ (input : Value) (spatial_dim_count : Int) (kernel_size stride padding : List Int)
      (ceil_mode : Bool) (n : MaxPoolNd) (operands : List Value),
      MaxPoolNd.new u input spatial_dim_count kernel_size stride padding ceil_mode = .ok n →
      n.node.operands.length ≤ operands.length →
      ∃ m, MaxPoolNd.Clone u n operands = .ok m ∧
        m.node.op = n.node.op ∧ m.node.num_outputs = n.node.num_outputs ∧
        m.spatial_dim_count_ = spatial_dim_count ∧ m.kernel_size_ = kernel_size ∧
        m.stride_ = stride ∧ m.padding_ = padding ∧ m.ceil_mode_ = ceil_mode ∧
        m.node.operands = operands.take n.node.operands.length ∧
        (operands = n.node.operands → m = n)) ∧
    (∀ (grad_output output : Value) (dim : Int) (operands : List Value),
      (SoftmaxBackward.new u grad_output output dim).node.operands.length ≤ operands.length →
      ∃ m, SoftmaxBackward.Clone u (SoftmaxBackward.new u grad_output output dim) operands =
          .ok m ∧
        m.node.op = (SoftmaxBackward.new u grad_output output dim).node.op ∧
        m.node.num_outputs = (SoftmaxBackward.new u grad_output output dim).node.num_outputs ∧
        m.dim_ = dim ∧
        m.node.operands =
          operands.take (SoftmaxBackward.new u grad_output output dim).node.operands.length ∧
        (operands = (SoftmaxBackward.new u grad_output output dim).node.operands →
          m = SoftmaxBackward.new u grad_output output dim)) ∧
    (∀ (input : Value) (output_size input_size : List Int) (operands : List Value),
      (UpsampleNearestBackward.new u input output_size input_size).node.operands.length ≤
        operands.length →
      ∃ m, UpsampleNearestBackward.Clone u
          (UpsampleNearestBackward.new u input output_size input_size) operands = .ok m ∧
        m.node.op = (UpsampleNearestBackward.new u input output_size input_size).node.op ∧
        m.node.num_outputs =
          (UpsampleNearestBackward.new u input output_size input_size).node.num_outputs ∧
        m.output_size_ = output_size ∧ m.input_size_ = input_size ∧
        m.node.operands = operands.take
          (UpsampleNearestBackward.new u input output_size input_size).node.operands.length ∧
        (operands = (UpsampleNearestBackward.new u input output_size input_size).node.operands →
          m = UpsampleNearestBackward.new u input output_size input_size)) := by
  refine ⟨?_, ?_, ?_, ?_⟩
  · intro input index dim operands hlen
    have h2 : 1 < operands.length := by simpa [Gather.new] using hlen
    refine ⟨Gather.new u (operands.get ⟨0, by omega⟩) dim (operands.get ⟨1, h2⟩), ?_, rfl, rfl,
      rfl, ?_, ?_⟩
    · simp [Gather.Clone, atIndex_lt operands 0 (by omega), atIndex_lt operands 1 h2,
        Gather.new]
    · simp only [Gather.new, List.length_cons, List.length_nil]
      exact (take_two_eq operands h2).symm
    · intro h
      subst h
      simp [Gather.new]
  · intro input spatial_dim_count kernel_size stride padding ceil_mode n operands hnew hlen
    simp only [MaxPoolNd.new] at hnew
    cases hsym : MaxPoolNdSymbol spatial_dim_count with
    | error err => rw [hsym] at hnew; cases hnew
    | ok symbol =>
      rw [hsym] at hnew
      cases hnew
      have h1 : 0 < operands.length := by simpa using hlen
      refine ⟨⟨⟨symbol, [operands.get ⟨0, h1⟩], none, 2,
          u.MHash [.int spatial_dim_count, .ints kernel_size, .ints stride, .ints padding,
            .bool ceil_mode]⟩,
        spatial_dim_count, kernel_size, stride, padding, ceil_mode⟩,
        ?_, rfl, rfl, rfl, rfl, rfl, rfl, rfl, ?_, ?_⟩
      · simp only [MaxPoolNd.Clone, atIndex_lt operands 0 h1, MaxPoolNd.new, hsym]
      · simp only [List.length_cons, List.length_nil]
        exact (take_one_eq operands h1).symm
      · intro h
        subst h
        simp
  · intro grad_output output dim operands hlen
    have h2 : 1 < operands.length := by simpa [SoftmaxBackward.new] using hlen
    refine ⟨SoftmaxBackward.new u (operands.get ⟨0, by omega⟩) (operands.get ⟨1, h2⟩) dim, ?_,
      rfl, rfl, rfl, ?_, ?_⟩
    · simp [SoftmaxBackward.Clone, atIndex_lt operands 0 (by omega), atIndex_lt operands 1 h2,
        SoftmaxBackward.new]
    · simp only [SoftmaxBackward.new, List.length_cons, List.length_nil]
      exact (take_two_eq operands h2).symm
    · intro h
      subst h
      simp [SoftmaxBackward.new]
  · intro input output_size input_size operands hlen
    have h1 : 0 < operands.length := by simpa [UpsampleNearestBackward.new] using hlen
    refine ⟨UpsampleNearestBackward.new u (operands.get ⟨0, h1⟩) output_size input_size, ?_,
      rfl, rfl, rfl, rfl, ?_, ?_⟩
    · simp [UpsampleNearestBackward.Clone, atIndex_lt operands 0 h1,
        UpsampleNearestBackward.new]
    · simp only [UpsampleNearestBackward.new, List.length_cons, List.length_nil]
      exact (take_one_eq operands h1).symm
    · intro h
      subst h
      simp [UpsampleNearestBackward.new]

/-- Witness of C10 on `MaxPoolNd(v0, 2, (3, 3), (2, 2), (1, 1), true)` cloned
onto the operand list `[v1, v2]`. -/
theorem C10_clone_keeps_parameters_witness :
    MaxPoolNd.new sample.util sample.v0 2 [3, 3] [2, 2] [1, 1] true = .ok sample.pool ∧
    sample.pool.node.operands.length ≤ [sample.v1, sample.v2].length ∧
    ∃ m, MaxPoolNd.Clone sample.util sample.pool [sample.v1, sample.v2] = .ok m ∧
      m.node.op = sample.pool.node.op ∧ m.node.num_outputs = sample.pool.node.num_outputs ∧
      m.spatial_dim_count_ = 2 ∧ m.kernel_size_ = [3, 3] ∧
      m.stride_ = [2, 2] ∧ m.padding_ = [1, 1] ∧ m.ceil_mode_ = true ∧
      m.node.operands = [sample.v1, sample.v2].take sample.pool.node.operands.length ∧
      ([sample.v1, sample.v2] = sample.pool.node.operands → m = sample.pool) :=
  ⟨rfl, by decide,
    (C10_clone_keeps_parameters sample.util).2.1 sample.v0 2 [3, 3] [2, 2] [1, 1] true
      sample.pool [sample.v1, sample.v2] rfl (by decide)⟩

end ops
end ir
end torch_lazy_tensors

namespace torch_lazy_tensors
namespace ir
namespace ops

/-! ## Construction, shapes and hashes of nodes -/

theorem MaxPoolNdSymbol_invalid (count : Int) (h1 : count ≠ 1) (h2 : count ≠ 2)
    (h3 : count ≠ 3) : MaxPoolNdSymbol count = .error (.InvalidSpatialDims count) := by
  simp [MaxPoolNdSymbol, h1, h2, h3]

/-- C16: the shape of a `SoftmaxBackward` node is supplied at construction
and is the shape of `grad_output`, whatever `output` and `dim` are; the clone
on an operand list has the shape of the first entry of the list, which is the
shape of the node when that entry has the shape of the node's `grad_output`.
(A node whose shape is left to inference, such as `Gather`, has no supplied
shape.) -/
theorem C16_softmax_backward_shape (u : Util) (grad_output output : Value) (dim : Int) :
    (SoftmaxBackward.new u grad_output output dim).node.shape = some grad_output.shape ∧
    (∀ (first second : Value) (more : List Value),
      ∃ m, SoftmaxBackward.Clone u (SoftmaxBackward.new u grad_output output dim)
          (first :: second :: more) = .ok m ∧
        m.node.shape = some first.shape ∧
        (first.shape = grad_output.shape →
          m.node.shape = (SoftmaxBackward.new u grad_output output dim).node.shape)) ∧
    (∀ (index : Value), (Gather.new u grad_output dim index).node.shape = none) := by
  refine ⟨rfl, fun first second more => ?_, fun _ => rfl⟩
  refine ⟨SoftmaxBackward.new u first second dim, ?_, rfl, fun h => ?_⟩
  · simp [SoftmaxBackward.Clone, OpList.atIndex, SoftmaxBackward.new]
  · simp [SoftmaxBackward.new, h]

end ops
end ir
end torch_lazy_tensors

namespace torch_lazy_tensors
namespace ir
namespace ops

/-- C12: the hash seed each constructor passes to the `Node` base is `MHash`
of the node's non-operand constructor parameters, all of them and nothing
else, so the hash of a node is a function of its operator kind, its operands
and those parameters.  `Clone` on the node's own operands yields a node of the
same hash for `Gather`, `MaxPoolNd`, `SoftmaxBackward`,
`UpsampleNearestBackward` and for `NllLossBackward` with none or both of the
optional operands; for `NllLossBackward` with exactly one optional operand
`Clone` fails out of range and yields no node. -/
theorem C12_hash_seed_and_clone (u : Util) (h : HashFns) :
    (∀ (input index : Value) (dim : Int),
      (Gather.new u input dim index).node.hash_seed = u.MHash [.int dim] ∧
      (Gather.new u input dim index).node.hash h =
        h.HashCombine (h.HashCombine (h.HashCombine (h.opHash "aten::gather")
          (u.MHash [.int dim])) (h.valueHash input)) (h.valueHash index) ∧
      ∃ m, Gather.Clone u (Gather.new u input dim index)
          (Gather.new u input dim index).node.operands = .ok m ∧
        m.node.hash h = (Gather.new u input dim index).node.hash h) ∧
    (∀ (input : Value) (spatial_dim_count : Int) (kernel_size stride padding : List Int)
      (ceil_mode : Bool) (n : MaxPoolNd),
      MaxPoolNd.new u input spatial_dim_count kernel_size stride padding ceil_mode = .ok n →
      n.node.hash_seed = u.MHash [.int spatial_dim_count, .ints kernel_size, .ints stride,
        .ints padding, .bool ceil_mode] ∧
      n.node.hash h = h.HashCombine (h.HashCombine (h.opHash n.node.op)
        (u.MHash [.int spatial_dim_count, .ints kernel_size, .ints stride, .ints padding,
          .bool ceil_mode])) (h.valueHash input) ∧
      ∃ m, MaxPoolNd.Clone u n n.node.operands = .ok m ∧ m.node.hash h = n.node.hash h) ∧
    (∀ (grad_output output : Value) (dim : Int),
      (SoftmaxBackward.new u grad_output output dim).node.hash_seed = u.MHash [.int dim] ∧
      (SoftmaxBackward.new u grad_output output dim).node.hash h =
        h.HashCombine (h.HashCombine (h.HashCombine (h.opHash "aten::_softmax_backward_data")
          (u.MHash [.int dim])) (h.valueHash grad_output)) (h.valueHash output) ∧
      ∃ m, SoftmaxBackward.Clone u (SoftmaxBackward.new u grad_output output dim)
          (SoftmaxBackward.new u grad_output output dim).node.operands = .ok m ∧
        m.node.hash h = (SoftmaxBackward.new u grad_output output dim).node.hash h) ∧
    (∀ (input : Value) (output_size input_size : List Int),
      (UpsampleNearestBackward.new u input output_size input_size).node.hash_seed =
        u.MHash [.ints output_size, .ints input_size] ∧
      (UpsampleNearestBackward.new u input output_size input_size).node.hash h =
        h.HashCombine (h.HashCombine (h.opHash "aten::upsample_nearest2d_backward")
          (u.MHash [.ints output_size, .ints input_size])) (h.valueHash input) ∧
      ∃ m, UpsampleNearestBackward.Clone u
          (UpsampleNearestBackward.new u input output_size input_size)
          (UpsampleNearestBackward.new u input output_size input_size).node.operands = .ok m ∧
        m.node.hash h =
          (UpsampleNearestBackward.new u input output_size input_size).node.hash h) ∧
    (∀ (grad_output logits labels : Value) (weight total_weight : Option Value)
      (reduction : ReductionMode) (ignore_index : Int),
      (NllLossBackward.new u grad_output logits labels weight total_weight reduction
        ignore_index).node.hash_seed =
        u.MHash [.int (u.GetEnumValue reduction), .int ignore_index] ∧
      (NllLossBackward.new u grad_output logits labels weight total_weight reduction
        ignore_index).node.hash h =
        (GetValuesVector [grad_output, logits, labels] [weight, total_weight]).foldl
          (fun acc v => h.HashCombine acc (h.valueHash v))
          (h.HashCombine (h.opHash "aten::nll_loss_backward")
            (u.MHash [.int (u.GetEnumValue reduction), .int ignore_index]))) ∧
    (∀ (grad_output logits labels w tw : Value) (reduction : ReductionMode)
      (ignore_index : Int),
      (∃ m, NllLossBackward.Clone u
          (NllLossBackward.new u grad_output logits labels none none reduction ignore_index)
          (NllLossBackward.new u grad_output logits labels none none reduction
            ignore_index).node.operands = .ok m ∧
        m.node.hash h = (NllLossBackward.new u grad_output logits labels none none reduction
          ignore_index).node.hash h) ∧
      (∃ m, NllLossBackward.Clone u
          (NllLossBackward.new u grad_output logits labels (some w) (some tw) reduction
            ignore_index)
          (NllLossBackward.new u grad_output logits labels (some w) (some tw) reduction
            ignore_index).node.operands = .ok m ∧
        m.node.hash h = (NllLossBackward.new u grad_output logits labels (some w) (some tw)
          reduction ignore_index).node.hash h) ∧
      NllLossBackward.Clone u
        (NllLossBackward.new u grad_output logits labels (some w) none reduction ignore_index)
        (NllLossBackward.new u grad_output logits labels (some w) none reduction
          ignore_index).node.operands = .error (.OutOfRange 4 4) ∧
      NllLossBackward.Clone u
        (NllLossBackward.new u grad_output logits labels none (some tw) reduction ignore_index)
        (NllLossBackward.new u grad_output logits labels none (some tw) reduction
          ignore_index).node.operands = .error (.OutOfRange 4 4)) := by
  refine ⟨?_, ?_, ?_, ?_, ?_, ?_⟩
  · intro input index dim
    exact ⟨rfl, rfl, Gather.new u input dim index,
      by simp [Gather.Clone, Gather.new, OpList.atIndex], rfl⟩
  · intro input spatial_dim_count kernel_size stride padding ceil_mode n hnew
    simp only [MaxPoolNd.new] at hnew
    cases hsym : MaxPoolNdSymbol spatial_dim_count with
    | error err => rw [hsym] at hnew; cases hnew
    | ok symbol =>
      rw [hsym] at hnew
      cases hnew
      refine ⟨rfl, rfl, _, ?_, rfl⟩
      simp [MaxPoolNd.Clone, MaxPoolNd.new, OpList.atIndex, hsym]
  · intro grad_output output dim
    exact ⟨rfl, rfl, SoftmaxBackward.new u grad_output output dim,
      by simp [SoftmaxBackward.Clone, SoftmaxBackward.new, OpList.atIndex], rfl⟩
  · intro input output_size input_size
    exact ⟨rfl, rfl, UpsampleNearestBackward.new u input output_size input_size,
      by simp [UpsampleNearestBackward.Clone, UpsampleNearestBackward.new, OpList.atIndex],
      rfl⟩
  · intro grad_output logits labels weight total_weight reduction ignore_index
    exact ⟨rfl, rfl⟩
  · intro grad_output logits labels w tw reduction ignore_index
    refine ⟨⟨_, ?_, rfl⟩, ⟨_, ?_, rfl⟩, ?_, ?_⟩ <;>
      simp [NllLossBackward.Clone, NllLossBackward.new, GetValuesVector, OpList.atIndex]

end ops
end ir
end torch_lazy_tensors

namespace mnm
open mnm.pass.eliminate_closure

/-! ## Frame of the rewritten function and the number of added bindings -/

/-- C13, as stated, fails on `f(x) = (x, make_closure())` declared with the
return type `Tuple[Tensor, Closure]`: the parameters and type parameters are
carried over, but the body is not the only field that differs, as the
rewritten function has no declared return type. -/
theorem C13_counterexample :
    ClosureEliminator.call sample.ones sample.closureCt 3 sample.closureFn =
      .ok sample.closureFnOut ∧
    sample.closureFnOut.params = sample.closureFn.params ∧
    sample.closureFnOut.type_params = sample.closureFn.type_params ∧
    sample.closureFn.ret_type = some (.TupleTypeNode [sample.tensorTy, sample.closureTy]) ∧
    sample.closureFnOut.ret_type = none ∧
    sample.closureFnOut.ret_type ≠ sample.closureFn.ret_type :=
  ⟨rfl, rfl, rfl, rfl, rfl, fun h => by cases h⟩

/-- C13, amended: when the pass succeeds, the rewritten function has the
parameter list and the type-parameter list of the input function, in the same
order; its body is the rewritten body and its declared return type is
undefined (the constructor is called with `{}` for it), whatever the input
function declared. -/
theorem C13_params_kept_ret_type_reset (M : Device → TensorValue) (ct : CheckedTypes)
    (fresh : Nat) (func func1 : Function)
    (hrun : ClosureEliminator.call M ct fresh func = .ok func1) :
    func1.params = func.params ∧ func1.type_params = func.type_params ∧
      func1.ret_type = none := by
  obtain ⟨ell, ty, hmake, hty, helim⟩ := call_inv M ct fresh func func1 hrun
  rw [call_ok M ct fresh func ell ty hmake hty helim] at hrun
  cases hrun
  exact ⟨rfl, rfl, rfl⟩

/-- Witness of the amended C13 on `f(x) = (x, make_closure())`. -/
theorem C13_params_kept_ret_type_reset_witness :
    ClosureEliminator.call sample.ones sample.closureCt 3 sample.closureFn =
      .ok sample.closureFnOut ∧
    (sample.closureFnOut.params = sample.closureFn.params ∧
      sample.closureFnOut.type_params = sample.closureFn.type_params ∧
      sample.closureFnOut.ret_type = none) :=
  ⟨rfl, C13_params_kept_ret_type_reset sample.ones sample.closureCt 3 sample.closureFn
    sample.closureFnOut rfl⟩

theorem addedFields_tensors : ∀ (fields : List Ty),
    (∀ ty ∈ fields, ∃ shape dtype, ty = .TensorTypeNode shape dtype) →
    addedFields fields = fields.length
  | [], _ => by simp [addedFields]
  | ty :: rest, h => by
    obtain ⟨shape, dtype, hty⟩ := h ty (by simp)
    subst hty
    have ih := addedFields_tensors rest (fun t ht => h t (by simp [ht]))
    simp [addedFields, added, ih]
    omega

/-- C18: for a result type built from tuple, tensor and function types the
pass appends exactly `added ty` bindings, where `added` is 0 on a tensor type,
1 on a function type and, on a tuple type, 1 plus the sum over the fields of
1 plus `added` of the field; the count does not depend on the function or on
the generated names, is 1 for the empty tuple and `n + 1` for a tuple of `n`
tensors. -/
theorem C18_added_binding_count (M : Device → TensorValue) (ct : CheckedTypes)
    (fresh : Nat) (func : Function) (ell : ExplicitLetList) (ty : Ty)
    (hmake : ExplicitLetList.make func.body = .ok ell) (hty : ct ell.ret = some ty)
    (helim : eliminable ty = true) :
    (∃ (func1 : Function) (ell1 : ExplicitLetList) (new : List (Nat × Expr)),
      ClosureEliminator.call M ct fresh func = .ok func1 ∧
      ExplicitLetList.make func1.body = .ok ell1 ∧
      ell1.bindings = ell.bindings ++ new ∧ new.length = added ty ∧
      ell1.bindings.length = ell.bindings.length + added ty) ∧
    added (.TupleTypeNode []) = 1 ∧
    (∀ fields, (∀ f ∈ fields, ∃ shape dtype, f = Ty.TensorTypeNode shape dtype) →
      added (.TupleTypeNode fields) = fields.length + 1) ∧
    (∀ shape dtype, added (.TensorTypeNode shape dtype) = 0) ∧
    (∀ args ret, added (.FuncTypeNode args ret) = 1) := by
  refine ⟨⟨_, _, (emitAt M ell.ret ty fresh).1,
    call_ok M ct fresh func ell ty hmake hty helim, make_letChain _ _, ?_,
    emitAt_length M ty _ _, ?_⟩, by simp [added, addedFields], ?_, by simp [added],
    by simp [added]⟩
  · simp only [ExplicitLetList.bindings]
    rw [zip_map_fst_snd]
  · simp only [ExplicitLetList.bindings]
    rw [zip_map_fst_snd, List.length_append, emitAt_length M ty]
  · intro fields h
    simp [added, addedFields_tensors fields h]
    omega

/-- Witness of C18 on `f(x) = let r = g(x); r` with
`r : Tuple[Tensor, Tuple[Closure, Tensor]]`: seven bindings are added. -/
theorem C18_added_binding_count_witness :
    ExplicitLetList.make sample.nestedFn.body = .ok sample.nestedLets ∧
    sample.nestedCt sample.nestedLets.ret = some sample.nestedTy ∧
    eliminable sample.nestedTy = true ∧ added sample.nestedTy = 7 ∧
    ∃ (func1 : Function) (ell1 : ExplicitLetList) (new : List (Nat × Expr)),
      ClosureEliminator.call sample.ones sample.nestedCt 2 sample.nestedFn = .ok func1 ∧
      ExplicitLetList.make func1.body = .ok ell1 ∧
      ell1.bindings = sample.nestedLets.bindings ++ new ∧
      new.length = added sample.nestedTy ∧
      ell1.bindings.length = sample.nestedLets.bindings.length + added sample.nestedTy :=
  ⟨rfl, rfl, rfl, rfl,
    (C18_added_binding_count sample.ones sample.nestedCt 2 sample.nestedFn sample.nestedLets
      sample.nestedTy rfl rfl rfl).1⟩

end mnm

namespace mnm
open mnm.pass.eliminate_closure

/-! ## Tuples of tensors: the emitted bindings and their meaning -/

theorem emitFields_tensors (M : Device → TensorValue) : ∀ (fs : List Ty) (x i n : Nat),
    (∀ ty ∈ fs, ∃ shape dtype, ty = Ty.TensorTypeNode shape dtype) →
    emitFields M x fs i n = (projections x fs.length i n, List.range' n fs.length)
  | [], x, i, n, _ => by simp [emitFields, projections]
  | ty :: rest, x, i, n, h => by
    obtain ⟨shape, dtype, hty⟩ := h ty (by simp)
    subst hty
    have ih := emitFields_tensors M rest x (i + 1) (n + 1) (fun t ht => h t (by simp [ht]))
    simp [emitFields, emitAt, ih, projections, List.range']

theorem projections_length (x : Nat) : ∀ (k i n : Nat), (projections x k i n).length = k
  | 0, _, _ => rfl
  | k + 1, i, n => by simp [projections, projections_length x k]

theorem projections_get (x : Nat) : ∀ (k i n j : Nat), j < k →
    (projections x k i n).get? j = some (n + j, Expr.TupleGetItem (.Var x) (i + j))
  | 0, _, _, _, h => by omega
  | k + 1, i, n, 0, _ => by simp [projections]
  | k + 1, i, n, j + 1, h => by
    simp only [projections, List.get?_cons_succ]
    rw [projections_get x k (i + 1) (n + 1) j (by omega)]
    simp only [Option.some.injEq, Prod.mk.injEq, Expr.TupleGetItem.injEq, true_and]
    omega

theorem evalLets_append : ∀ (a b : List (Nat × Expr)) (env : Var → Option Val),
    evalLets env (a ++ b) = evalLets (evalLets env a) b
  | [], b, env => rfl
  | (v, e) :: rest, b, env => by
    simp only [List.cons_append, evalLets]
    exact evalLets_append rest b _

theorem evalLets_projections (x : Nat) (vs : List Val) : ∀ (k i n : Nat)
    (env : Var → Option Val), env x = some (.tuple vs) → x < n →
    (∀ w : Nat, w < n → evalLets env (projections x k i n) w = env w) ∧
    (∀ j : Nat, j < k → evalLets env (projections x k i n) (n + j) = vs.get? (i + j))
  | 0, i, n, env, _, _ => by simp [evalLets, projections]
  | k + 1, i, n, env, hx, hlt => by
    have hne : x ≠ n := by omega
    have ih := evalLets_projections x vs k (i + 1) (n + 1)
      (fun w => if w = n then evalExpr env (.TupleGetItem (.Var x) i) else env w)
      (by simp [hne, hx]) (by omega)
    simp only [projections, evalLets]
    constructor
    · intro w hw
      rw [ih.1 w (by omega)]
      have : w ≠ n := by omega
      simp [this]
    · intro j hj
      cases j with
      | zero =>
        have h1 := ih.1 n (by omega)
        simp only [Nat.add_zero]
        rw [h1]
        simp [evalExpr, hx, projVal]
      | succ j =>
        have h2 := ih.2 j (by omega)
        rw [show n + (j + 1) = n + 1 + j by omega, show i + (j + 1) = i + 1 + j by omega]
        exact h2

theorem evalFields_range (env : Var → Option Val) : ∀ (vs : List Val) (n : Nat),
    (∀ j : Nat, j < vs.length → env (n + j) = vs.get? j) →
    evalFields env ((List.range' n vs.length).map Expr.Var) = some vs
  | [], n, _ => by simp [evalFields]
  | v :: vs, n, h => by
    have h0 : env n = some v := by simpa using h 0 (by simp)
    have ih := evalFields_range env vs (n + 1) (fun j hj => by
      have := h (j + 1) (by simpa using hj)
      rw [show n + 1 + j = n + (j + 1) by omega, this]
      simp)
    simp [List.range', evalFields, evalExpr, h0, ih, consVal]

end mnm

namespace mnm
open mnm.pass.eliminate_closure

theorem eliminableFields_tensors : ∀ (fields : List Ty),
    (∀ ty ∈ fields, ∃ shape dtype, ty = Ty.TensorTypeNode shape dtype) →
    eliminableFields fields = true
  | [], _ => by simp [eliminableFields]
  | ty :: rest, h => by
    obtain ⟨shape, dtype, hty⟩ := h ty (by simp)
    subst hty
    simp [eliminableFields, eliminable,
      eliminableFields_tensors rest (fun t ht => h t (by simp [ht]))]

/-- C15: for a return variable `r` of a tuple type whose `n` fields are all
tensor types, the pass appends the `n` projection bindings
`p_i = TupleGetItem(r, i)`, `i = 0..n-1`, in this order, then the one binding
`t = Tuple(p_0, ..., p_{n-1})`, and returns `t`.  Under the usual semantics of
tuples, in every environment where `r` denotes a tuple of `n` values the
returned variable denotes, after the added bindings, the value of `r`, and no
earlier variable changes its value. -/
theorem C15_tuple_of_tensors_reexpressed (M : Device → TensorValue) (ct : CheckedTypes)
    (fresh : Nat) (func : Function) (ell : ExplicitLetList) (fields : List Ty)
    (hmake : ExplicitLetList.make func.body = .ok ell)
    (hty : ct ell.ret = some (.TupleTypeNode fields))
    (hall : ∀ f ∈ fields, ∃ shape dtype, f = Ty.TensorTypeNode shape dtype) :
    ∃ (func1 : Function) (new : List (Nat × Expr)),
      ClosureEliminator.call M ct fresh func = .ok func1 ∧
      new = projections ell.ret fields.length 0 fresh ++
        [(fresh + fields.length, Expr.Tuple ((List.range' fresh fields.length).map .Var))] ∧
      ExplicitLetList.make func1.body =
        .ok ⟨ell.vars ++ new.map Prod.fst, ell.exprs ++ new.map Prod.snd,
          fresh + fields.length⟩ ∧
      new.length = fields.length + 1 ∧
      (∀ i : Nat, i < fields.length →
        new.get? i = some (fresh + i, Expr.TupleGetItem (.Var ell.ret) i)) ∧
      new.get? fields.length =
        some (fresh + fields.length,
          Expr.Tuple ((List.range' fresh fields.length).map .Var)) ∧
      (∀ (env : Var → Option Val) (vs : List Val), env ell.ret = some (.tuple vs) →
        vs.length = fields.length → ell.ret < fresh →
        evalLets env new (fresh + fields.length) = env ell.ret ∧
        ∀ w : Nat, w < fresh → evalLets env new w = env w) := by
  have hl := (make_inv func.body ell hmake).1
  have helim : eliminable (.TupleTypeNode fields) = true := by
    simp [eliminable, eliminableFields_tensors fields hall]
  have hemit : emitAt M ell.ret (.TupleTypeNode fields) fresh =
      (projections ell.ret fields.length 0 fresh ++
        [(fresh + fields.length, Expr.Tuple ((List.range' fresh fields.length).map .Var))],
       fresh + fields.length) := by
    simp [emitAt, emitFields_tensors M fields ell.ret 0 fresh hall, projections_length]
  have hrun := call_ok M ct fresh func ell _ hmake hty helim
  rw [hemit] at hrun
  refine ⟨_, _, hrun, rfl, ?_, ?_, ?_, ?_, ?_⟩
  · simp only []
    rw [make_letChain]
    simp [ExplicitLetList.bindings, List.map_fst_zip, List.map_snd_zip, hl]
  · simp [projections_length]
  · intro i hi
    rw [List.get?_eq_getElem?,
      List.getElem?_append_left (by simpa [projections_length] using hi),
      ← List.get?_eq_getElem?, projections_get ell.ret fields.length 0 fresh i hi, Nat.zero_add]
  · rw [List.get?_eq_getElem?, List.getElem?_append_right (by simp [projections_length])]
    simp [projections_length]
  · intro env vs henv hlen hlt
    have hp := evalLets_projections ell.ret vs fields.length 0 fresh env henv hlt
    have hf := evalFields_range (evalLets env (projections ell.ret fields.length 0 fresh)) vs
      fresh (fun j hj => by
        have := hp.2 j (by omega)
        rw [this, Nat.zero_add])
    rw [evalLets_append]
    simp only [evalLets]
    constructor
    · rw [if_pos trivial, henv]
      simp only [evalExpr]
      rw [← hlen] at hf ⊢
      rw [hf]
      rfl
    · intro w hw
      have hne : w ≠ fresh + fields.length := by omega
      rw [if_neg hne]
      exact hp.1 w hw

/-- Witness of C15 on `f(r) = r` with `r : Tuple[Tensor, Tensor]`. -/
theorem C15_tuple_of_tensors_reexpressed_witness :
    ExplicitLetList.make sample.pairFn.body = .ok ⟨[], [], 0⟩ ∧
    sample.pairCt 0 = some (.TupleTypeNode [sample.tensorTy, sample.tensorTy]) ∧
    (∀ f ∈ [sample.tensorTy, sample.tensorTy],
      ∃ shape dtype, f = Ty.TensorTypeNode shape dtype) ∧
    ClosureEliminator.call sample.ones sample.pairCt 1 sample.pairFn = .ok sample.pairFnOut ∧
    ∃ (func1 : Function) (new : List (Nat × Expr)),
      ClosureEliminator.call sample.ones sample.pairCt 1 sample.pairFn = .ok func1 ∧
      new = projections 0 2 0 1 ++ [(1 + 2, Expr.Tuple ((List.range' 1 2).map .Var))] ∧
      ExplicitLetList.make func1.body =
        .ok ⟨[] ++ new.map Prod.fst, [] ++ new.map Prod.snd, 1 + 2⟩ ∧
      new.length = 2 + 1 ∧
      (∀ i : Nat, i < 2 → new.get? i = some (1 + i, Expr.TupleGetItem (.Var 0) i)) ∧
      new.get? 2 = some (1 + 2, Expr.Tuple ((List.range' 1 2).map .Var)) ∧
      (∀ (env : Var → Option Val) (vs : List Val), env 0 = some (.tuple vs) →
        vs.length = 2 → 0 < 1 →
        evalLets env new (1 + 2) = env 0 ∧ ∀ w : Nat, w < 1 → evalLets env new w = env w) :=
  ⟨rfl, rfl,
    (fun f hf => by
      have h : f = sample.tensorTy := by
        rcases List.mem_cons.mp hf with h | h
        · exact h
        · exact List.mem_singleton.mp h
      exact ⟨[2, 3], "float32", h⟩),
    rfl,
    C15_tuple_of_tensors_reexpressed sample.ones sample.pairCt 1 sample.pairFn ⟨[], [], 0⟩
      [sample.tensorTy, sample.tensorTy] rfl rfl
      (fun f hf => by
        have h : f = sample.tensorTy := by
          rcases List.mem_cons.mp hf with h | h
          · exact h
          · exact List.mem_singleton.mp h
        exact ⟨[2, 3], "float32", h⟩)⟩

end mnm

namespace mnm
open mnm.pass.eliminate_closure

/-! ## The let-list invariant -/

theorem scopedFrom_mono : ∀ (bs : List (Nat × Expr)) (s s2 : List Nat),
    (∀ w, w ∈ s → w ∈ s2) → scopedFrom s bs = true → scopedFrom s2 bs = true
  | [], _, _, _, _ => rfl
  | (v, e) :: rest, s, s2, hsub, h => by
    simp only [scopedFrom, Bool.and_eq_true, List.all_eq_true, decide_eq_true_eq] at h ⊢
    refine ⟨fun w hw => hsub w (h.1 w hw), scopedFrom_mono rest (v :: s) (v :: s2) ?_ h.2⟩
    intro w hw
    rcases List.mem_cons.mp hw with h1 | h1
    · simp [h1]
    · simp [hsub w h1]

theorem scopedFrom_append : ∀ (a b : List (Nat × Expr)) (s : List Nat),
    scopedFrom s (a ++ b) = true ↔
      scopedFrom s a = true ∧ scopedFrom ((a.map Prod.fst).reverse ++ s) b = true
  | [], b, s => by simp [scopedFrom]
  | (v, e) :: rest, b, s => by
    have ih := scopedFrom_append rest b (v :: s)
    show scopedFrom s ((v, e) :: (rest ++ b)) = true ↔ _
    simp only [scopedFrom, Bool.and_eq_true, List.map_cons, List.reverse_cons,
      List.append_assoc, List.singleton_append, ih, and_assoc]

theorem range'_cons_append (n a b : Nat) :
    n :: List.range' (n + 1) a ++ List.range' (n + 1 + a) b = List.range' n (a + 1 + b) := by
  rw [List.cons_append, List.range'_append_1, show a + 1 + b = (b + a) + 1 by omega,
    List.range'_succ]

theorem freeVarsFields_vars : ∀ (l : List Nat), freeVarsFields (l.map Expr.Var) = l
  | [] => rfl
  | v :: rest => by simp [freeVarsFields, freeVars, freeVarsFields_vars rest]

theorem freeVars_placeholder (M : Device → TensorValue) : freeVars (placeholder M) = [] := by
  simp [placeholder, freeVars, freeVarsFields]

mutual
theorem emitAt_vars (M : Device → TensorValue) : ∀ (ty : Ty) (x n : Nat),
    (emitAt M x ty n).1.map Prod.fst = List.range' n (emitAt M x ty n).1.length
  | .TupleTypeNode fields, x, n => by
    have hF := emitFields_vars M fields x 0 n
    simp only [emitAt, List.map_append, List.map_cons, List.map_nil, List.length_append,
      List.length_singleton]
    rw [hF, List.range'_concat]
    simp
  | .TensorTypeNode _ _, x, n => by simp [emitAt]
  | .FuncTypeNode _ _, x, n => by simp [emitAt, List.range']
  | .OtherType _, x, n => by simp [emitAt]
theorem emitFields_vars (M : Device → TensorValue) : ∀ (fs : List Ty) (x i n : Nat),
    (emitFields M x fs i n).1.map Prod.fst = List.range' n (emitFields M x fs i n).1.length
  | [], x, i, n => by simp [emitFields]
  | ty :: rest, x, i, n => by
    have hA := emitAt_vars M ty n (n + 1)
    have hB := emitFields_vars M rest x (i + 1) (n + 1 + (emitAt M n ty (n + 1)).1.length)
    simp only [emitFields, List.map_cons, List.map_append, List.length_cons,
      List.length_append]
    rw [hA, hB, range'_cons_append]
end

end mnm

namespace mnm
open mnm.pass.eliminate_closure

mutual
theorem emitAt_scoped (M : Device → TensorValue) : ∀ (ty : Ty) (x n : Nat) (s : List Nat),
    x ∈ s →
    scopedFrom s (emitAt M x ty n).1 = true ∧
      ((emitAt M x ty n).2 = x ∨ (emitAt M x ty n).2 ∈ (emitAt M x ty n).1.map Prod.fst)
  | .TupleTypeNode fields, x, n, s, hx => by
    obtain ⟨h1, h2⟩ := emitFields_scoped M fields x 0 n s hx
    refine ⟨?_, Or.inr (by simp [emitAt])⟩
    simp only [emitAt]
    rw [scopedFrom_append]
    refine ⟨h1, ?_⟩
    simp only [scopedFrom, freeVars, freeVarsFields_vars, Bool.and_true, List.all_eq_true,
      decide_eq_true_eq]
    intro w hw
    exact List.mem_append_left _ (List.mem_reverse.mpr (h2 w hw))
  | .TensorTypeNode _ _, x, n, s, _ => by simp [emitAt, scopedFrom]
  | .FuncTypeNode _ _, x, n, s, _ => by
    simp [emitAt, scopedFrom, freeVars_placeholder]
  | .OtherType _, x, n, s, _ => by simp [emitAt, scopedFrom]
theorem emitFields_scoped (M : Device → TensorValue) : ∀ (fs : List Ty) (x i n : Nat)
    (s : List Nat), x ∈ s →
    scopedFrom s (emitFields M x fs i n).1 = true ∧
      ∀ r ∈ (emitFields M x fs i n).2, r ∈ (emitFields M x fs i n).1.map Prod.fst
  | [], x, i, n, s, _ => by simp [emitFields, scopedFrom]
  | ty :: rest, x, i, n, s, hx => by
    obtain ⟨a1, a2⟩ := emitAt_scoped M ty n (n + 1) (n :: s) (by simp)
    obtain ⟨b1, b2⟩ := emitFields_scoped M rest x (i + 1)
      (n + 1 + (emitAt M n ty (n + 1)).1.length)
      (((emitAt M n ty (n + 1)).1.map Prod.fst).reverse ++ n :: s)
      (by simp [hx])
    constructor
    · simp only [emitFields, List.cons_append, scopedFrom, freeVars, List.all_cons,
        List.all_nil, Bool.and_true, Bool.and_eq_true, decide_eq_true_eq]
      exact ⟨hx, (scopedFrom_append _ _ _).mpr ⟨a1, b1⟩⟩
    · intro r hr
      simp only [emitFields, List.mem_cons, List.cons_append, List.map_cons, List.map_append,
        List.mem_append] at hr ⊢
      rcases hr with h | h
      · rcases a2 with h2 | h2
        · exact Or.inl (h.trans h2)
        · exact Or.inr (Or.inl (h ▸ h2))
      · exact Or.inr (Or.inr (b2 r h))
end

/-- C14: the pass preserves the let-list invariant.  If the bindings of the
input body bind each variable once, every bound expression references only
function parameters or variables bound before it, the return variable is
defined, and the generated variables are fresh (not bound in the input body),
then for every result type built from tuple, tensor and function types the
pass succeeds and the binding list and return variable of the rewritten body
satisfy the same three conditions. -/
theorem C14_let_list_invariant_kept (M : Device → TensorValue) (ct : CheckedTypes)
    (fresh : Nat) (func : Function) (ell : ExplicitLetList) (ty : Ty)
    (hmake : ExplicitLetList.make func.body = .ok ell) (hty : ct ell.ret = some ty)
    (helim : eliminable ty = true)
    (hinv : LetListInvariant func.params ell.bindings ell.ret)
    (hvars : ∀ v : Nat, v ∈ ell.vars → v < fresh) :
    ∃ (func1 : Function) (ell1 : ExplicitLetList),
      ClosureEliminator.call M ct fresh func = .ok func1 ∧
      ExplicitLetList.make func1.body = .ok ell1 ∧
      LetListInvariant func1.params ell1.bindings ell1.ret := by
  have hl := (make_inv func.body ell hmake).1
  have hb : ell.bindings.map Prod.fst = ell.vars := by
    simp [ExplicitLetList.bindings, List.map_fst_zip, hl]
  obtain ⟨hnd, hsc, hret⟩ := hinv
  have hx : ell.ret ∈ (ell.bindings.map Prod.fst).reverse ++ func.params := by
    rcases List.mem_append.mp hret with h | h
    · exact List.mem_append_right _ h
    · exact List.mem_append_left _ (List.mem_reverse.mpr h)
  obtain ⟨e1, e2⟩ := emitAt_scoped M ty ell.ret fresh _ hx
  refine ⟨_, _, call_ok M ct fresh func ell ty hmake hty helim, make_letChain _ _, ?_⟩
  simp only [ExplicitLetList.bindings]
  rw [zip_map_fst_snd]
  refine ⟨?_, (scopedFrom_append _ _ _).mpr ⟨hsc, e1⟩, ?_⟩
  · rw [List.map_append, emitAt_vars M ty ell.ret fresh]
    refine List.Nodup.append hnd (List.nodup_range' _ _) ?_
    intro v hv1 hv2
    have hv3 : v ∈ ell.vars :=
      hb ▸ (show v ∈ List.map Prod.fst ell.bindings from hv1)
    have h1 := hvars v hv3
    have h2 := (List.mem_range'_1.mp hv2).1
    omega
  · rw [List.map_append]
    rcases e2 with h | h
    · rw [h]
      rcases List.mem_append.mp hret with h3 | h3
      · exact List.mem_append_left _ h3
      · exact List.mem_append_right _ (List.mem_append_left _ h3)
    · exact List.mem_append_right _ (List.mem_append_right _ h)

/-- Witness of C14 on `f(x) = (x, make_closure())`. -/
theorem C14_let_list_invariant_kept_witness :
    ExplicitLetList.make sample.closureFn.body = .ok sample.closureLets ∧
    sample.closureCt sample.closureLets.ret =
      some (.TupleTypeNode [sample.tensorTy, sample.closureTy]) ∧
    eliminable (.TupleTypeNode [sample.tensorTy, sample.closureTy]) = true ∧
    LetListInvariant sample.closureFn.params sample.closureLets.bindings
      sample.closureLets.ret ∧
    (∀ v : Nat, v ∈ sample.closureLets.vars → v < 3) ∧
    ∃ (func1 : Function) (ell1 : ExplicitLetList),
      ClosureEliminator.call sample.ones sample.closureCt 3 sample.closureFn = .ok func1 ∧
      ExplicitLetList.make func1.body = .ok ell1 ∧
      LetListInvariant func1.params ell1.bindings ell1.ret :=
  ⟨rfl, rfl, rfl, by decide, by decide,
    C14_let_list_invariant_kept sample.ones sample.closureCt 3 sample.closureFn
      sample.closureLets (.TupleTypeNode [sample.tensorTy, sample.closureTy]) rfl rfl rfl
      (by decide) (by decide)⟩

end mnm

namespace mnm
open mnm.pass.eliminate_closure

/-! ## Function-typed projections are dead bindings -/

theorem emitAt_mem_range (M : Device → TensorValue) (ty : Ty) (x n p : Nat) (e : Expr)
    (h : (p, e) ∈ (emitAt M x ty n).1) : n ≤ p ∧ p < n + (emitAt M x ty n).1.length := by
  have hp : p ∈ (emitAt M x ty n).1.map Prod.fst := List.mem_map.mpr ⟨(p, e), h, rfl⟩
  rw [emitAt_vars] at hp
  exact List.mem_range'_1.mp hp

theorem emitFields_mem_range (M : Device → TensorValue) (fs : List Ty) (x i n p : Nat)
    (e : Expr) (h : (p, e) ∈ (emitFields M x fs i n).1) :
    n ≤ p ∧ p < n + (emitFields M x fs i n).1.length := by
  have hp : p ∈ (emitFields M x fs i n).1.map Prod.fst := List.mem_map.mpr ⟨(p, e), h, rfl⟩
  rw [emitFields_vars] at hp
  exact List.mem_range'_1.mp hp

theorem scopedFrom_refs : ∀ (bs : List (Nat × Expr)) (s : List Nat),
    scopedFrom s bs = true →
    ∀ b ∈ bs, ∀ w ∈ freeVars b.2, w ∈ s ∨ w ∈ bs.map Prod.fst
  | [], _, _, b, hb, _, _ => absurd hb (List.not_mem_nil _)
  | (v, e) :: rest, s, h, b, hb, w, hw => by
    simp only [scopedFrom, Bool.and_eq_true, List.all_eq_true, decide_eq_true_eq] at h
    rcases List.mem_cons.mp hb with h1 | h1
    · subst h1
      exact Or.inl (h.1 w hw)
    · rcases scopedFrom_refs rest (v :: s) h.2 b h1 w hw with h2 | h2
      · rcases List.mem_cons.mp h2 with h3 | h3
        · exact Or.inr (by simp [h3])
        · exact Or.inl h3
      · exact Or.inr (by simp [h2])

theorem emitAt_refs (M : Device → TensorValue) (ty : Ty) (x n : Nat) (b : Nat × Expr)
    (hb : b ∈ (emitAt M x ty n).1) (w : Nat) (hw : w ∈ freeVars b.2) : w = x ∨ n ≤ w := by
  rcases scopedFrom_refs _ [x] (emitAt_scoped M ty x n [x] (by simp)).1 b hb w hw with h | h
  · exact Or.inl (by simpa using h)
  · rw [emitAt_vars] at h
    exact Or.inr (List.mem_range'_1.mp h).1

theorem emitFields_refs (M : Device → TensorValue) (fs : List Ty) (x i n : Nat)
    (b : Nat × Expr) (hb : b ∈ (emitFields M x fs i n).1) (w : Nat)
    (hw : w ∈ freeVars b.2) : w = x ∨ n ≤ w := by
  rcases scopedFrom_refs _ [x] (emitFields_scoped M fs x i n [x] (by simp)).1 b hb w hw
    with h | h
  · exact Or.inl (by simpa using h)
  · rw [emitFields_vars] at h
    exact Or.inr (List.mem_range'_1.mp h).1

theorem emitFields_snd_range (M : Device → TensorValue) (fs : List Ty) (x i n r : Nat)
    (hr : r ∈ (emitFields M x fs i n).2) : n ≤ r := by
  have h := (emitFields_scoped M fs x i n [x] (by simp)).2 r hr
  rw [emitFields_vars] at h
  exact (List.mem_range'_1.mp h).1

/-- The environments around one step of the field loop: after the projection
binding, and after the bindings of the field. -/
theorem fields_cons_env (M : Device → TensorValue) (ty : Ty) (rest : List Ty) (x i n : Nat)
    (c : CheckedTypes) (all : List Ty) (he : eliminable ty = true)
    (hx : c x = some (.TupleTypeNode all)) (hdrop : all.drop i = ty :: rest) (hlt : x < n)
    (hfr : ∀ v : Nat, n ≤ v → c v = none) :
    inferLets c [(n, .TupleGetItem (.Var x) i)] n = some ty ∧
    (∀ v : Nat, n + 1 ≤ v → inferLets c [(n, .TupleGetItem (.Var x) i)] v = none) ∧
    (∀ v : Nat, v < n + 1 →
      inferLets (inferLets c [(n, .TupleGetItem (.Var x) i)]) (emitAt M n ty (n + 1)).1 v =
        inferLets c [(n, .TupleGetItem (.Var x) i)] v) ∧
    (∀ v : Nat, n + 1 + (emitAt M n ty (n + 1)).1.length ≤ v →
      inferLets (inferLets c [(n, .TupleGetItem (.Var x) i)]) (emitAt M n ty (n + 1)).1 v =
        none) ∧
    inferLets (inferLets c [(n, .TupleGetItem (.Var x) i)]) (emitAt M n ty (n + 1)).1 x =
      some (.TupleTypeNode all) ∧
    all.drop (i + 1) = rest ∧
    (∀ l : List (Nat × Expr),
      inferLets c ((n, .TupleGetItem (.Var x) i) :: (emitAt M n ty (n + 1)).1 ++ l) =
        inferLets (inferLets (inferLets c [(n, .TupleGetItem (.Var x) i)])
          (emitAt M n ty (n + 1)).1) l) := by
  obtain ⟨hget, hdrop1⟩ := drop_cons_get all i ty rest hdrop
  have h0 := inferLets_fresh c n (.TupleGetItem (.Var x) i) (hfr n (Nat.le_refl _))
  have h0ty : inferLets c [(n, .TupleGetItem (.Var x) i)] n = some ty := by
    rw [h0.1]
    simp only [typeOf, hx, projType]
    exact hget
  have h0fr : ∀ v : Nat, n + 1 ≤ v → inferLets c [(n, .TupleGetItem (.Var x) i)] v = none :=
    fun v hv => by rw [h0.2 v (by omega)]; exact hfr v (by omega)
  obtain ⟨_, a2, a3, _⟩ := emitAt_typed M ty n (n + 1)
    (inferLets c [(n, .TupleGetItem (.Var x) i)]) he h0ty (by omega) h0fr
  refine ⟨h0ty, h0fr, a2, a3, ?_, hdrop1, fun l => ?_⟩
  · rw [a2 x (by omega), h0.2 x (by omega), hx]
  · rw [← inferLets_append, ← inferLets_append]
    rfl

theorem emitFields_proj_typed (M : Device → TensorValue) : ∀ (fs : List Ty) (x i n : Nat)
    (c : CheckedTypes) (all : List Ty), eliminableFields fs = true →
    c x = some (.TupleTypeNode all) → all.drop i = fs → x < n →
    (∀ v : Nat, n ≤ v → c v = none) →
    ∀ (j : Nat) (t : Ty), fs.get? j = some t →
      ∃ q, (q, Expr.TupleGetItem (.Var x) (i + j)) ∈ (emitFields M x fs i n).1 ∧
        inferLets c (emitFields M x fs i n).1 q = some t
  | [], x, i, n, c, all, _, _, _, _, _, j, t, h => by simp at h
  | ty :: rest, x, i, n, c, all, he, hx, hdrop, hlt, hfr, j, t, h => by
    have he1 : eliminable ty = true ∧ eliminableFields rest = true := by
      simpa [eliminableFields] using he
    obtain ⟨e1, e2, e3, e4, e5, e6, e7⟩ :=
      fields_cons_env M ty rest x i n c all he1.1 hx hdrop hlt hfr
    obtain ⟨_, b2, _, _⟩ := emitFields_typed M rest x (i + 1)
      (n + 1 + (emitAt M n ty (n + 1)).1.length) _ all he1.2 e5 e6 (by omega) e4
    cases j with
    | zero =>
      have ht : ty = t := by simpa using h
      subst ht
      refine ⟨n, by simp [emitFields], ?_⟩
      simp only [emitFields]
      rw [e7, b2 n (by omega), e3 n (by omega), e1]
    | succ j =>
      obtain ⟨q, hq1, hq2⟩ := emitFields_proj_typed M rest x (i + 1)
        (n + 1 + (emitAt M n ty (n + 1)).1.length) _ all he1.2 e5 e6 (by omega) e4 j t
        (by simpa using h)
      refine ⟨q, ?_, ?_⟩
      · rw [show i + (j + 1) = i + 1 + j by omega]
        simp [emitFields, hq1]
      · simp only [emitFields]
        rw [e7]
        exact hq2

/-- Every field of a tuple-typed value has its projection binding among the
emitted bindings, typed with the field type. -/
theorem emitAt_proj_typed (M : Device → TensorValue) (fields : List Ty) (x n : Nat)
    (c : CheckedTypes) (he : eliminableFields fields = true)
    (hx : c x = some (.TupleTypeNode fields)) (hlt : x < n)
    (hfr : ∀ v : Nat, n ≤ v → c v = none) (j : Nat) (t : Ty) (h : fields.get? j = some t) :
    ∃ q, (q, Expr.TupleGetItem (.Var x) j) ∈ (emitAt M x (.TupleTypeNode fields) n).1 ∧
      inferLets c (emitAt M x (.TupleTypeNode fields) n).1 q = some t := by
  obtain ⟨q, hq1, hq2⟩ := emitFields_proj_typed M fields x 0 n c fields he hx (by simp) hlt hfr
    j t h
  rw [Nat.zero_add] at hq1
  obtain ⟨_, _, h3, _⟩ := emitFields_typed M fields x 0 n c fields he hx (by simp) hlt hfr
  have hlast := inferLets_fresh (inferLets c (emitFields M x fields 0 n).1)
    (n + (emitFields M x fields 0 n).1.length)
    (.Tuple ((emitFields M x fields 0 n).2.map .Var)) (h3 _ (Nat.le_refl _))
  have hr := emitFields_mem_range M fields x 0 n q _ hq1
  refine ⟨q, by simp [emitAt, hq1], ?_⟩
  simp only [emitAt, inferLets_append]
  rw [hlast.2 q (by omega)]
  exact hq2

end mnm

namespace mnm
open mnm.pass.eliminate_closure

mutual
theorem emitAt_dead (M : Device → TensorValue) : ∀ (ty : Ty) (x n : Nat) (c : CheckedTypes),
    eliminable ty = true → c x = some ty → x < n → (∀ v : Nat, n ≤ v → c v = none) →
    ∀ (p : Nat) (e : Expr), (p, e) ∈ (emitAt M x ty n).1 →
      (∀ a r, inferLets c (emitAt M x ty n).1 p = some (.FuncTypeNode a r) →
        (∃ y k, e = Expr.TupleGetItem (.Var y) k) ∧
        (∀ b ∈ (emitAt M x ty n).1, p ∉ freeVars b.2) ∧ (emitAt M x ty n).2 ≠ p) ∧
      (∀ y k fields j a r, e = Expr.TupleGetItem (.Var y) k →
        inferLets c (emitAt M x ty n).1 p = some (.TupleTypeNode fields) →
        fields.get? j = some (.FuncTypeNode a r) →
        ∃ q, (q, Expr.TupleGetItem (.Var p) j) ∈ (emitAt M x ty n).1 ∧
          inferLets c (emitAt M x ty n).1 q = some (.FuncTypeNode a r))
  | .TupleTypeNode fields, x, n, c, he, hx, hlt, hfr, p, e, hmem => by
    have hf : eliminableFields fields = true := by simpa [eliminable] using he
    obtain ⟨_, _, h3, _⟩ := emitFields_typed M fields x 0 n c fields hf hx (by simp) hlt hfr
    have hlast := inferLets_fresh (inferLets c (emitFields M x fields 0 n).1)
      (n + (emitFields M x fields 0 n).1.length)
      (.Tuple ((emitFields M x fields 0 n).2.map .Var)) (h3 _ (Nat.le_refl _))
    have hty := (emitAt_typed M (.TupleTypeNode fields) x n c he hx hlt hfr).1
    simp only [emitAt, inferLets_append, List.mem_append, List.mem_singleton] at hmem hty ⊢
    rcases hmem with hmem | hmem
    · have hr := emitFields_mem_range M fields x 0 n p e hmem
      obtain ⟨d1, d2⟩ := emitFields_dead M fields x 0 n c fields hf hx (by simp) hlt hfr p e hmem
      rw [hlast.2 p (by omega)]
      constructor
      · intro a r hp
        obtain ⟨k1, k2, k3⟩ := d1 a r hp
        refine ⟨k1, ?_, by omega⟩
        intro b hb
        rcases hb with hb | hb
        · exact k2 b hb
        · subst hb
          simpa [freeVars, freeVarsFields_vars] using k3
      · intro y k fs j a r he1 hp hj
        obtain ⟨q, hq1, hq2⟩ := d2 y k fs j a r he1 hp hj
        have hqr := emitFields_mem_range M fields x 0 n q _ hq1
        exact ⟨q, Or.inl hq1, by rw [hlast.2 q (by omega)]; exact hq2⟩
    · have hp1 : p = n + (emitFields M x fields 0 n).1.length := congrArg Prod.fst hmem
      have hp2 : e = .Tuple ((emitFields M x fields 0 n).2.map .Var) := congrArg Prod.snd hmem
      subst hp1
      constructor
      · intro a r hp
        rw [hty] at hp
        simp [elimType] at hp
      · intro y k fs j a r he1 _ _
        rw [hp2] at he1
        cases he1
  | .TensorTypeNode _ _, x, n, c, _, _, _, _, p, e, hmem => by
    simp [emitAt] at hmem
  | .FuncTypeNode _ _, x, n, c, he, hx, hlt, hfr, p, e, hmem => by
    have hty := (emitAt_typed M (.FuncTypeNode _ _) x n c he hx hlt hfr).1
    simp only [emitAt, List.mem_singleton] at hmem hty ⊢
    have hp1 : p = n := congrArg Prod.fst hmem
    have hp2 : e = placeholder M := congrArg Prod.snd hmem
    subst hp1
    constructor
    · intro a r hp
      rw [hty] at hp
      simp [elimType] at hp
    · intro y k fs j a r he1 _ _
      rw [hp2] at he1
      simp [placeholder] at he1
  | .OtherType _, x, n, c, he, _, _, _, _, _, _ => by
    simp [eliminable] at he
theorem emitFields_dead (M : Device → TensorValue) : ∀ (fs : List Ty) (x i n : Nat)
    (c : CheckedTypes) (all : List Ty), eliminableFields fs = true →
    c x = some (.TupleTypeNode all) → all.drop i = fs → x < n →
    (∀ v : Nat, n ≤ v → c v = none) →
    ∀ (p : Nat) (e : Expr), (p, e) ∈ (emitFields M x fs i n).1 →
      (∀ a r, inferLets c (emitFields M x fs i n).1 p = some (.FuncTypeNode a r) →
        (∃ y k, e = Expr.TupleGetItem (.Var y) k) ∧
        (∀ b ∈ (emitFields M x fs i n).1, p ∉ freeVars b.2) ∧
        p ∉ (emitFields M x fs i n).2) ∧
      (∀ y k fields j a r, e = Expr.TupleGetItem (.Var y) k →
        inferLets c (emitFields M x fs i n).1 p = some (.TupleTypeNode fields) →
        fields.get? j = some (.FuncTypeNode a r) →
        ∃ q, (q, Expr.TupleGetItem (.Var p) j) ∈ (emitFields M x fs i n).1 ∧
          inferLets c (emitFields M x fs i n).1 q = some (.FuncTypeNode a r))
  | [], x, i, n, c, all, _, _, _, _, _, p, e, hmem => by
    simp [emitFields] at hmem
  | ty :: rest, x, i, n, c, all, he, hx, hdrop, hlt, hfr, p, e, hmem => by
    have he1 : eliminable ty = true ∧ eliminableFields rest = true := by
      simpa [eliminableFields] using he
    obtain ⟨e1, e2, e3, e4, e5, e6, e7⟩ :=
      fields_cons_env M ty rest x i n c all he1.1 hx hdrop hlt hfr
    obtain ⟨_, _, _, a4⟩ := emitAt_typed M ty n (n + 1)
      (inferLets c [(n, .TupleGetItem (.Var x) i)]) he1.1 e1 (by omega) e2
    obtain ⟨_, b2, _, _⟩ := emitFields_typed M rest x (i + 1)
      (n + 1 + (emitAt M n ty (n + 1)).1.length) _ all he1.2 e5 e6 (by omega) e4
    have hrefs : ∀ b ∈ (emitFields M x (ty :: rest) i n).1, ∀ w : Nat, w ∈ freeVars b.2 →
        (b = (n, Expr.TupleGetItem (.Var x) i) ∧ w = x) ∨
        (b ∈ (emitAt M n ty (n + 1)).1 ∧ (w = n ∨ n + 1 ≤ w)) ∨
        (b ∈ (emitFields M x rest (i + 1) (n + 1 + (emitAt M n ty (n + 1)).1.length)).1 ∧
          (w = x ∨ n + 1 + (emitAt M n ty (n + 1)).1.length ≤ w)) := by
      intro b hb w hw
      simp only [emitFields, List.cons_append, List.mem_cons, List.mem_append] at hb
      rcases hb with hb | hb | hb
      · subst hb
        exact Or.inl ⟨rfl, by simpa [freeVars] using hw⟩
      · exact Or.inr (Or.inl ⟨hb, emitAt_refs M ty n (n + 1) b hb w hw⟩)
      · exact Or.inr (Or.inr ⟨hb, emitFields_refs M rest x (i + 1) _ b hb w hw⟩)
    have hmem2 := hmem
    simp only [emitFields, List.cons_append, List.mem_cons, List.mem_append] at hmem2
    simp only [emitFields, e7]
    rcases hmem2 with hm | hm | hm
    · have hp1 : p = n := congrArg Prod.fst hm
      have hp2 : e = .TupleGetItem (.Var x) i := congrArg Prod.snd hm
      subst hp1
      rw [b2 p (by omega), e3 p (by omega), e1]
      constructor
      · intro a r hp
        have hty : ty = .FuncTypeNode a r := by simpa using hp
        subst hty
        refine ⟨⟨x, i, hp2⟩, ?_, ?_⟩
        · intro b hb hw
          rcases hrefs b (by simpa [emitFields] using hb) p hw with h | h | h
          · have := h.2
            omega
          · have hb2 : b.2 = placeholder M := by
              have := h.1
              simp only [emitAt, List.mem_singleton] at this
              rw [this]
            rw [hb2, freeVars_placeholder] at hw
            simp at hw
          · have h2 := h.2
            have h3 : (emitAt M p (.FuncTypeNode a r) (p + 1)).1.length = 1 := by
              simp [emitAt]
            omega
        · have h2 : (emitAt M p (.FuncTypeNode a r) (p + 1)).2 = p + 1 := by simp [emitAt]
          simp only [List.mem_cons, not_or]
          refine ⟨by omega, fun hr => ?_⟩
          have := emitFields_snd_range M rest x (i + 1) _ p hr
          omega
      · intro y k fs j a r _ hp hj
        have hty : ty = .TupleTypeNode fs := by simpa using hp
        subst hty
        obtain ⟨q, hq1, hq2⟩ := emitAt_proj_typed M fs p (p + 1)
          (inferLets c [(p, .TupleGetItem (.Var x) i)]) (by simpa [eliminable] using he1.1)
          e1 (by omega) e2 j _ hj
        have hqr := emitAt_mem_range M (.TupleTypeNode fs) p (p + 1) q _ hq1
        refine ⟨q, by simp [hq1], ?_⟩
        rw [b2 q (by omega)]
        exact hq2
    · have hr := emitAt_mem_range M ty n (n + 1) p e hm
      obtain ⟨d1, d2⟩ := emitAt_dead M ty n (n + 1)
        (inferLets c [(n, .TupleGetItem (.Var x) i)]) he1.1 e1 (by omega) e2 p e hm
      rw [b2 p (by omega)]
      constructor
      · intro a r hp
        obtain ⟨k1, k2, k3⟩ := d1 a r hp
        refine ⟨k1, ?_, ?_⟩
        · intro b hb hw
          rcases hrefs b (by simpa [emitFields] using hb) p hw with h | h | h
          · have := h.2
            omega
          · exact k2 b h.1 hw
          · have := h.2
            omega
        · simp only [List.mem_cons, not_or]
          refine ⟨fun h => k3 h.symm, fun hr2 => ?_⟩
          have := emitFields_snd_range M rest x (i + 1) _ p hr2
          omega
      · intro y k fs j a r he2 hp hj
        obtain ⟨q, hq1, hq2⟩ := d2 y k fs j a r he2 hp hj
        have hqr := emitAt_mem_range M ty n (n + 1) q _ hq1
        refine ⟨q, by simp [hq1], ?_⟩
        rw [b2 q (by omega)]
        exact hq2
    · have hr := emitFields_mem_range M rest x (i + 1) _ p e hm
      obtain ⟨d1, d2⟩ := emitFields_dead M rest x (i + 1)
        (n + 1 + (emitAt M n ty (n + 1)).1.length) _ all he1.2 e5 e6 (by omega) e4 p e hm
      constructor
      · intro a r hp
        obtain ⟨k1, k2, k3⟩ := d1 a r hp
        refine ⟨k1, ?_, ?_⟩
        · intro b hb hw
          rcases hrefs b (by simpa [emitFields] using hb) p hw with h | h | h
          · have := h.2
            omega
          · have hw2 : p ∈ freeVars b.2 := hw
            rcases scopedFrom_refs _ [n] (emitAt_scoped M ty n (n + 1) [n] (by simp)).1 b h.1
              p hw2 with h5 | h5
            · have : p = n := by simpa using h5
              omega
            · rw [emitAt_vars] at h5
              have := (List.mem_range'_1.mp h5).2
              omega
          · exact k2 b h.1 hw
        · simp only [List.mem_cons, not_or]
          exact ⟨by omega, k3⟩
      · intro y k fs j a r he2 hp hj
        obtain ⟨q, hq1, hq2⟩ := d2 y k fs j a r he2 hp hj
        exact ⟨q, by simp [hq1], hq2⟩
end

end mnm

namespace mnm
open mnm.pass.eliminate_closure

/-- C19: the replaced closure stays in the program and is dead.  With the
generated variables fresh and typed by inference: for the return variable and
for every generated projection variable `x` of a tuple type with a
function-typed field `i`, the rewritten binding list contains a projection
binding `p = TupleGetItem(x, i)` of that function type; every generated
binding of a function type is such a projection, its variable is referenced by
no generated binding and is not the returned variable.  A function-typed
return variable keeps its binding, is referenced by no generated binding and
is not the returned variable. -/
theorem C19_closure_projection_is_dead (M : Device → TensorValue) (ct : CheckedTypes)
    (fresh : Nat) (func : Function) (ell : ExplicitLetList) (ty : Ty)
    (hmake : ExplicitLetList.make func.body = .ok ell) (hty : ct ell.ret = some ty)
    (helim : eliminable ty = true) (hvars : ∀ v : Nat, v ∈ ell.vars → v < fresh)
    (hfresh : ∀ v : Nat, fresh ≤ v → ct v = none) :
    ∃ (func1 : Function) (new : List (Nat × Expr)) (ret1 : Nat),
      ClosureEliminator.call M ct fresh func = .ok func1 ∧
      ExplicitLetList.make func1.body =
        .ok ⟨ell.vars ++ new.map Prod.fst, ell.exprs ++ new.map Prod.snd, ret1⟩ ∧
      (∀ fields i a r, ty = .TupleTypeNode fields →
        fields.get? i = some (.FuncTypeNode a r) →
        ∃ p, (p, Expr.TupleGetItem (.Var ell.ret) i) ∈ new ∧
          inferLets ct (ell.bindings ++ new) p = some (.FuncTypeNode a r)) ∧
      (∀ x e fields i a r, (x, e) ∈ new → (∃ y k, e = Expr.TupleGetItem (.Var y) k) →
        inferLets ct (ell.bindings ++ new) x = some (.TupleTypeNode fields) →
        fields.get? i = some (.FuncTypeNode a r) →
        ∃ p, (p, Expr.TupleGetItem (.Var x) i) ∈ new ∧
          inferLets ct (ell.bindings ++ new) p = some (.FuncTypeNode a r)) ∧
      (∀ p e a r, (p, e) ∈ new →
        inferLets ct (ell.bindings ++ new) p = some (.FuncTypeNode a r) →
        (∃ y k, e = Expr.TupleGetItem (.Var y) k) ∧
        (∀ b ∈ new, p ∉ freeVars b.2) ∧ ret1 ≠ p) ∧
      (∀ a r, ty = .FuncTypeNode a r →
        ret1 ≠ ell.ret ∧ (∀ b ∈ new, ell.ret ∉ freeVars b.2) ∧
        (ell.ret ∈ ell.vars → ell.ret ∈ ell.vars ++ new.map Prod.fst)) := by
  have hl := (make_inv func.body ell hmake).1
  have hold := inferLets_old fresh ell.bindings ct
    (fun b hb => hvars b.1 (List.of_mem_zip hb).1) hfresh
  have hlt : (ell.ret : Nat) < fresh := by
    by_contra hge
    rw [hfresh ell.ret (Nat.le_of_not_lt hge)] at hty
    cases hty
  have hty0 := hold.2 _ _ hty
  refine ⟨_, (emitAt M ell.ret ty fresh).1, (emitAt M ell.ret ty fresh).2,
    call_ok M ct fresh func ell ty hmake hty helim, ?_, ?_, ?_, ?_, ?_⟩
  · rw [make_letChain]
    simp [ExplicitLetList.bindings, List.map_fst_zip, List.map_snd_zip, hl]
  · intro fields i a r hfields hi
    subst hfields
    rw [inferLets_append]
    exact emitAt_proj_typed M fields ell.ret fresh (inferLets ct ell.bindings)
      (by simpa [eliminable] using helim) hty0 hlt hold.1 i _ hi
  · intro x e fields i a r hmem hproj hx hi
    rw [inferLets_append] at hx ⊢
    obtain ⟨y, k, hyk⟩ := hproj
    exact (emitAt_dead M ty ell.ret fresh (inferLets ct ell.bindings) helim hty0 hlt hold.1
      x e hmem).2 y k fields i a r hyk hx hi
  · intro p e a r hmem hp
    rw [inferLets_append] at hp
    exact (emitAt_dead M ty ell.ret fresh (inferLets ct ell.bindings) helim hty0 hlt hold.1
      p e hmem).1 a r hp
  · intro a r hfun
    subst hfun
    refine ⟨?_, ?_, fun h => List.mem_append_left _ h⟩
    · simp only [emitAt]
      intro h
      rw [h] at hlt
      exact Nat.lt_irrefl _ hlt
    · intro b hb
      simp only [emitAt, List.mem_singleton] at hb
      rw [hb, freeVars_placeholder]
      simp

/-- Witness of C19 on `f(x) = (x, make_closure())`. -/
theorem C19_closure_projection_is_dead_witness :
    ExplicitLetList.make sample.closureFn.body = .ok sample.closureLets ∧
    sample.closureCt sample.closureLets.ret =
      some (.TupleTypeNode [sample.tensorTy, sample.closureTy]) ∧
    eliminable (.TupleTypeNode [sample.tensorTy, sample.closureTy]) = true ∧
    (∀ v : Nat, v ∈ sample.closureLets.vars → v < 3) ∧
    (∀ v : Nat, 3 ≤ v → sample.closureCt v = none) ∧
    ∃ (func1 : Function) (new : List (Nat × Expr)) (ret1 : Nat),
      ClosureEliminator.call sample.ones sample.closureCt 3 sample.closureFn = .ok func1 ∧
      ExplicitLetList.make func1.body =
        .ok ⟨sample.closureLets.vars ++ new.map Prod.fst,
          sample.closureLets.exprs ++ new.map Prod.snd, ret1⟩ ∧
      (∀ fields i a r, Ty.TupleTypeNode [sample.tensorTy, sample.closureTy] =
          .TupleTypeNode fields →
        fields.get? i = some (.FuncTypeNode a r) →
        ∃ p, (p, Expr.TupleGetItem (.Var sample.closureLets.ret) i) ∈ new ∧
          inferLets sample.closureCt (sample.closureLets.bindings ++ new) p =
            some (.FuncTypeNode a r)) ∧
      (∀ x e fields i a r, (x, e) ∈ new → (∃ y k, e = Expr.TupleGetItem (.Var y) k) →
        inferLets sample.closureCt (sample.closureLets.bindings ++ new) x =
          some (.TupleTypeNode fields) →
        fields.get? i = some (.FuncTypeNode a r) →
        ∃ p, (p, Expr.TupleGetItem (.Var x) i) ∈ new ∧
          inferLets sample.closureCt (sample.closureLets.bindings ++ new) p =
            some (.FuncTypeNode a r)) ∧
      (∀ p e a r, (p, e) ∈ new →
        inferLets sample.closureCt (sample.closureLets.bindings ++ new) p =
          some (.FuncTypeNode a r) →
        (∃ y k, e = Expr.TupleGetItem (.Var y) k) ∧
        (∀ b ∈ new, p ∉ freeVars b.2) ∧ ret1 ≠ p) ∧
      (∀ a r, Ty.TupleTypeNode [sample.tensorTy, sample.closureTy] = .FuncTypeNode a r →
        ret1 ≠ sample.closureLets.ret ∧
        (∀ b ∈ new, sample.closureLets.ret ∉ freeVars b.2) ∧
        (sample.closureLets.ret ∈ sample.closureLets.vars →
          sample.closureLets.ret ∈ sample.closureLets.vars ++ new.map Prod.fst)) :=
  ⟨rfl, rfl, rfl, by decide,
    (fun v hv => by
      have h0 : v ≠ 0 := by omega
      have h1 : v ≠ 1 := by omega
      have h2 : v ≠ 2 := by omega
      simp [sample.closureCt, h0, h1, h2]),
    C19_closure_projection_is_dead sample.ones sample.closureCt 3 sample.closureFn
      sample.closureLets (.TupleTypeNode [sample.tensorTy, sample.closureTy]) rfl rfl rfl
      (by decide)
      (fun v hv => by
        have h0 : v ≠ 0 := by omega
        have h1 : v ≠ 1 := by omega
        have h2 : v ≠ 2 := by omega
        simp [sample.closureCt, h0, h1, h2])⟩

end mnm

namespace torch_lazy_tensors
namespace ir

/-! ## Descriptions of nodes determine their parameters -/

theorem digitChar_isDigit : ∀ d, d < 10 → (Nat.digitChar d).isDigit = true := by decide

theorem digitChar_inj : ∀ a, a < 10 → ∀ b, b < 10 → Nat.digitChar a = Nat.digitChar b →
    a = b := by decide

theorem map_digitChar_inj : ∀ (l1 l2 : List Nat), (∀ a ∈ l1, a < 10) → (∀ b ∈ l2, b < 10) →
    l1.map Nat.digitChar = l2.map Nat.digitChar → l1 = l2
  | [], [], _, _, _ => rfl
  | [], _ :: _, _, _, h => by simp at h
  | _ :: _, [], _, _, h => by simp at h
  | a :: l1, b :: l2, h1, h2, h => by
    simp only [List.map_cons, List.cons.injEq] at h
    have hab := digitChar_inj a (h1 a (by simp)) b (h2 b (by simp)) h.1
    have ih := map_digitChar_inj l1 l2 (fun x hx => h1 x (by simp [hx]))
      (fun x hx => h2 x (by simp [hx])) h.2
    rw [hab, ih]

theorem decimalNat_digits (n : Nat) : ∀ c ∈ decimalNat n, c.isDigit = true := by
  intro c hc
  unfold decimalNat at hc
  split at hc
  · have : c = '0' := by simpa using hc
    rw [this]
    decide
  · obtain ⟨d, hd, rfl⟩ := List.mem_map.mp hc
    exact digitChar_isDigit d (Nat.digits_lt_base (by decide) (List.mem_reverse.mp hd))

theorem decimalNat_ne_nil (n : Nat) : decimalNat n ≠ [] := by
  unfold decimalNat
  split
  · simp
  · rename_i h
    simp [Nat.digits_ne_nil_iff_ne_zero.mpr h]

theorem decimalNat_pos_ne_zero (m : Nat) (hm : m ≠ 0) :
    (Nat.digits 10 m).reverse.map Nat.digitChar ≠ ['0'] := by
  intro h
  have h1 : (Nat.digits 10 m).reverse.map Nat.digitChar = [0].map Nat.digitChar := by
    rw [h]
    rfl
  have h2 := map_digitChar_inj _ _
    (fun a ha => Nat.digits_lt_base (by decide) (List.mem_reverse.mp ha))
    (fun b hb => by simp at hb; omega) h1
  have h3 : Nat.digits 10 m = [0] := by
    have := congrArg List.reverse h2
    simpa using this
  have h4 := Nat.getLast_digit_ne_zero 10 hm
  simp [h3] at h4

theorem decimalNat_inj (n m : Nat) (h : decimalNat n = decimalNat m) : n = m := by
  unfold decimalNat at h
  by_cases hn : n = 0
  · by_cases hm : m = 0
    · rw [hn, hm]
    · rw [if_pos hn, if_neg hm] at h
      exact absurd h.symm (decimalNat_pos_ne_zero m hm)
  · by_cases hm : m = 0
    · rw [if_neg hn, if_pos hm] at h
      exact absurd h (decimalNat_pos_ne_zero n hn)
    · rw [if_neg hn, if_neg hm] at h
      have h2 := map_digitChar_inj _ _
        (fun a ha => Nat.digits_lt_base (by decide) (List.mem_reverse.mp ha))
        (fun b hb => Nat.digits_lt_base (by decide) (List.mem_reverse.mp hb)) h
      exact Nat.digits_inj_iff.mp (List.reverse_injective h2)

/-- The characters of a printed integer: digits and the minus sign. -/
theorem decimalInt_chars (n : Int) : ∀ c ∈ decimalInt n, c.isDigit = true ∨ c = '-' := by
  intro c hc
  cases n with
  | ofNat m => exact Or.inl (decimalNat_digits m c hc)
  | negSucc m =>
    simp only [decimalInt, List.mem_cons] at hc
    rcases hc with h | h
    · exact Or.inr h
    · exact Or.inl (decimalNat_digits _ c h)

theorem decimalInt_ne_nil (n : Int) : decimalInt n ≠ [] := by
  cases n with
  | ofNat m => exact decimalNat_ne_nil m
  | negSucc m => simp [decimalInt]

theorem decimalInt_inj (n m : Int) (h : decimalInt n = decimalInt m) : n = m := by
  cases n with
  | ofNat a =>
    cases m with
    | ofNat b =>
      have := decimalNat_inj a b h
      rw [this]
    | negSucc b =>
      simp only [decimalInt] at h
      have hne := decimalNat_ne_nil a
      cases ha : decimalNat a with
      | nil => exact absurd ha hne
      | cons c rest =>
        rw [ha] at h
        have hc : c = '-' := (List.cons.inj h).1
        have hd := decimalNat_digits a c (by rw [ha]; simp)
        rw [hc] at hd
        exact absurd hd (by decide)
  | negSucc a =>
    cases m with
    | ofNat b =>
      simp only [decimalInt] at h
      have hne := decimalNat_ne_nil b
      cases hb : decimalNat b with
      | nil => exact absurd hb hne
      | cons c rest =>
        rw [hb] at h
        have hc : c = '-' := (List.cons.inj h).1.symm
        have hd := decimalNat_digits b c (by rw [hb]; simp)
        rw [hc] at hd
        exact absurd hd (by decide)
    | negSucc b =>
      simp only [decimalInt, List.cons.injEq, true_and] at h
      have := decimalNat_inj _ _ h
      have hab : a = b := by omega
      rw [hab]

/-- Two texts that agree up to the first occurrence of a separator agree
before it and after it. -/
theorem split_at_char (c : Char) : ∀ (a b r s : List Char), c ∉ a → c ∉ b →
    a ++ c :: r = b ++ c :: s → a = b ∧ r = s
  | [], [], r, s, _, _, h => by simpa using h
  | [], y :: b, r, s, _, hb, h => by
    simp only [List.nil_append, List.cons_append, List.cons.injEq] at h
    exact absurd (by simp [h.1]) hb
  | x :: a, [], r, s, ha, _, h => by
    simp only [List.nil_append, List.cons_append, List.cons.injEq] at h
    exact absurd (by simp [h.1]) ha
  | x :: a, y :: b, r, s, ha, hb, h => by
    simp only [List.cons_append, List.cons.injEq] at h
    have ih := split_at_char c a b r s (fun hm => ha (by simp [hm]))
      (fun hm => hb (by simp [hm])) h.2
    exact ⟨by rw [h.1, ih.1], ih.2⟩

theorem comma_not_mem_decimalInt (n : Int) : ',' ∉ decimalInt n := by
  intro h
  rcases decimalInt_chars n _ h with h1 | h1
  · exact absurd h1 (by decide)
  · exact absurd h1 (by decide)

end ir
end torch_lazy_tensors

namespace torch_lazy_tensors
namespace ir

theorem StrJoin_chars : ∀ (xs : List Int), ∀ c ∈ (StrJoin xs ", ").data,
    c.isDigit = true ∨ c = '-' ∨ c = ',' ∨ c = ' '
  | [], c, h => by simp [StrJoin] at h
  | [x], c, h => by
    rcases decimalInt_chars x c (by simpa [StrJoin, showInt] using h) with h1 | h1
    · exact Or.inl h1
    · exact Or.inr (Or.inl h1)
  | x :: y :: rest, c, h => by
    simp only [StrJoin, String.data_append, showInt, List.mem_append] at h
    rcases h with (h | h) | h
    · rcases decimalInt_chars x c h with h1 | h1
      · exact Or.inl h1
      · exact Or.inr (Or.inl h1)
    · have h2 : c = ',' ∨ c = ' ' := by
        have h3 : c ∈ [',', ' '] := h
        simpa using h3
      rcases h2 with h2 | h2
      · exact Or.inr (Or.inr (Or.inl h2))
      · exact Or.inr (Or.inr (Or.inr h2))
    · exact StrJoin_chars (y :: rest) c h

theorem paren_not_mem_StrJoin (xs : List Int) : ')' ∉ (StrJoin xs ", ").data := by
  intro h
  rcases StrJoin_chars xs _ h with h1 | h1 | h1 | h1 <;> exact absurd h1 (by decide)

theorem StrJoin_cons_cons (x y : Int) (rest : List Int) :
    (StrJoin (x :: y :: rest) ", ").data =
      decimalInt x ++ ',' :: (' ' :: (StrJoin (y :: rest) ", ").data) := by
  simp only [StrJoin, String.data_append, showInt, List.append_assoc]
  rfl

theorem StrJoin_cons_ne_nil (x : Int) (rest : List Int) :
    (StrJoin (x :: rest) ", ").data ≠ [] := by
  cases rest with
  | nil => simpa [StrJoin, showInt] using decimalInt_ne_nil x
  | cons y rest2 =>
    rw [StrJoin_cons_cons]
    intro h
    exact decimalInt_ne_nil x (List.append_eq_nil.mp h).1

theorem StrJoin_inj : ∀ (xs ys : List Int),
    (StrJoin xs ", ").data = (StrJoin ys ", ").data → xs = ys
  | [], [], _ => rfl
  | [], y :: ys, h => absurd h.symm (StrJoin_cons_ne_nil y ys)
  | x :: xs, [], h => absurd h (StrJoin_cons_ne_nil x xs)
  | [x], [y], h => by
    have := decimalInt_inj x y (by simpa [StrJoin, showInt] using h)
    rw [this]
  | [x], y :: y2 :: ys, h => by
    rw [StrJoin_cons_cons] at h
    have hx : ',' ∈ (StrJoin [x] ", ").data := by
      rw [h]
      simp
    exact absurd (by simpa [StrJoin, showInt] using hx) (comma_not_mem_decimalInt x)
  | x :: x2 :: xs, [y], h => by
    rw [StrJoin_cons_cons] at h
    have hy : ',' ∈ (StrJoin [y] ", ").data := by
      rw [← h]
      simp
    exact absurd (by simpa [StrJoin, showInt] using hy) (comma_not_mem_decimalInt y)
  | x :: x2 :: xs, y :: y2 :: ys, h => by
    rw [StrJoin_cons_cons, StrJoin_cons_cons] at h
    obtain ⟨h1, h2⟩ := split_at_char ',' _ _ _ _ (comma_not_mem_decimalInt x)
      (comma_not_mem_decimalInt y) h
    have hxy := decimalInt_inj x y h1
    have ih := StrJoin_inj (x2 :: xs) (y2 :: ys) (List.cons.inj h2).2
    rw [hxy, ih]

theorem showBool_inj (a b : Bool) (h : (showBool a).data = (showBool b).data) : a = b := by
  cases a <;> cases b <;> first | rfl | (exact absurd h (by decide))

namespace ops

/-- C17: the description of a `MaxPoolNd` node is the base description
followed by `, spatial_dim_count=`, the count, `, kernel_size=(`, the kernel
sizes joined by `, `, `), stride=(`, the strides, `), padding=(`, the
paddings, `), ceil_mode=` and 0 or 1.  For two nodes with the same base
description the descriptions are equal exactly when the five parameters are
equal. -/
theorem C17_description_determines_parameters (base : Node → String) (n1 n2 : MaxPoolNd) :
    MaxPoolNd.ToString base n1 =
      base n1.node ++ ", spatial_dim_count=" ++ showInt n1.spatial_dim_count_ ++
        ", kernel_size=(" ++ StrJoin n1.kernel_size_ ", " ++ "), stride=(" ++
        StrJoin n1.stride_ ", " ++ "), padding=(" ++ StrJoin n1.padding_ ", " ++
        "), ceil_mode=" ++ showBool n1.ceil_mode_ ∧
    (base n1.node = base n2.node →
      (MaxPoolNd.ToString base n1 = MaxPoolNd.ToString base n2 ↔
        (n1.spatial_dim_count_ = n2.spatial_dim_count_ ∧ n1.kernel_size_ = n2.kernel_size_ ∧
          n1.stride_ = n2.stride_ ∧ n1.padding_ = n2.padding_ ∧
          n1.ceil_mode_ = n2.ceil_mode_))) := by
  refine ⟨rfl, fun hb => ⟨fun h => ?_, fun h => ?_⟩⟩
  · have hd := congrArg String.data h
    simp only [MaxPoolNd.ToString, String.data_append, List.append_assoc, hb] at hd
    have h1 := List.append_cancel_left (List.append_cancel_left hd)
    simp only [List.cons_append, List.nil_append, showInt] at h1
    obtain ⟨e1, h2⟩ := split_at_char ',' _ _ _ _
      (comma_not_mem_decimalInt n1.spatial_dim_count_)
      (comma_not_mem_decimalInt n2.spatial_dim_count_) h1
    simp only [List.cons.injEq, true_and] at h2
    obtain ⟨e2, h3⟩ := split_at_char ')' _ _ _ _ (paren_not_mem_StrJoin n1.kernel_size_)
      (paren_not_mem_StrJoin n2.kernel_size_) h2
    simp only [List.cons.injEq, true_and] at h3
    obtain ⟨e3, h4⟩ := split_at_char ')' _ _ _ _ (paren_not_mem_StrJoin n1.stride_)
      (paren_not_mem_StrJoin n2.stride_) h3
    simp only [List.cons.injEq, true_and] at h4
    obtain ⟨e4, h5⟩ := split_at_char ')' _ _ _ _ (paren_not_mem_StrJoin n1.padding_)
      (paren_not_mem_StrJoin n2.padding_) h4
    simp only [List.cons.injEq, true_and] at h5
    exact ⟨decimalInt_inj _ _ e1, StrJoin_inj _ _ e2, StrJoin_inj _ _ e3, StrJoin_inj _ _ e4,
      showBool_inj _ _ h5⟩
  · obtain ⟨e1, e2, e3, e4, e5⟩ := h
    simp only [MaxPoolNd.ToString, hb, e1, e2, e3, e4, e5]

end ops
end ir
end torch_lazy_tensors

namespace torch_lazy_tensors
namespace ir
namespace ops

theorem decimalInt_ofNat (m : Nat) : decimalInt (Int.ofNat m) = decimalNat m := rfl

theorem showInt_two : showInt 2 = "2" := by
  show String.mk (decimalInt (Int.ofNat 2)) = "2"
  rw [decimalInt_ofNat]
  simp [decimalNat, Nat.digitChar]

theorem showInt_three : showInt 3 = "3" := by
  show String.mk (decimalInt (Int.ofNat 3)) = "3"
  rw [decimalInt_ofNat]
  simp [decimalNat, Nat.digitChar]

theorem showInt_one : showInt 1 = "1" := by
  show String.mk (decimalInt (Int.ofNat 1)) = "1"
  rw [decimalInt_ofNat]
  simp [decimalNat, Nat.digitChar]

/-- Witness of C17 on `MaxPoolNd(v0, 2, (3, 3), (2, 2), (1, 1), true)` and the
same node with `ceil_mode = false`, with the operator name as base
description: the two descriptions differ. -/
theorem C17_description_determines_parameters_witness :
    MaxPoolNd.ToString (fun n => n.op) sample.pool =
      "aten::max_pool2d, spatial_dim_count=2, kernel_size=(3, 3), stride=(2, 2), " ++
        "padding=(1, 1), ceil_mode=1" ∧
    (fun n : Node => n.op) sample.pool.node = (fun n : Node => n.op) sample.poolFloor.node ∧
    MaxPoolNd.ToString (fun n => n.op) sample.pool ≠
      MaxPoolNd.ToString (fun n => n.op) sample.poolFloor :=
  ⟨by
    simp only [MaxPoolNd.ToString, sample.pool, StrJoin, showBool, showInt_two, showInt_three,
      showInt_one]
    rfl,
    rfl,
    fun h => absurd
      (((C17_description_determines_parameters (fun n => n.op) sample.pool
        sample.poolFloor).2 rfl).mp h).2.2.2.2 (by decide)⟩

end ops
end ir
end torch_lazy_tensors

namespace torch_lazy_tensors
namespace ir
namespace ops

/-! ## Construction of pooling nodes -/

theorem message_inj (n m : Int)
    (h : (NodeError.InvalidSpatialDims n).message = (NodeError.InvalidSpatialDims m).message) :
    n = m := by
  simp only [NodeError.message, Option.some.injEq] at h
  have hd := congrArg String.data h
  simp only [String.data_append] at hd
  exact decimalInt_inj n m (List.append_cancel_left hd)

theorem showInt_zero : showInt 0 = "0" := by
  show String.mk (decimalInt (Int.ofNat 0)) = "0"
  rw [decimalInt_ofNat]
  simp [decimalNat]

theorem showInt_neg_one : showInt (-1) = "-1" := by
  show String.mk (decimalInt (Int.negSucc 0)) = "-1"
  simp [decimalInt, decimalNat, Nat.digitChar]

/-- C11: constructing a `MaxPoolNd` succeeds exactly when `spatial_dim_count`
is 1, 2 or 3; the node then has the operator `max_pool1d`, `max_pool2d` or
`max_pool3d` and two outputs.  For every other count (0 and negative values
included) the constructor returns the error and no node.  The error text is
"Invalid number of spatial dimensions: " followed by the decimal text of the
count (a minus sign for a negative count, then its digits), and it names the
count: two counts with the same error text are the same count. -/
theorem C11_max_pool_construction (u : Util) (input : Value) (spatial_dim_count : Int)
    (kernel_size stride padding : List Int) (ceil_mode : Bool) :
    ((∃ n, MaxPoolNd.new u input spatial_dim_count kernel_size stride padding ceil_mode =
        .ok n) ↔
      (spatial_dim_count = 1 ∨ spatial_dim_count = 2 ∨ spatial_dim_count = 3)) ∧
    (∀ n, MaxPoolNd.new u input spatial_dim_count kernel_size stride padding ceil_mode = .ok n →
      n.node.num_outputs = 2 ∧
      (spatial_dim_count = 1 → n.node.op = "aten::max_pool1d") ∧
      (spatial_dim_count = 2 → n.node.op = "aten::max_pool2d") ∧
      (spatial_dim_count = 3 → n.node.op = "aten::max_pool3d")) ∧
    (¬ (spatial_dim_count = 1 ∨ spatial_dim_count = 2 ∨ spatial_dim_count = 3) →
      MaxPoolNd.new u input spatial_dim_count kernel_size stride padding ceil_mode =
        .error (.InvalidSpatialDims spatial_dim_count) ∧
      (NodeError.InvalidSpatialDims spatial_dim_count).message =
        some ("Invalid number of spatial dimensions: " ++ showInt spatial_dim_count) ∧
      (∃ text, (NodeError.InvalidSpatialDims spatial_dim_count).message = some text ∧
        text.data = "Invalid number of spatial dimensions: ".data ++
          decimalInt spatial_dim_count) ∧
      decimalInt spatial_dim_count ≠ [] ∧
      (∀ other : Int,
        (NodeError.InvalidSpatialDims spatial_dim_count).message =
          (NodeError.InvalidSpatialDims other).message → spatial_dim_count = other) ∧
      (∀ (other : Int) (input2 : Value) (kernel_size2 stride2 padding2 : List Int)
        (ceil_mode2 : Bool) (err err2 : NodeError),
        MaxPoolNd.new u input spatial_dim_count kernel_size stride padding ceil_mode =
          .error err →
        MaxPoolNd.new u input2 other kernel_size2 stride2 padding2 ceil_mode2 = .error err2 →
        err.message = err2.message → spatial_dim_count = other)) := by
  have hmsg : ∀ other : Int,
      (NodeError.InvalidSpatialDims spatial_dim_count).message =
        (NodeError.InvalidSpatialDims other).message → spatial_dim_count = other :=
    fun other h => message_inj spatial_dim_count other h
  have hdata : ∃ text, (NodeError.InvalidSpatialDims spatial_dim_count).message = some text ∧
      text.data = "Invalid number of spatial dimensions: ".data ++
        decimalInt spatial_dim_count :=
    ⟨_, rfl, by simp only [String.data_append, showInt]⟩
  by_cases h1 : spatial_dim_count = 1
  · subst h1
    simp [MaxPoolNd.new, MaxPoolNdSymbol]
  · by_cases h2 : spatial_dim_count = 2
    · subst h2
      simp [MaxPoolNd.new, MaxPoolNdSymbol]
    · by_cases h3 : spatial_dim_count = 3
      · subst h3
        simp [MaxPoolNd.new, MaxPoolNdSymbol]
      · have hnew : MaxPoolNd.new u input spatial_dim_count kernel_size stride padding
            ceil_mode = .error (.InvalidSpatialDims spatial_dim_count) := by
          simp [MaxPoolNd.new, MaxPoolNdSymbol_invalid spatial_dim_count h1 h2 h3]
        refine ⟨?_, ?_, fun _ => ⟨hnew, rfl, hdata, decimalInt_ne_nil _, hmsg, ?_⟩⟩
        · simp [hnew, h1, h2, h3]
        · intro n hn
          rw [hnew] at hn
          cases hn
        · intro other input2 kernel_size2 stride2 padding2 ceil_mode2 err err2 he he2 hm
          rw [hnew] at he
          cases he
          have hother : MaxPoolNdSymbol other = .error (.InvalidSpatialDims other) := by
            by_cases o1 : other = 1
            · subst o1
              simp [MaxPoolNd.new, MaxPoolNdSymbol] at he2
            · by_cases o2 : other = 2
              · subst o2
                simp [MaxPoolNd.new, MaxPoolNdSymbol] at he2
              · by_cases o3 : other = 3
                · subst o3
                  simp [MaxPoolNd.new, MaxPoolNdSymbol] at he2
                · exact MaxPoolNdSymbol_invalid other o1 o2 o3
          simp only [MaxPoolNd.new, hother] at he2
          cases he2
          exact message_inj _ _ hm

/-- Witness of C11: counts 2, 0 and -1, with the error texts of 0 and -1. -/
theorem C11_max_pool_construction_witness :
    MaxPoolNd.new sample.util sample.v0 2 [3, 3] [2, 2] [1, 1] true = .ok sample.pool ∧
    sample.pool.node.op = "aten::max_pool2d" ∧ sample.pool.node.num_outputs = 2 ∧
    MaxPoolNd.new sample.util sample.v0 0 [3, 3] [2, 2] [1, 1] true =
      .error (.InvalidSpatialDims 0) ∧
    (NodeError.InvalidSpatialDims 0).message =
      some "Invalid number of spatial dimensions: 0" ∧
    (NodeError.InvalidSpatialDims (-1)).message =
      some "Invalid number of spatial dimensions: -1" ∧
    (NodeError.InvalidSpatialDims (-1)).message ≠ (NodeError.InvalidSpatialDims 0).message ∧
    MaxPoolNd.new sample.util sample.v0 (-1) [3, 3] [2, 2] [1, 1] true =
      .error (.InvalidSpatialDims (-1)) :=
  ⟨rfl, rfl, rfl, rfl,
    (by
      simp only [NodeError.message, showInt_zero]
      rfl),
    (by
      simp only [NodeError.message, showInt_neg_one]
      rfl),
    (fun h => absurd
      (((C11_max_pool_construction sample.util sample.v0 (-1) [3, 3] [2, 2] [1, 1] true).2.2
        (by decide)).2.2.2.2.1 0 h) (by decide)),
    ((C11_max_pool_construction sample.util sample.v0 (-1) [3, 3] [2, 2] [1, 1] true).2.2
      (by decide)).1⟩

end ops
end ir
end torch_lazy_tensors
